import Mathlib

/-!
Affix patterns: encoded token stream, parsers and renderer.

A shallow embedding of `source/i18n/affixpatternparser.cpp`.

* A `UChar` is a natural number (below `65536`) and a `UnicodeString` is the
  list of its code units.
* `int32_t` quantities (lengths, indices, the literal length that `addLiteral`
  and the iterator reassemble) are natural numbers.  The embedding agrees with
  the C++ code as long as these stay below `2 ^ 31`, which is the range of a
  `UnicodeString` length; theorems that depend on it say so in a hypothesis.
* A `while`/`for` loop is a recursive function; where the loop counter does not
  decrease structurally it takes a fuel argument, and the callers pass a fuel
  that the loop cannot exhaust.
-/

namespace Icu

/-- Modelled from the spec: literal token kind, the first enumerator of
`AffixPattern::ETokenType`.  The enumeration is declared in
`affixpatternparser.h`, which is not among the sources; the token kinds are
literal, percent, permille, currency and negative sign, numbered in declaration
order from zero, followed by the end marker.  A token kind is the natural
number of its enumerator. -/
def kLiteral : Nat := 0

/-- Modelled from the spec: percent token kind. -/
def kPercent : Nat := 1

/-- Modelled from the spec: permille token kind. -/
def kPerMill : Nat := 2

/-- Modelled from the spec: currency token kind. -/
def kCurrency : Nat := 3

/-- Modelled from the spec: negative-sign token kind. -/
def kNegative : Nat := 4

/-- Modelled from the spec: end marker of the token kinds. -/
def kLastToken : Nat := 5

/-- Embeds `PACK_TOKEN_AND_LENGTH(t, l) ((UChar) (((t) << 8) | (l & 0xFF)))`. -/
def PACK_TOKEN_AND_LENGTH (t l : Nat) : Nat :=
  ((t <<< 8) ||| (l &&& 0xFF)) % 65536

/-- Embeds `UNPACK_TOKEN(c) ((AffixPattern::ETokenType) (((c) >> 8) & 0x7F))`. -/
def UNPACK_TOKEN (c : Nat) : Nat :=
  (c >>> 8) &&& 0x7F

/-- Embeds `UNPACK_LONG(c) (((c) >> 8) & 0x80)`; used as a truth value (non-zero). -/
def UNPACK_LONG (c : Nat) : Nat :=
  (c >>> 8) &&& 0x80

/-- Embeds `UNPACK_LENGTH(c) ((c) & 0xFF)`. -/
def UNPACK_LENGTH (c : Nat) : Nat :=
  c &&& 0xFF

/-- Modelled from the spec: `U16_IS_LEAD(c)` of `utf16.h` (not among the
sources), `c` is a lead surrogate. -/
def U16_IS_LEAD (c : Nat) : Bool :=
  c &&& 0xFFFFFC00 == 0xD800

/-- Modelled from the spec: `U16_IS_TRAIL(c)` of `utf16.h` (not among the
sources), `c` is a trail surrogate. -/
def U16_IS_TRAIL (c : Nat) : Bool :=
  c &&& 0xFFFFFC00 == 0xDC00

/-- Modelled from the spec: `u_countChar32(s, length)`, the number of code
points of a run of code units (`ustring.cpp` is not among the sources).  A lead
surrogate immediately followed by a trail surrogate counts as one code point;
every other code unit counts as one. -/
def u_countChar32 : List Nat → Nat
  | [] => 0
  | [_] => 1
  | c :: d :: rest =>
    if U16_IS_LEAD c && U16_IS_TRAIL d then 1 + u_countChar32 rest
    else 1 + u_countChar32 (d :: rest)

/-- The fields of `AffixPattern`. -/
structure AffixPattern where
  tokens : List Nat
  literals : List Nat
  hasCurrencyToken : Bool
  hasPercentToken : Bool
  hasPermillToken : Bool
  char32Count : Nat
  deriving DecidableEq, Repr

namespace AffixPattern

/-- The default-constructed (empty) pattern. -/
def empty : AffixPattern :=
  { tokens := [], literals := [], hasCurrencyToken := false,
    hasPercentToken := false, hasPermillToken := false, char32Count := 0 }

/-- The backward scan of `addLiteral`:
`while (tLiteralStart > 0 && UNPACK_TOKEN(tokenChars[tLiteralStart - 1]) == kLiteral)`.
Arguments: `tLiteralStart`, `literalLength`; result: their final values. -/
def findLiteralStart (tokenChars : List Nat) : Nat → Nat → Nat × Nat
  | 0, literalLength => (0, literalLength)
  | tLiteralStart + 1, literalLength =>
    if UNPACK_TOKEN (tokenChars.getD tLiteralStart 0) = kLiteral then
      findLiteralStart tokenChars tLiteralStart
        ((literalLength <<< 8) ||| UNPACK_LENGTH (tokenChars.getD tLiteralStart 0))
    else (tLiteralStart + 1, literalLength)

/-- The loop `while (literalLength) { ... literalLength >>= 8; }` of
`addLiteral`, which writes the cells after the first one.  The first argument
is fuel. -/
def encodeLongCells : Nat → Nat → List Nat
  | 0, _ => []
  | fuel + 1, literalLength =>
    if literalLength ≠ 0 then
      PACK_TOKEN_AND_LENGTH (kLiteral ||| 0x80) (literalLength &&& 0xFF)
        :: encodeLongCells fuel (literalLength >>> 8)
    else []

/-- Embeds `AffixPattern::addLiteral(literal, start, len)`. -/
def addLiteral (p : AffixPattern) (literal : List Nat) (start len : Nat) :
    AffixPattern :=
  let added := (literal.drop start).take len
  let tlen := p.tokens.length
  let found := findLiteralStart p.tokens tlen 0
  let tLiteralStart := found.1
  let literalLength := found.2 + len
  { p with
    char32Count := p.char32Count + u_countChar32 added
    literals := p.literals ++ added
    tokens := p.tokens.take tLiteralStart
      ++ PACK_TOKEN_AND_LENGTH kLiteral (literalLength &&& 0xFF)
        :: encodeLongCells literalLength (literalLength >>> 8) }

/-- Embeds `AffixPattern::add(ETokenType t, uint8_t count)`; `count` is a `uint8_t`,
so callers pass a value below `256`.  `U_ASSERT(t != kLiteral)`. -/
def add (p : AffixPattern) (t : Nat) (count : Nat) : AffixPattern :=
  { p with
    char32Count := p.char32Count + count
    hasCurrencyToken := if t = kCurrency then true else p.hasCurrencyToken
    hasPercentToken := if t = kPercent then true else p.hasPercentToken
    hasPermillToken := if t = kPerMill then true else p.hasPermillToken
    tokens := p.tokens ++ [PACK_TOKEN_AND_LENGTH t count] }

/-- Embeds `AffixPattern::addCurrency(uint8_t count)`. -/
def addCurrency (p : AffixPattern) (count : Nat) : AffixPattern :=
  p.add kCurrency count

/-- Embeds `AffixPattern::remove()`. -/
def remove (_p : AffixPattern) : AffixPattern :=
  { tokens := [], literals := [], hasCurrencyToken := false,
    hasPercentToken := false, hasPermillToken := false, char32Count := 0 }

end AffixPattern

/-- The fields of `AffixPatternIterator`. -/
structure AffixPatternIterator where
  nextLiteralIndex : Nat
  lastLiteralLength : Nat
  nextTokenIndex : Nat
  tokens : List Nat
  literals : List Nat
  deriving DecidableEq, Repr

/-- Embeds `AffixPattern::iterator(result)`. -/
def AffixPattern.iterator (p : AffixPattern) : AffixPatternIterator :=
  { nextLiteralIndex := 0, lastLiteralLength := 0, nextTokenIndex := 0,
    tokens := p.tokens, literals := p.literals }

namespace AffixPatternIterator

/-- The loop `while (nextTokenIndex < tlen && UNPACK_LONG(tokenBuffer[nextTokenIndex]))`
of `nextToken`.  Arguments: fuel, `nextTokenIndex`. -/
def skipLong (tokenBuffer : List Nat) (tlen : Nat) : Nat → Nat → Nat
  | 0, nextTokenIndex => nextTokenIndex
  | fuel + 1, nextTokenIndex =>
    if nextTokenIndex < tlen ∧ UNPACK_LONG (tokenBuffer.getD nextTokenIndex 0) ≠ 0 then
      skipLong tokenBuffer tlen fuel (nextTokenIndex + 1)
    else nextTokenIndex

/-- The loop `for (; UNPACK_LONG(tokenBuffer[i]); --i)` of `nextToken` together
with the two statements after it.  Arguments: `i`, `lastLiteralLength`.  The
C++ loop has no lower bound on `i`; the embedding stops at index `0`. -/
def readLength (tokenBuffer : List Nat) : Nat → Nat → Nat
  | 0, lastLiteralLength =>
    (lastLiteralLength <<< 8) ||| UNPACK_LENGTH (tokenBuffer.getD 0 0)
  | i + 1, lastLiteralLength =>
    if UNPACK_LONG (tokenBuffer.getD (i + 1) 0) ≠ 0 then
      readLength tokenBuffer i
        ((lastLiteralLength <<< 8) ||| UNPACK_LENGTH (tokenBuffer.getD (i + 1) 0))
    else (lastLiteralLength <<< 8) ||| UNPACK_LENGTH (tokenBuffer.getD (i + 1) 0)

/-- Embeds `AffixPatternIterator::nextToken()`: the returned flag and the iterator
after the call. -/
def nextToken (it : AffixPatternIterator) : Bool × AffixPatternIterator :=
  let tlen := it.tokens.length
  if it.nextTokenIndex = tlen then (false, it)
  else
    let nextTokenIndex := it.nextTokenIndex + 1
    if UNPACK_TOKEN (it.tokens.getD (nextTokenIndex - 1) 0) = kLiteral then
      let nextTokenIndex := skipLong it.tokens tlen (tlen - nextTokenIndex) nextTokenIndex
      let lastLiteralLength := readLength it.tokens (nextTokenIndex - 1) 0
      (true, { it with
        nextTokenIndex := nextTokenIndex
        lastLiteralLength := lastLiteralLength
        nextLiteralIndex := it.nextLiteralIndex + lastLiteralLength })
    else (true, { it with nextTokenIndex := nextTokenIndex })

/-- Embeds `AffixPatternIterator::getTokenType()`; it is called after a call of
`nextToken` that returned `TRUE`, so `nextTokenIndex - 1` is an index of
`tokens`. -/
def getTokenType (it : AffixPatternIterator) : Nat :=
  UNPACK_TOKEN (it.tokens.getD (it.nextTokenIndex - 1) 0)

/-- Embeds `AffixPatternIterator::getLiteral(result)`. -/
def getLiteral (it : AffixPatternIterator) : List Nat :=
  (it.literals.drop (it.nextLiteralIndex - it.lastLiteralLength)).take it.lastLiteralLength

/-- Embeds `AffixPatternIterator::getTokenLength()`. -/
def getTokenLength (it : AffixPatternIterator) : Nat :=
  if UNPACK_TOKEN (it.tokens.getD (it.nextTokenIndex - 1) 0) = kLiteral then
    it.lastLiteralLength
  else UNPACK_LENGTH (it.tokens.getD (it.nextTokenIndex - 1) 0)

/-- The loop `while (iter.nextToken()) { ... }` used by every consumer of the
iterator: the iterator states seen by the loop body, in order, and the iterator
after the call of `nextToken` that returned `FALSE`.  The first argument is
fuel; when it runs out the loop is cut short and the second component is the
iterator reached so far. -/
def replay : Nat → AffixPatternIterator → List AffixPatternIterator × AffixPatternIterator
  | 0, it => ([], it)
  | fuel + 1, it =>
    if it.nextToken.1 then
      ((it.nextToken.2 :: (replay fuel it.nextToken.2).1), (replay fuel it.nextToken.2).2)
    else ([], it.nextToken.2)

end AffixPatternIterator

/-- The iterator states visited when a pattern is replayed from the start.
Every call of `nextToken` that returns `TRUE` advances `nextTokenIndex`, so
the loop makes at most `tokens.length + 1` calls. -/
def AffixPattern.replayAll (p : AffixPattern) :
    List AffixPatternIterator × AffixPatternIterator :=
  AffixPatternIterator.replay (p.tokens.length + 1) p.iterator


/-! ## Error codes -/

/-- Modelled from the spec: the error codes of `UErrorCode` that the affix
code distinguishes (`utypes.h` is not among the sources): success, the
pattern-parse error, and any other failure. -/
inductive UErrorCode where
  | U_ZERO_ERROR
  | U_PARSE_ERROR
  | otherFailure (code : Nat)
  deriving DecidableEq, Repr

/-- Modelled from the spec: `U_FAILURE(status)`, true for every code other
than success. -/
def U_FAILURE : UErrorCode → Bool
  | UErrorCode.U_ZERO_ERROR => false
  | _ => true

/-! ## The two tokenizers and the two parsers -/

/-- The loop `for (; idx + i < len && i < 4 && buffer[idx + i] == buffer[idx + 1]; ++i);`
of the static function `nextToken`.  Arguments: fuel, `i`. -/
def nextTokenRun (buffer : List Nat) (idx len : Nat) : Nat → Nat → Nat
  | 0, i => i
  | fuel + 1, i =>
    if idx + i < len ∧ i < 4 ∧ buffer.getD (idx + i) 0 = buffer.getD (idx + 1) 0 then
      nextTokenRun buffer idx len fuel (i + 1)
    else i

/-- The static function `nextToken(buffer, idx, len, token)`: the returned
token size and the value stored in `*token`.  The loop starts at `i = 2` and its
guard has `i < 4`, so fuel 4 is never exhausted. -/
def nextToken (buffer : List Nat) (idx len : Nat) : Nat × Nat :=
  if buffer.getD idx 0 ≠ 0x27 ∨ idx + 1 = len then (1, buffer.getD idx 0)
  else if buffer.getD (idx + 1) 0 = 0xA4 then
    (nextTokenRun buffer idx len 4 2, buffer.getD (idx + 1) 0)
  else (2, buffer.getD (idx + 1) 0)

/-- The loop `for (; idx + i < len && i < max && buffer[idx + i] == buffer[idx]; ++i);`
of `nextUserToken`.  Arguments: fuel, `i`. -/
def nextUserTokenRun (buffer : List Nat) (idx len max : Nat) : Nat → Nat → Nat
  | 0, i => i
  | fuel + 1, i =>
    if idx + i < len ∧ i < max ∧ buffer.getD (idx + i) 0 = buffer.getD idx 0 then
      nextUserTokenRun buffer idx len max fuel (i + 1)
    else i

/-- The static function `nextUserToken(buffer, idx, len, token)`: the returned
token size and the value stored in `*token`.  The guard `i < max` bounds the
loop by `max` iterations. -/
def nextUserToken (buffer : List Nat) (idx len : Nat) : Nat × Nat :=
  let max := if buffer.getD idx 0 = 0x27 then 2 else if buffer.getD idx 0 = 0xA4 then 3 else 1
  (nextUserTokenRun buffer idx len max max 1, buffer.getD idx 0)

/-- The inner loop
`while (i < len && (tokenSize = nextToken(buffer, i, len, &token)) == 1) ++i;`
of `parseAffixString`.  Arguments: fuel, `i`, `tokenSize`, `token`; result:
their final values. -/
def literalRun (buffer : List Nat) (len : Nat) : Nat → Nat → Nat → Nat → Nat × Nat × Nat
  | 0, i, tokenSize, token => (i, tokenSize, token)
  | fuel + 1, i, tokenSize, token =>
    if i < len then
      if (nextToken buffer i len).1 = 1 then
        literalRun buffer len fuel (i + 1) (nextToken buffer i len).1 (nextToken buffer i len).2
      else (i, (nextToken buffer i len).1, (nextToken buffer i len).2)
    else (i, tokenSize, token)

/-- The loop `for (int32_t i = 0; i < len; )` of `parseAffixString`.
Arguments: fuel, `i`, `appendTo`, `status`.  `run` holds `i`, `tokenSize` and
`token` after the `if (tokenSize == 1) { ... }` block, and `p1` is `appendTo`
after that block. -/
def parseAffixStringLoop (buffer : List Nat) (len : Nat) :
    Nat → Nat → AffixPattern → UErrorCode → AffixPattern × UErrorCode
  | 0, _, appendTo, status => (appendTo, status)
  | fuel + 1, i, appendTo, status =>
    if i < len then
      let first := nextToken buffer i len
      let run : Nat × Nat × Nat :=
        if first.1 = 1 then literalRun buffer len (len - (i + 1)) (i + 1) first.1 first.2
        else (i, first.1, first.2)
      let p1 := if first.1 = 1 then appendTo.addLiteral buffer i (run.1 - i) else appendTo
      if first.1 = 1 ∧ run.1 = len then (p1, status)
      else
        let tokenSize := run.2.1
        let token := run.2.2
        let i2 := run.1 + tokenSize
        if token = 0x25 then parseAffixStringLoop buffer len fuel i2 (p1.add kPercent 1) status
        else if token = 0x2030 then
          parseAffixStringLoop buffer len fuel i2 (p1.add kPerMill 1) status
        else if token = 0x2D then
          parseAffixStringLoop buffer len fuel i2 (p1.add kNegative 1) status
        else if token = 0xA4 then
          if tokenSize - 1 > 3 then (p1, UErrorCode.U_PARSE_ERROR)
          else parseAffixStringLoop buffer len fuel i2 (p1.add kCurrency (tokenSize - 1)) status
        else parseAffixStringLoop buffer len fuel i2 (p1.addLiteral [token] 0 1) status
    else (appendTo, status)

/-- Embeds `AffixPattern::parseAffixString(affixStr, appendTo, status)`: the pattern
and the status after the call.  Every iteration advances `i`, so fuel `len` is
never exhausted. -/
def AffixPattern.parseAffixString (affixStr : List Nat) (appendTo : AffixPattern)
    (status : UErrorCode) : AffixPattern × UErrorCode :=
  if U_FAILURE status then (appendTo, status)
  else parseAffixStringLoop affixStr affixStr.length affixStr.length 0 appendTo status

/-- The class `AffixPatternAppender`: the destination pattern `fDest` and the
filled part of `fBuffer` (the entries `0 .. fIdx - 1` of the 32-unit array;
`fIdx` is the length of the list). -/
structure AffixPatternAppender where
  fDest : AffixPattern
  fBuffer : List Nat
  deriving DecidableEq, Repr

namespace AffixPatternAppender

/-- Embeds `AffixPatternAppender::append(UChar x)`; `UPRV_LENGTHOF(fBuffer)` is 32. -/
def append (a : AffixPatternAppender) (x : Nat) : AffixPatternAppender :=
  if a.fBuffer.length = 32 then
    { fDest := a.fDest.addLiteral a.fBuffer 0 a.fBuffer.length, fBuffer := [x] }
  else { a with fBuffer := a.fBuffer ++ [x] }

/-- Embeds `AffixPatternAppender::flush()`. -/
def flush (a : AffixPatternAppender) : AffixPatternAppender :=
  if a.fBuffer.length ≠ 0 then
    { fDest := a.fDest.addLiteral a.fBuffer 0 a.fBuffer.length, fBuffer := [] }
  else { a with fBuffer := [] }

/-- The loop `for (int32_t j = 0; j < tokenSize; ++j) appender.append((UChar) 0xA4);`
(with any code unit `x`). -/
def appendN (a : AffixPatternAppender) (x : Nat) : Nat → AffixPatternAppender
  | 0 => a
  | n + 1 => appendN (a.append x) x n

/-- Embeds `appender.flush(); appendTo.add(t, count);`: the appender writes to the
pattern that `add` is called on. -/
def flushAdd (a : AffixPatternAppender) (t count : Nat) : AffixPatternAppender :=
  { fDest := a.flush.fDest.add t count, fBuffer := a.flush.fBuffer }

end AffixPatternAppender

/-- The loop `for (int32_t i = 0; i < len; )` of `parseUserAffixString`.
Arguments: fuel, `i`, `state` (0 = not quoted, 1 = quoted), the appender
together with `appendTo`. -/
def parseUserAffixStringLoop (buffer : List Nat) (len : Nat) :
    Nat → Nat → Nat → AffixPatternAppender → AffixPatternAppender
  | 0, _, _, appender => appender
  | fuel + 1, i, state, appender =>
    if i < len then
      let tokenSize := (nextUserToken buffer i len).1
      let token := (nextUserToken buffer i len).2
      let i2 := i + tokenSize
      if token = 0x27 ∧ tokenSize = 1 then
        parseUserAffixStringLoop buffer len fuel i2 (1 - state) appender
      else if state = 0 then
        if token = 0x25 then
          parseUserAffixStringLoop buffer len fuel i2 state (appender.flushAdd kPercent 1)
        else if token = 0x27 then
          parseUserAffixStringLoop buffer len fuel i2 state (appender.append 0x27)
        else if token = 0x2030 then
          parseUserAffixStringLoop buffer len fuel i2 state (appender.flushAdd kPerMill 1)
        else if token = 0x2D then
          parseUserAffixStringLoop buffer len fuel i2 state (appender.flushAdd kNegative 1)
        else if token = 0xA4 then
          parseUserAffixStringLoop buffer len fuel i2 state (appender.flushAdd kCurrency tokenSize)
        else parseUserAffixStringLoop buffer len fuel i2 state (appender.append token)
      else
        if token = 0x27 then
          parseUserAffixStringLoop buffer len fuel i2 state (appender.append 0x27)
        else if token = 0xA4 then
          parseUserAffixStringLoop buffer len fuel i2 state (appender.appendN 0xA4 tokenSize)
        else parseUserAffixStringLoop buffer len fuel i2 state (appender.append token)
    else appender

/-- Embeds `AffixPattern::parseUserAffixString(affixStr, appendTo, status)`: the
pattern and the status after the call.  The appender is flushed by its
destructor when the function returns.  Every iteration advances `i`, so fuel
`len` is never exhausted. -/
def AffixPattern.parseUserAffixString (affixStr : List Nat) (appendTo : AffixPattern)
    (status : UErrorCode) : AffixPattern × UErrorCode :=
  if U_FAILURE status then (appendTo, status)
  else
    ((parseUserAffixStringLoop affixStr affixStr.length affixStr.length 0 0
      { fDest := appendTo, fBuffer := [] }).flush.fDest, status)

/-! ## Rendering: plural affixes, currency forms and `AffixPatternParser` -/

/-- Modelled from the spec: the field-type annotation of a currency span
(`UNUM_CURRENCY_FIELD` of `unum.h`, which is not among the sources). -/
def UNUM_CURRENCY_FIELD : Nat := 7

/-- Modelled from the spec: the field-type annotation of a percent span. -/
def UNUM_PERCENT_FIELD : Nat := 8

/-- Modelled from the spec: the field-type annotation of a permille span. -/
def UNUM_PERMILL_FIELD : Nat := 9

/-- Modelled from the spec: the field-type annotation of a sign span. -/
def UNUM_SIGN_FIELD : Nat := 10

/-- Modelled from the spec: the annotation of a span without a field type
(literal text), the default field of the `append` that takes no field. -/
def UNUM_FIELD_COUNT : Nat := 11

/-- Modelled from the spec: the plural categories (the class `PluralMapBase`
is not among the sources); `other` is the default category. -/
inductive PluralCategory where
  | other
  | zero
  | one
  | two
  | few
  | many
  deriving DecidableEq, Repr

/-- Modelled from the spec: a rendered decoration string "tagged with
field-type annotations per sub-span" (the class `DigitAffix` is not among the
sources): the text and, for every code unit, its field type. -/
structure DigitAffix where
  fAffix : List Nat
  fAnnotations : List Nat
  deriving DecidableEq, Repr

/-- Modelled from the spec: `DigitAffix::append(value, fieldId)` appends the
text and tags each of its code units with the field type. -/
def DigitAffix.append (a : DigitAffix) (value : List Nat) (fieldId : Nat) : DigitAffix :=
  { fAffix := a.fAffix ++ value,
    fAnnotations := a.fAnnotations ++ List.replicate value.length fieldId }

/-- Modelled from the spec: a plural affix, "a mapping from plural category to
a fully rendered decoration string; exactly one entry always exists for the
default/other category; categories without an explicit [entry] fall back to
it" (the class `PluralAffix` is not among the sources).  `variants` holds the
explicit entries of the categories other than `other`. -/
structure PluralAffix where
  otherVariant : DigitAffix
  variants : PluralCategory → Option DigitAffix

namespace PluralAffix

/-- Modelled from the spec: the entry that applies to a category, falling back
to the `other` entry. -/
def getByCategory (p : PluralAffix) (c : PluralCategory) : DigitAffix :=
  if c = PluralCategory.other then p.otherVariant
  else (p.variants c).getD p.otherVariant

/-- Modelled from the spec: `PluralAffix::remove()`, one empty `other` entry. -/
def remove (_p : PluralAffix) : PluralAffix :=
  { otherVariant := { fAffix := [], fAnnotations := [] }, variants := fun _ => none }

/-- Modelled from the spec: `PluralAffix::append(value, fieldId)` appends the
same tagged span to every entry. -/
def append (p : PluralAffix) (value : List Nat) (fieldId : Nat) : PluralAffix :=
  { otherVariant := p.otherVariant.append value fieldId,
    variants := fun c => (p.variants c).map (fun a => a.append value fieldId) }

/-- Modelled from the spec: `PluralAffix::append(rhs, fieldId, status)`
appends, per category, the text of `rhs` for that category; a category that
has an explicit entry on either side gets one in the result. -/
def appendPlural (p rhs : PluralAffix) (fieldId : Nat) : PluralAffix :=
  { otherVariant := p.otherVariant.append rhs.otherVariant.fAffix fieldId,
    variants := fun c =>
      if (p.variants c).isSome || (rhs.variants c).isSome then
        some (((p.variants c).getD p.otherVariant).append
          ((rhs.variants c).getD rhs.otherVariant).fAffix fieldId)
      else none }

/-- Modelled from the spec: `PluralAffix::setVariant(category, value, status)`
replaces the entry of one category by untagged text; nothing happens on a
failure status. -/
def setVariant (p : PluralAffix) (c : PluralCategory) (value : List Nat)
    (status : UErrorCode) : PluralAffix × UErrorCode :=
  if U_FAILURE status then (p, status)
  else if c = PluralCategory.other then
    ({ p with otherVariant :=
        { fAffix := value, fAnnotations := List.replicate value.length UNUM_FIELD_COUNT } },
      status)
  else
    ({ p with variants := fun d =>
        if d = c then
          some { fAffix := value, fAnnotations := List.replicate value.length UNUM_FIELD_COUNT }
        else p.variants d },
      status)

end PluralAffix

/-- Embeds `static UChar gDefaultSymbols[] = {0xa4, 0xa4, 0xa4};` -/
def gDefaultSymbols : List Nat := [0xA4, 0xA4, 0xA4]

/-- Modelled from the spec: the external lookups `CurrencyAffixInfo::set`
consults ("currency code and locale data lookup", "plural-category
resolution").  Each takes and returns the status: `ucurr_getName` with
`UCURR_SYMBOL_NAME` (currency, locale), the keywords of the plural rules, and
`ucurr_getPluralName` (currency, locale, keyword). -/
structure CurrencyData where
  ucurr_getName : List Nat → List Nat → UErrorCode → List Nat × UErrorCode
  getKeywords : UErrorCode → List PluralCategory × UErrorCode
  ucurr_getPluralName : List Nat → List Nat → PluralCategory → UErrorCode → List Nat × UErrorCode

/-- The fields of `CurrencyAffixInfo`. -/
structure CurrencyAffixInfo where
  fSymbol : List Nat
  fISO : List Nat
  fLong : PluralAffix

namespace CurrencyAffixInfo

/-- The loop `while ((pluralCount = keywords->snext(status)) != NULL)` of
`CurrencyAffixInfo::set`; `snext` returns `NULL` at the end of the keywords and
on a failure status. -/
def setLongLoop (data : CurrencyData) (locale currency : List Nat) :
    List PluralCategory → CurrencyAffixInfo → UErrorCode → CurrencyAffixInfo × UErrorCode
  | [], self, status => (self, status)
  | pluralCount :: rest, self, status =>
    if U_FAILURE status then (self, status)
    else
      setLongLoop data locale currency rest
        { self with fLong := (self.fLong.setVariant pluralCount
            (data.ucurr_getPluralName currency locale pluralCount status).1
            (data.ucurr_getPluralName currency locale pluralCount status).2).1 }
        (self.fLong.setVariant pluralCount
            (data.ucurr_getPluralName currency locale pluralCount status).1
            (data.ucurr_getPluralName currency locale pluralCount status).2).2

/-- Embeds `CurrencyAffixInfo::set(locale, rules, currency, status)`; `currency` is
`none` for `NULL`.  The result is the object and the status after the call. -/
def set (self : CurrencyAffixInfo) (data : CurrencyData) (locale : List Nat)
    (currency : Option (List Nat)) (status : UErrorCode) : CurrencyAffixInfo × UErrorCode :=
  if U_FAILURE status then (self, status)
  else
    match currency with
    | none =>
      ({ fSymbol := gDefaultSymbols.take 1, fISO := gDefaultSymbols.take 2,
         fLong := self.fLong.remove.append (gDefaultSymbols.take 3) UNUM_FIELD_COUNT }, status)
    | some currency =>
      if U_FAILURE (data.ucurr_getName currency locale status).2 then
        (self, (data.ucurr_getName currency locale status).2)
      else if U_FAILURE (data.getKeywords (data.ucurr_getName currency locale status).2).2 then
        ({ fSymbol := (data.ucurr_getName currency locale status).1, fISO := currency,
           fLong := self.fLong.remove },
          (data.getKeywords (data.ucurr_getName currency locale status).2).2)
      else
        setLongLoop data locale currency
          (data.getKeywords (data.ucurr_getName currency locale status).2).1
          { fSymbol := (data.ucurr_getName currency locale status).1, fISO := currency,
            fLong := self.fLong.remove }
          (data.getKeywords (data.ucurr_getName currency locale status).2).2

end CurrencyAffixInfo

/-- The fields of `AffixPatternParser`. -/
structure AffixPatternParser where
  fPercent : List Nat
  fPermill : List Nat
  fNegative : List Nat
  deriving DecidableEq, Repr

namespace AffixPatternParser

/-- The loop `while (iter.nextToken()) { switch ... }` of
`AffixPatternParser::parse`.  Arguments: fuel, the iterator, `appendTo`.  A
`U_ASSERT(FALSE)` branch gives `none`. -/
def parseLoop (self : AffixPatternParser) (currencyAffixInfo : CurrencyAffixInfo) :
    Nat → AffixPatternIterator → PluralAffix → Option PluralAffix
  | 0, _, appendTo => some appendTo
  | fuel + 1, iter, appendTo =>
    if iter.nextToken.1 then
      if iter.nextToken.2.getTokenType = kPercent then
        parseLoop self currencyAffixInfo fuel iter.nextToken.2
          (appendTo.append self.fPercent UNUM_PERCENT_FIELD)
      else if iter.nextToken.2.getTokenType = kPerMill then
        parseLoop self currencyAffixInfo fuel iter.nextToken.2
          (appendTo.append self.fPermill UNUM_PERMILL_FIELD)
      else if iter.nextToken.2.getTokenType = kNegative then
        parseLoop self currencyAffixInfo fuel iter.nextToken.2
          (appendTo.append self.fNegative UNUM_SIGN_FIELD)
      else if iter.nextToken.2.getTokenType = kCurrency then
        if iter.nextToken.2.getTokenLength = 1 then
          parseLoop self currencyAffixInfo fuel iter.nextToken.2
            (appendTo.append currencyAffixInfo.fSymbol UNUM_CURRENCY_FIELD)
        else if iter.nextToken.2.getTokenLength = 2 then
          parseLoop self currencyAffixInfo fuel iter.nextToken.2
            (appendTo.append currencyAffixInfo.fISO UNUM_CURRENCY_FIELD)
        else if iter.nextToken.2.getTokenLength = 3 then
          parseLoop self currencyAffixInfo fuel iter.nextToken.2
            (appendTo.appendPlural currencyAffixInfo.fLong UNUM_CURRENCY_FIELD)
        else none
      else if iter.nextToken.2.getTokenType = kLiteral then
        parseLoop self currencyAffixInfo fuel iter.nextToken.2
          (appendTo.append iter.nextToken.2.getLiteral UNUM_FIELD_COUNT)
      else none
    else some appendTo

/-- Embeds `AffixPatternParser::parse(affixPattern, currencyAffixInfo, appendTo, status)`:
`appendTo` after the call, or `none` when a `U_ASSERT(FALSE)` branch is
reached.  The status is success inside the loop (allocation failures are not
modelled).  Every successful `nextToken` advances the iterator, so fuel
`tokens.length + 1` is never exhausted. -/
def parse (self : AffixPatternParser) (affixPattern : AffixPattern)
    (currencyAffixInfo : CurrencyAffixInfo) (appendTo : PluralAffix) (status : UErrorCode) :
    Option PluralAffix :=
  if U_FAILURE status then some appendTo
  else parseLoop self currencyAffixInfo (affixPattern.tokens.length + 1) affixPattern.iterator
    appendTo

end AffixPatternParser

/-! ## Logical tokens -/

/-- A logical token of an affix pattern: a literal run with its text, or a
symbol token with its kind and count. -/
inductive LogicalToken where
  | literal (text : List Nat)
  | symbol (t : Nat) (count : Nat)
  deriving DecidableEq, Repr

namespace LogicalToken

/-- Whether the token is a literal run. -/
def isLiteral : LogicalToken → Bool
  | literal _ => true
  | symbol _ _ => false

/-- The literal text a token contributes to the `literals` buffer. -/
def text : LogicalToken → List Nat
  | literal s => s
  | symbol _ _ => []

/-- The tokens of a round trip: a literal has non-empty text, a percent,
permille or negative token has count 1 and a currency token has count 1..3. -/
def wellFormed : LogicalToken → Bool
  | literal s => !s.isEmpty
  | symbol t count =>
    ((t == kPercent || t == kPerMill || t == kNegative) && count == 1)
      || (t == kCurrency && 1 ≤ count && count ≤ 3)

/-- What the getters of an iterator report agrees with a logical token:
`getTokenType`, `getTokenLength` and, for a literal, `getLiteral`. -/
def agrees (tok : LogicalToken) (it : AffixPatternIterator) : Prop :=
  match tok with
  | literal s =>
    it.getTokenType = kLiteral ∧ it.getTokenLength = s.length ∧ it.getLiteral = s
  | symbol t count => it.getTokenType = t ∧ it.getTokenLength = count

end LogicalToken

/-- The call that appends one logical token: `addLiteral(text, 0, length)` for
a literal, `add(t, count)` for a symbol. -/
def AffixPattern.addToken (p : AffixPattern) : LogicalToken → AffixPattern
  | LogicalToken.literal s => p.addLiteral s 0 s.length
  | LogicalToken.symbol t count => p.add t count

/-- The pattern built from empty by appending the logical tokens in order. -/
def AffixPattern.build (toks : List LogicalToken) : AffixPattern :=
  toks.foldl AffixPattern.addToken AffixPattern.empty

/-- No two literal tokens are adjacent. -/
def noAdjacentLiterals : List LogicalToken → Bool
  | [] => true
  | [_] => true
  | a :: b :: rest => !(a.isLiteral && b.isLiteral) && noAdjacentLiterals (b :: rest)

/-- Total number of code units of literal text in a token sequence. -/
def totalLiteralLength (toks : List LogicalToken) : Nat :=
  (toks.map (fun tok => tok.text.length)).sum

/-! ## Notions used to state and prove the properties -/

/-- The cells `addLiteral` writes for a literal length: the first cell and the
cells of the `while (literalLength)` loop. -/
def lengthChain (literalLength : Nat) : List Nat :=
  PACK_TOKEN_AND_LENGTH kLiteral (literalLength &&& 0xFF)
    :: AffixPattern.encodeLongCells literalLength (literalLength >>> 8)

/-- The number a run of cells denotes when their length fields are read as
base-256 digits, least significant first. -/
def chainValue : List Nat → Nat
  | [] => 0
  | c :: cs => UNPACK_LENGTH c + 256 * chainValue cs

/-- The cells of one logical token. -/
def LogicalToken.cells : LogicalToken → List Nat
  | LogicalToken.literal s => lengthChain s.length
  | LogicalToken.symbol t count => [PACK_TOKEN_AND_LENGTH t count]

/-- A symbol token whose kind and count fit their fields. -/
def LogicalToken.fits : LogicalToken → Prop
  | LogicalToken.literal _ => True
  | LogicalToken.symbol t count => 0 < t ∧ t < 128 ∧ count < 256


/-- A sample token sequence: the literal `ab`, a currency token of count 3, a
literal `%` and a percent token. -/
def sampleTokens : List LogicalToken :=
  [LogicalToken.literal [0x61, 0x62], LogicalToken.symbol kCurrency 3,
    LogicalToken.literal [0x25], LogicalToken.symbol kPercent 1]

/-- A sample pattern state: one percent token followed by the literal `a`. -/
def samplePattern : AffixPattern :=
  (AffixPattern.empty.add kPercent 1).addLiteral [0x61] 0 1

/-- The literal text an appender has received and not yet turned into a
symbol boundary: the destination's literal buffer followed by the pending
part of `fBuffer`. -/
def AffixPatternAppender.pending (a : AffixPatternAppender) : List Nat :=
  a.fDest.literals ++ a.fBuffer

/-- The destination of an appender that has received literal text only: no
cell at all, or the one length chain of its literal text, and no flag set. -/
def AffixPatternAppender.literalOnly (a : AffixPatternAppender) : Prop :=
  a.fDest.tokens
      = (if a.fDest.literals = [] then [] else lengthChain a.fDest.literals.length) ∧
    a.fDest.hasCurrencyToken = false ∧ a.fDest.hasPercentToken = false ∧
    a.fDest.hasPermillToken = false

/-- The text of the span the renderer appends for a decoded token and a plural
category, in the words of the specification: the percent, permille and minus
glyphs of the parser for percent, permille and negative tokens; for a currency
token the symbol form (length 1), the ISO form (length 2) or the long form of
the category (length 3); the literal text for a literal token. -/
def spanText (self : AffixPatternParser) (info : CurrencyAffixInfo) (c : PluralCategory)
    (it : AffixPatternIterator) : List Nat :=
  if it.getTokenType = kPercent then self.fPercent
  else if it.getTokenType = kPerMill then self.fPermill
  else if it.getTokenType = kNegative then self.fNegative
  else if it.getTokenType = kCurrency then
    if it.getTokenLength = 1 then info.fSymbol
    else if it.getTokenLength = 2 then info.fISO
    else (info.fLong.getByCategory c).fAffix
  else it.getLiteral

/-- The field type of the span of a decoded token, in the words of the
specification: percent, permille, sign and currency; a literal has none. -/
def spanField (it : AffixPatternIterator) : Nat :=
  if it.getTokenType = kPercent then UNUM_PERCENT_FIELD
  else if it.getTokenType = kPerMill then UNUM_PERMILL_FIELD
  else if it.getTokenType = kNegative then UNUM_SIGN_FIELD
  else if it.getTokenType = kCurrency then UNUM_CURRENCY_FIELD
  else UNUM_FIELD_COUNT

/-- A decoded token of one of the five kinds, a currency token with length 1,
2 or 3. -/
def knownToken (it : AffixPatternIterator) : Bool :=
  it.getTokenType == kPercent || it.getTokenType == kPerMill || it.getTokenType == kNegative
    || it.getTokenType == kLiteral
    || (it.getTokenType == kCurrency
      && (it.getTokenLength == 1 || it.getTokenLength == 2 || it.getTokenLength == 3))

/-- Sample currency data for `USD`: the symbol `$`, the keywords `one` and
`other`, and the plural names `dollar` / `dollars`. -/
def sampleCurrencyData : CurrencyData :=
  { ucurr_getName := fun _ _ status => ([0x24], status),
    getKeywords := fun status => ([PluralCategory.one, PluralCategory.other], status),
    ucurr_getPluralName := fun _ _ c status =>
      (if c = PluralCategory.one then [0x64, 0x6F, 0x6C, 0x6C, 0x61, 0x72]
        else [0x64, 0x6F, 0x6C, 0x6C, 0x61, 0x72, 0x73], status) }

/-- A `CurrencyAffixInfo` as the default constructor leaves it. -/
def defaultCurrencyAffixInfo : CurrencyAffixInfo :=
  (CurrencyAffixInfo.set
    { fSymbol := [], fISO := [],
      fLong := { otherVariant := { fAffix := [], fAnnotations := [] }, variants := fun _ => none } }
    sampleCurrencyData [] none UErrorCode.U_ZERO_ERROR).1

/-- The empty plural affix. -/
def emptyPluralAffix : PluralAffix :=
  { otherVariant := { fAffix := [], fAnnotations := [] }, variants := fun _ => none }

/-- The parser with the symbols of the default constructor: `%`, U+2030, `-`. -/
def defaultParser : AffixPatternParser :=
  { fPercent := [0x25], fPermill := [0x2030], fNegative := [0x2D] }

/-- The currency code `USD`. -/
def sampleCurrency : List Nat := [0x55, 0x53, 0x44]

/-- The locale `en`. -/
def sampleLocale : List Nat := [0x65, 0x6E]

/-- The pattern of the user string made of two U+00A4. -/
def isoPattern : AffixPattern :=
  (AffixPattern.parseUserAffixString [0xA4, 0xA4] AffixPattern.empty UErrorCode.U_ZERO_ERROR).1

/-- The currency forms of `USD` in `en` from the sample data. -/
def sampleCurrencyAffixInfo : CurrencyAffixInfo :=
  (defaultCurrencyAffixInfo.set sampleCurrencyData sampleLocale (some sampleCurrency)
    UErrorCode.U_ZERO_ERROR).1

/-- One call of the building interface of `AffixPattern`: `add(t, count)`,
`addCurrency(count)`, `addLiteral(literal, 0, length)` or `remove()`. -/
inductive Op where
  | add (t : Nat) (count : Nat)
  | addCurrency (count : Nat)
  | addLiteral (literal : List Nat)
  | remove
  deriving DecidableEq, Repr

/-- A call the interface admits: the token kind of `add` is an enumerator
other than `kLiteral` (`U_ASSERT(t != kLiteral)`) and a count is a `uint8_t`. -/
def Op.valid : Op → Bool
  | Op.add t count => decide (t ≠ kLiteral) && decide (t ≤ kLastToken) && decide (count < 256)
  | Op.addCurrency count => decide (count < 256)
  | Op.addLiteral _ => true
  | Op.remove => true

/-- The effect of one call. -/
def Op.apply (p : AffixPattern) : Op → AffixPattern
  | Op.add t count => p.add t count
  | Op.addCurrency count => p.addCurrency count
  | Op.addLiteral literal => p.addLiteral literal 0 literal.length
  | Op.remove => p.remove

/-- The pattern after a sequence of calls on the empty pattern. -/
def runOps (ops : List Op) : AffixPattern :=
  ops.foldl Op.apply AffixPattern.empty

/-- The total decoded character count of a pattern: over the decoded tokens,
the token length of a symbol token and the number of code points of the
literal text of a literal token. -/
def decodedCharCount (p : AffixPattern) : Nat :=
  (p.replayAll.1.map (fun it =>
    if it.getTokenType = kLiteral then u_countChar32 it.getLiteral else it.getTokenLength)).sum

/-- The three aggregate flags agree with the decoded token stream. -/
def flagsAgree (p : AffixPattern) : Prop :=
  (p.hasCurrencyToken = true ↔ ∃ it ∈ p.replayAll.1, it.getTokenType = kCurrency) ∧
  (p.hasPercentToken = true ↔ ∃ it ∈ p.replayAll.1, it.getTokenType = kPercent) ∧
  (p.hasPermillToken = true ↔ ∃ it ∈ p.replayAll.1, it.getTokenType = kPerMill)

/-- A user string of 31 letters `a` followed by U+1F600 (the surrogate pair
`D83D DE00`): 32 code points in 33 code units. -/
def surrogateAtBoundary : List Nat :=
  List.replicate 31 0x61 ++ [0xD83D, 0xDE00]

/-- The token sequence `toks` describes the stream of `p`: the symbol tokens
fit their cells, no two literals are adjacent, `tokens` is the concatenation
of the cells and `literals` the concatenation of the texts. -/
def StreamOf (p : AffixPattern) (toks : List LogicalToken) : Prop :=
  (∀ tok ∈ toks, tok.fits) ∧
    List.Chain' (fun a b => ¬ (a.isLiteral = true ∧ b.isLiteral = true)) toks ∧
    p.tokens = toks.flatMap LogicalToken.cells ∧ p.literals = toks.flatMap LogicalToken.text

/-- The flags of `p` record which symbol kinds occur in `toks`. -/
def FlagsOf (p : AffixPattern) (toks : List LogicalToken) : Prop :=
  (p.hasCurrencyToken = true ↔ ∃ c, LogicalToken.symbol kCurrency c ∈ toks) ∧
  (p.hasPercentToken = true ↔ ∃ c, LogicalToken.symbol kPercent c ∈ toks) ∧
  (p.hasPermillToken = true ↔ ∃ c, LogicalToken.symbol kPerMill c ∈ toks)

/-- A pattern whose stream is described by some token sequence that its flags
record. -/
def Good (p : AffixPattern) : Prop :=
  ∃ toks, StreamOf p toks ∧ FlagsOf p toks

/-- A sample call sequence: a literal holding the glyphs U+00A4 and `%`, a
currency token, `remove()`, a percent token and a literal U+00A4. -/
def sampleOps : List Op :=
  [Op.addLiteral [0xA4, 0x25], Op.addCurrency 2, Op.remove, Op.add kPercent 1,
    Op.addLiteral [0xA4]]
/-! ## Matchers for parsing: the embedding of `numparse_affixes.cpp` -/

/-- Modelled from the spec: the token kind of a literal code point in the
shared token-kind enumeration `AffixPatternType` (`number_affixutils.h` is not
among the sources).  The symbolic kinds are negative numbers, which is what
`fLastTypeOrCp < 0` in `consumeToken` tests. -/
def TYPE_CODEPOINT : Int := 0

/-- Modelled from the spec: the minus-sign token kind. -/
def TYPE_MINUS_SIGN : Int := -1

/-- Modelled from the spec: the plus-sign token kind. -/
def TYPE_PLUS_SIGN : Int := -2

/-- Modelled from the spec: the percent token kind. -/
def TYPE_PERCENT : Int := -3

/-- Modelled from the spec: the permille token kind. -/
def TYPE_PERMILLE : Int := -4

/-- Modelled from the spec: the token kind of one currency glyph. -/
def TYPE_CURRENCY_SINGLE : Int := -5

/-- Modelled from the spec: the token kind of two currency glyphs. -/
def TYPE_CURRENCY_DOUBLE : Int := -6

/-- Modelled from the spec: the token kind of three currency glyphs. -/
def TYPE_CURRENCY_TRIPLE : Int := -7

/-- Modelled from the spec: the token kind of four currency glyphs. -/
def TYPE_CURRENCY_QUAD : Int := -8

/-- Modelled from the spec: the token kind of five currency glyphs. -/
def TYPE_CURRENCY_QUINT : Int := -9

/-- Modelled from the spec: the parse flag of lenient unpaired-affix matching
(`numparse_types.h` is not among the sources). -/
def PARSE_FLAG_INCLUDE_UNPAIRED_AFFIXES : Nat := 0x0080

/-- Modelled from the spec: the parse flag that forces full affix matchers. -/
def PARSE_FLAG_USE_FULL_AFFIXES : Nat := 0x0100

/-- Modelled from the spec: the parse flag of exact affix matching (no
ignorables matcher between tokens). -/
def PARSE_FLAG_EXACT_AFFIX : Nat := 0x0200

/-- Modelled from the spec: the parse flag that allows a plus sign. -/
def PARSE_FLAG_PLUS_SIGN_ALLOWED : Nat := 0x0400

/-- Modelled from the spec: the result flag "is negative". -/
def FLAG_NEGATIVE : Nat := 0x0001

/-- Modelled from the spec: the sign display that always shows a sign. -/
def UNUM_SIGN_ALWAYS : Nat := 1

/-- Modelled from the spec: the sign display that never shows a sign. -/
def UNUM_SIGN_NEVER : Nat := 2

/-- Modelled from the spec: the ignorables matcher, of which the affix code
uses `getSet()->contains(cp)` only (`numparse_symbols.h` is not among the
sources). -/
structure IgnorablesMatcher where
  contains : Int → Bool

/-! ### The matcher pool -/

/-- The place of a code-point matcher in the pool: entry `i` of the inline
array `codePoints`, or entry `offset` of batch number `batch` of
`codePointsOverflow`. -/
inductive CodePointSlot where
  | inline (i : Nat)
  | overflow (batch : Nat) (offset : Nat)
  deriving DecidableEq, Repr

/-- The matcher a `NumberParseMatcher&` refers to: one of the single slots of
the pool (`fMinusSign`, `fPlusSign`, `fPercent`, `fPermille`, `fCurrency`), the
ignorables matcher, or a code-point matcher in its slot. -/
inductive NumberParseMatcherRef where
  | minusSign
  | plusSign
  | percent
  | permille
  | currency
  | ignorables
  | codePoint (slot : CodePointSlot)
  deriving DecidableEq, Repr

/-- The fields of `AffixTokenMatcherWarehouse` that the affix code uses.  The
constants `CODE_POINT_STACK_CAPACITY` and `CODE_POINT_BATCH_SIZE` are declared
in `numparse_affixes.h`, which is not among the sources, and are fields here.
A code-point matcher is the code point it is bound to, `none` for a matcher
that has not been assigned yet.  `codePointsOverflow` holds the batches
`0 .. codePointNumBatches - 1` (`codePointNumBatches` is the length of the
list); growing the pointer array with `resize` keeps its entries. -/
structure AffixTokenMatcherWarehouse where
  CODE_POINT_STACK_CAPACITY : Nat
  CODE_POINT_BATCH_SIZE : Nat
  ignorables : Option IgnorablesMatcher
  codePoints : List (Option Int)
  codePointsOverflow : List (List (Option Int))
  codePointCount : Nat

namespace AffixTokenMatcherWarehouse

/-- The pool as the constructor leaves it: `codePointCount(0)`,
`codePointNumBatches(0)` and an inline array of unassigned matchers. -/
def fresh (capacity batchSize : Nat) (ignorables : Option IgnorablesMatcher) :
    AffixTokenMatcherWarehouse :=
  { CODE_POINT_STACK_CAPACITY := capacity, CODE_POINT_BATCH_SIZE := batchSize,
    ignorables := ignorables, codePoints := List.replicate capacity none,
    codePointsOverflow := [], codePointCount := 0 }

/-- The member `codePointNumBatches`. -/
def codePointNumBatches (w : AffixTokenMatcherWarehouse) : Nat :=
  w.codePointsOverflow.length

/-- The block `if (codePointCount >= totalCapacity) { ... }` of
`nextCodePointMatcher`: a new batch of `CODE_POINT_BATCH_SIZE` unassigned
matchers is stored at index `codePointNumBatches`. -/
def addBatchIfFull (w : AffixTokenMatcherWarehouse) : AffixTokenMatcherWarehouse :=
  if w.codePointCount ≥
      w.CODE_POINT_STACK_CAPACITY + w.codePointNumBatches * w.CODE_POINT_BATCH_SIZE then
    { w with codePointsOverflow :=
        w.codePointsOverflow ++ [List.replicate w.CODE_POINT_BATCH_SIZE none] }
  else w

/-- Embeds `AffixTokenMatcherWarehouse::nextCodePointMatcher(cp)`: the slot of
the returned matcher and the pool after the call. -/
def nextCodePointMatcher (w : AffixTokenMatcherWarehouse) (cp : Int) :
    CodePointSlot × AffixTokenMatcherWarehouse :=
  if w.codePointCount < w.CODE_POINT_STACK_CAPACITY then
    (CodePointSlot.inline w.codePointCount,
      { w with codePoints := w.codePoints.set w.codePointCount (some cp),
               codePointCount := w.codePointCount + 1 })
  else
    (CodePointSlot.overflow (w.addBatchIfFull.codePointNumBatches - 1)
        ((w.codePointCount - w.CODE_POINT_STACK_CAPACITY) % w.CODE_POINT_BATCH_SIZE),
      { w.addBatchIfFull with
        codePointsOverflow :=
          w.addBatchIfFull.codePointsOverflow.set (w.addBatchIfFull.codePointNumBatches - 1)
            ((w.addBatchIfFull.codePointsOverflow.getD
                (w.addBatchIfFull.codePointNumBatches - 1) []).set
              ((w.codePointCount - w.CODE_POINT_STACK_CAPACITY) % w.CODE_POINT_BATCH_SIZE)
              (some cp)),
        codePointCount := w.codePointCount + 1 })

/-- The code point the matcher in a slot is bound to; `none` for a slot that
does not exist or has not been assigned. -/
def read (w : AffixTokenMatcherWarehouse) : CodePointSlot → Option Int
  | CodePointSlot.inline i => w.codePoints.getD i none
  | CodePointSlot.overflow batch offset => (w.codePointsOverflow.getD batch []).getD offset none

/-- Successive calls of `nextCodePointMatcher`, one per code point: the slots
returned, in order, and the pool after the last call. -/
def issueAll (w : AffixTokenMatcherWarehouse) :
    List Int → List CodePointSlot × AffixTokenMatcherWarehouse
  | [] => ([], w)
  | cp :: rest =>
    ((w.nextCodePointMatcher cp).1 :: (issueAll (w.nextCodePointMatcher cp).2 rest).1,
      (issueAll (w.nextCodePointMatcher cp).2 rest).2)

end AffixTokenMatcherWarehouse

/-- The slot the specification assigns to the `i`-th issued matcher: inline
slot `i` below the inline capacity, otherwise batch `(i - capacity) div
batchSize` at offset `(i - capacity) mod batchSize`. -/
def slotOf (capacity batchSize i : Nat) : CodePointSlot :=
  if i < capacity then CodePointSlot.inline i
  else CodePointSlot.overflow ((i - capacity) / batchSize) ((i - capacity) % batchSize)

/-- The state of a pool after `k` code-point matchers have been issued, for
an inline capacity `cap` and a batch size `bs`: the inline array has `cap`
entries, every batch has `bs` entries, and the batches are just enough for the
`k - cap` matchers beyond the inline array. -/
def poolInvariant (cap bs k : Nat) (w : AffixTokenMatcherWarehouse) : Prop :=
  w.CODE_POINT_STACK_CAPACITY = cap ∧ w.CODE_POINT_BATCH_SIZE = bs ∧ w.codePointCount = k ∧
    w.codePoints.length = cap ∧ (∀ b ∈ w.codePointsOverflow, b.length = bs) ∧
    k - cap ≤ w.codePointsOverflow.length * bs ∧
    w.codePointsOverflow.length * bs < k - cap + bs

/-! ### The matcher compiler -/

/-- The class `AffixPatternMatcher`: the ordered matchers of the series and
the pattern text. -/
structure AffixPatternMatcher where
  fMatchers : List NumberParseMatcherRef
  fPattern : List Nat
  deriving DecidableEq, Repr

/-- Embeds `AffixPatternMatcher::getPattern()`. -/
def AffixPatternMatcher.getPattern (m : AffixPatternMatcher) : List Nat :=
  m.fPattern

/-- The fields of `AffixPatternMatcherBuilder`; `fMatchersLen` is the length of
`fMatchers`, and `fIgnorables` is `none` for `nullptr`. -/
structure AffixPatternMatcherBuilder where
  fMatchers : List NumberParseMatcherRef
  fLastTypeOrCp : Int
  fPattern : List Nat
  fWarehouse : AffixTokenMatcherWarehouse
  fIgnorables : Option IgnorablesMatcher

namespace AffixPatternMatcherBuilder

/-- Embeds `AffixPatternMatcherBuilder::addMatcher(matcher)`. -/
def addMatcher (b : AffixPatternMatcherBuilder) (matcher : NumberParseMatcherRef) :
    AffixPatternMatcherBuilder :=
  { b with fMatchers := b.fMatchers ++ [matcher] }

/-- The first statement of `consumeToken`: the ignorables matcher is added
when `fIgnorables != nullptr && fMatchersLen > 0 && (fLastTypeOrCp < 0 ||
!fIgnorables->getSet()->contains(fLastTypeOrCp))`. -/
def addIgnorables (b : AffixPatternMatcherBuilder) : AffixPatternMatcherBuilder :=
  match b.fIgnorables with
  | some ign =>
    if b.fMatchers.length > 0 ∧ (b.fLastTypeOrCp < 0 ∨ ign.contains b.fLastTypeOrCp = false) then
      b.addMatcher NumberParseMatcherRef.ignorables
    else b
  | none => b

/-- The `if (type != TYPE_CODEPOINT) ... else if ... else ...` statement of
`consumeToken`.  The `default:` branch of the `switch` is `U_ASSERT(FALSE)`
and adds nothing. -/
def addTokenMatcher (b : AffixPatternMatcherBuilder) (type cp : Int) :
    AffixPatternMatcherBuilder :=
  if type ≠ TYPE_CODEPOINT then
    if type = TYPE_MINUS_SIGN then b.addMatcher NumberParseMatcherRef.minusSign
    else if type = TYPE_PLUS_SIGN then b.addMatcher NumberParseMatcherRef.plusSign
    else if type = TYPE_PERCENT then b.addMatcher NumberParseMatcherRef.percent
    else if type = TYPE_PERMILLE then b.addMatcher NumberParseMatcherRef.permille
    else if type = TYPE_CURRENCY_SINGLE ∨ type = TYPE_CURRENCY_DOUBLE
        ∨ type = TYPE_CURRENCY_TRIPLE ∨ type = TYPE_CURRENCY_QUAD
        ∨ type = TYPE_CURRENCY_QUINT then
      b.addMatcher NumberParseMatcherRef.currency
    else b
  else
    match b.fIgnorables with
    | some ign =>
      if ign.contains cp then b
      else
        { (b.addMatcher (NumberParseMatcherRef.codePoint (b.fWarehouse.nextCodePointMatcher cp).1))
          with fWarehouse := (b.fWarehouse.nextCodePointMatcher cp).2 }
    | none =>
      { (b.addMatcher (NumberParseMatcherRef.codePoint (b.fWarehouse.nextCodePointMatcher cp).1))
        with fWarehouse := (b.fWarehouse.nextCodePointMatcher cp).2 }

/-- Embeds `AffixPatternMatcherBuilder::consumeToken(type, cp, status)`. -/
def consumeToken (b : AffixPatternMatcherBuilder) (type cp : Int) : AffixPatternMatcherBuilder :=
  { (b.addIgnorables.addTokenMatcher type cp) with
    fLastTypeOrCp := if type ≠ TYPE_CODEPOINT then type else cp }

/-- Embeds `AffixPatternMatcherBuilder::build()`. -/
def build (b : AffixPatternMatcherBuilder) : AffixPatternMatcher :=
  { fMatchers := b.fMatchers, fPattern := b.fPattern }

end AffixPatternMatcherBuilder

/-- Modelled from the spec: the providers of pattern text that the affix code
consults (`number_affixutils.h` and `number_patternstring.h` are not among the
sources): the tokens `AffixUtils::iterateWithConsumer` hands to the consumer
(kind and code point, in order), `AffixUtils::containsOnlySymbolsAndIgnorables`,
`AffixUtils::containsType`, and the text that
`PatternStringUtils::patternInfoToStringBuilder` writes for a provider, a side
(`true` for the prefix side), a signum and a sign display. -/
structure AffixUtils (Provider : Type) where
  iterateWithConsumer : List Nat → List (Int × Int)
  containsOnlySymbolsAndIgnorables : List Nat → IgnorablesMatcher → Bool
  containsType : List Nat → Int → Bool
  patternInfoToStringBuilder : Provider → Bool → Int → Nat → List Nat

/-- Modelled from the spec: what `isInteresting` reads from an
`AffixPatternProvider` (`number_types.h` is not among the sources): the four
affix strings `getString(AFFIX_POS_PREFIX)` .. `getString(AFFIX_NEG_SUFFIX)` and
`hasNegativeSubpattern()`. -/
structure AffixPatternProvider where
  AFFIX_POS_PREFIX : List Nat
  AFFIX_POS_SUFFIX : List Nat
  AFFIX_NEG_PREFIX : List Nat
  AFFIX_NEG_SUFFIX : List Nat
  hasNegativeSubpattern : Bool
  deriving DecidableEq, Repr

/-- The calls `AffixUtils::iterateWithConsumer` makes on the builder: one
`consumeToken` per token, in order. -/
def AffixPatternMatcherBuilder.consumeAll (b : AffixPatternMatcherBuilder) :
    List (Int × Int) → AffixPatternMatcherBuilder
  | [] => b
  | tok :: rest => consumeAll (b.consumeToken tok.1 tok.2) rest

/-- The builder `fromAffixPattern` creates for a non-empty pattern, after
`iterateWithConsumer` has run: `ignorables` is `nullptr` under
`PARSE_FLAG_EXACT_AFFIX` and `warehouse.ignorables` otherwise. -/
def AffixPatternMatcher.compiled (utils : AffixUtils AffixPatternProvider)
    (affixPattern : List Nat) (warehouse : AffixTokenMatcherWarehouse) (parseFlags : Nat) :
    AffixPatternMatcherBuilder :=
  AffixPatternMatcherBuilder.consumeAll
    { fMatchers := [], fLastTypeOrCp := 0, fPattern := affixPattern,
      fWarehouse := warehouse,
      fIgnorables := if parseFlags &&& PARSE_FLAG_EXACT_AFFIX ≠ 0 then none
        else warehouse.ignorables }
    (utils.iterateWithConsumer affixPattern)

/-- Embeds `AffixPatternMatcher::fromAffixPattern(affixPattern, warehouse,
parseFlags, success, status)`: the returned matcher, `*success` and the pool
after the call. -/
def AffixPatternMatcher.fromAffixPattern (utils : AffixUtils AffixPatternProvider)
    (affixPattern : List Nat) (warehouse : AffixTokenMatcherWarehouse) (parseFlags : Nat) :
    AffixPatternMatcher × Bool × AffixTokenMatcherWarehouse :=
  if affixPattern.isEmpty then ({ fMatchers := [], fPattern := [] }, false, warehouse)
  else
    ((AffixPatternMatcher.compiled utils affixPattern warehouse parseFlags).build, true,
      (AffixPatternMatcher.compiled utils affixPattern warehouse parseFlags).fWarehouse)

/-! ### Affix matchers and the matcher set -/

/-- Modelled from the spec: the parse-result accumulator, of which the affix
code uses whether a number has been seen, the recorded prefix and suffix
pattern text (`none` for a bogus string, "no prefix recorded") and the result
flags (`numparse_types.h` is not among the sources). -/
structure ParsedNumber where
  seenNumber : Bool
  resultPrefix : Option (List Nat)
  resultSuffix : Option (List Nat)
  flags : Nat
  deriving DecidableEq, Repr

/-- Modelled from the spec: the input segment, of which the affix code uses
the offset of its cursor. -/
structure StringSegment where
  fStr : List Nat
  offset : Nat
  deriving DecidableEq, Repr

/-- The fields of `AffixMatcher`; `none` is `nullptr`. -/
structure AffixMatcher where
  fPrefix : Option AffixPatternMatcher
  fSuffix : Option AffixPatternMatcher
  fFlags : Nat
  deriving DecidableEq, Repr

/-- What a call of a matcher leaves: the returned flag, the segment, the
accumulator, and the composite matchers whose `match` was invoked, in order. -/
structure MatchOutcome where
  maybeMore : Bool
  segment : StringSegment
  result : ParsedNumber
  invoked : List AffixPatternMatcher
  deriving DecidableEq, Repr

namespace AffixMatcher

/-- Embeds `AffixMatcher::matched(affix, patternString)`; a pattern text is
never bogus, so it equals the string only when the string is not bogus. -/
def matched (affix : Option AffixPatternMatcher) (patternString : Option (List Nat)) : Bool :=
  (affix.isNone && patternString.isNone) ||
    (match affix with
      | some a => decide (some a.getPattern = patternString)
      | none => false)

/-- Embeds `AffixMatcher::match(segment, result, status)`.  The `match` of the
composite matcher (`ArraySeriesMatcher::match`, not among the sources) is the
argument `seriesMatch`: it returns its flag, the segment and the accumulator. -/
def matchAffix
    (seriesMatch : AffixPatternMatcher → StringSegment → ParsedNumber →
      Bool × StringSegment × ParsedNumber)
    (m : AffixMatcher) (segment : StringSegment) (result : ParsedNumber) : MatchOutcome :=
  if result.seenNumber = false then
    match m.fPrefix with
    | none => { maybeMore := false, segment := segment, result := result, invoked := [] }
    | some fPrefix =>
      if result.resultPrefix.isSome then
        { maybeMore := false, segment := segment, result := result, invoked := [] }
      else
        { maybeMore := (seriesMatch fPrefix segment result).1,
          segment := (seriesMatch fPrefix segment result).2.1,
          result :=
            if segment.offset ≠ (seriesMatch fPrefix segment result).2.1.offset then
              { (seriesMatch fPrefix segment result).2.2 with
                resultPrefix := some fPrefix.getPattern }
            else (seriesMatch fPrefix segment result).2.2,
          invoked := [fPrefix] }
  else
    match m.fSuffix with
    | none => { maybeMore := false, segment := segment, result := result, invoked := [] }
    | some fSuffix =>
      if result.resultSuffix.isSome ∨ matched m.fPrefix result.resultPrefix = false then
        { maybeMore := false, segment := segment, result := result, invoked := [] }
      else
        { maybeMore := (seriesMatch fSuffix segment result).1,
          segment := (seriesMatch fSuffix segment result).2.1,
          result :=
            if segment.offset ≠ (seriesMatch fSuffix segment result).2.1.offset then
              { (seriesMatch fSuffix segment result).2.2 with
                resultSuffix := some fSuffix.getPattern }
            else (seriesMatch fSuffix segment result).2.2,
          invoked := [fSuffix] }

/-- Embeds `AffixMatcher::postProcess(result)`. -/
def postProcess (m : AffixMatcher) (result : ParsedNumber) : ParsedNumber :=
  if matched m.fPrefix result.resultPrefix && matched m.fSuffix result.resultSuffix then
    { result with
      resultPrefix := if result.resultPrefix.isNone then some [] else result.resultPrefix
      resultSuffix := if result.resultSuffix.isNone then some [] else result.resultSuffix
      flags := result.flags ||| m.fFlags }
  else result

end AffixMatcher

/-- What the constructor of `AffixMatcherWarehouse` leaves: the entries
`0 .. numAffixMatchers - 1` of `fAffixMatchers`, the entries
`0 .. numAffixPatternMatchers - 1` of `fAffixPatternMatchers`, the member
`fAffixTokenMatcherWarehouse` (moved from the argument on entry), and the
argument `warehouse`, which the compilation goes on to use. -/
structure AffixMatcherWarehouse where
  fAffixMatchers : List AffixMatcher
  fAffixPatternMatchers : List AffixPatternMatcher
  fAffixTokenMatcherWarehouse : AffixTokenMatcherWarehouse
  warehouse : AffixTokenMatcherWarehouse
  posPrefix : Option AffixPatternMatcher
  posSuffix : Option AffixPatternMatcher

namespace AffixMatcherWarehouse

/-- Embeds `AffixMatcherWarehouse::equals(lhs, rhs)`; `operator==` of
`AffixPatternMatcher` compares the pattern text. -/
def equals (lhs rhs : Option AffixPatternMatcher) : Bool :=
  match lhs, rhs with
  | none, none => true
  | none, some _ => false
  | some _, none => false
  | some l, some r => decide (l.fPattern = r.fPattern)

/-- Embeds `AffixMatcherWarehouse::isInteresting(patternInfo, ignorables,
parseFlags, status)`. -/
def isInteresting (utils : AffixUtils AffixPatternProvider) (patternInfo : AffixPatternProvider)
    (ignorables : IgnorablesMatcher) (parseFlags : Nat) : Bool :=
  let posPrefixString := patternInfo.AFFIX_POS_PREFIX
  let posSuffixString := patternInfo.AFFIX_POS_SUFFIX
  let negPrefixString :=
    if patternInfo.hasNegativeSubpattern then patternInfo.AFFIX_NEG_PREFIX else []
  let negSuffixString :=
    if patternInfo.hasNegativeSubpattern then patternInfo.AFFIX_NEG_SUFFIX else []
  if parseFlags &&& PARSE_FLAG_USE_FULL_AFFIXES = 0
      ∧ utils.containsOnlySymbolsAndIgnorables posPrefixString ignorables = true
      ∧ utils.containsOnlySymbolsAndIgnorables posSuffixString ignorables = true
      ∧ utils.containsOnlySymbolsAndIgnorables negPrefixString ignorables = true
      ∧ utils.containsOnlySymbolsAndIgnorables negSuffixString ignorables = true
      ∧ utils.containsType posSuffixString TYPE_PLUS_SIGN = false
      ∧ utils.containsType posSuffixString TYPE_MINUS_SIGN = false
      ∧ utils.containsType negSuffixString TYPE_PLUS_SIGN = false
      ∧ utils.containsType negSuffixString TYPE_MINUS_SIGN = false then
    false
  else true

/-- The local `signDisplay` of the constructor. -/
def signDisplay (parseFlags : Nat) : Nat :=
  if parseFlags &&& PARSE_FLAG_PLUS_SIGN_ALLOWED ≠ 0 then UNUM_SIGN_ALWAYS else UNUM_SIGN_NEVER

/-- The local `includeUnpaired` of the constructor. -/
def includeUnpaired (parseFlags : Nat) : Bool :=
  decide (parseFlags &&& PARSE_FLAG_INCLUDE_UNPAIRED_AFFIXES ≠ 0)

/-- The statements of the loop body after the two affix pattern matchers are
generated (`if (signum == 1) ... fAffixMatchers[numAffixMatchers++] = ...`):
the affix matchers that the iteration stores, given the generated `prefix` and
`suffix` and the values of `posPrefix` and `posSuffix` before the iteration. -/
def storedMatchers (parseFlags : Nat) (signum : Int)
    (prefixMatcher suffixMatcher posPrefix posSuffix : Option AffixPatternMatcher) :
    List AffixMatcher :=
  if signum ≠ 1 ∧ equals prefixMatcher posPrefix = true
      ∧ equals suffixMatcher posSuffix = true then []
  else
    { fPrefix := prefixMatcher, fSuffix := suffixMatcher,
      fFlags := if signum = -1 then FLAG_NEGATIVE else 0 } ::
      (if includeUnpaired parseFlags = true ∧ prefixMatcher.isSome ∧ suffixMatcher.isSome then
        (if signum = 1 ∨ equals prefixMatcher (if signum = 1 then prefixMatcher else posPrefix)
            = true then
          [{ fPrefix := prefixMatcher, fSuffix := none,
             fFlags := if signum = -1 then FLAG_NEGATIVE else 0 }]
        else []) ++
        (if signum = 1 ∨ equals suffixMatcher (if signum = 1 then suffixMatcher else posSuffix)
            = true then
          [{ fPrefix := none, fSuffix := suffixMatcher,
             fFlags := if signum = -1 then FLAG_NEGATIVE else 0 }]
        else [])
      else [])

/-- One iteration of the loop `for (int8_t signum = 1; signum >= -1; signum--)`
of the constructor. -/
def iteration (utils : AffixUtils AffixPatternProvider) (patternInfo : AffixPatternProvider)
    (parseFlags : Nat) (self : AffixMatcherWarehouse) (signum : Int) : AffixMatcherWarehouse :=
  let generatedPrefix := AffixPatternMatcher.fromAffixPattern utils
    (utils.patternInfoToStringBuilder patternInfo true signum (signDisplay parseFlags))
    self.warehouse parseFlags
  let prefixMatcher := if generatedPrefix.2.1 then some generatedPrefix.1 else none
  let generatedSuffix := AffixPatternMatcher.fromAffixPattern utils
    (utils.patternInfoToStringBuilder patternInfo false signum (signDisplay parseFlags))
    generatedPrefix.2.2 parseFlags
  let suffixMatcher := if generatedSuffix.2.1 then some generatedSuffix.1 else none
  { fAffixMatchers := self.fAffixMatchers ++
      storedMatchers parseFlags signum prefixMatcher suffixMatcher self.posPrefix self.posSuffix,
    fAffixPatternMatchers := self.fAffixPatternMatchers
      ++ (if generatedPrefix.2.1 then [generatedPrefix.1] else [])
      ++ (if generatedSuffix.2.1 then [generatedSuffix.1] else []),
    fAffixTokenMatcherWarehouse := self.fAffixTokenMatcherWarehouse,
    warehouse := generatedSuffix.2.2,
    posPrefix := if signum = 1 then prefixMatcher else self.posPrefix,
    posSuffix := if signum = 1 then suffixMatcher else self.posSuffix }

/-- Embeds the constructor `AffixMatcherWarehouse::AffixMatcherWarehouse(patternInfo,
output, warehouse, ignorables, parseFlags, status)`. -/
def construct (utils : AffixUtils AffixPatternProvider) (patternInfo : AffixPatternProvider)
    (warehouse : AffixTokenMatcherWarehouse) (ignorables : IgnorablesMatcher)
    (parseFlags : Nat) : AffixMatcherWarehouse :=
  if isInteresting utils patternInfo ignorables parseFlags = false then
    { fAffixMatchers := [], fAffixPatternMatchers := [],
      fAffixTokenMatcherWarehouse := warehouse, warehouse := warehouse,
      posPrefix := none, posSuffix := none }
  else
    [(1 : Int), 0, -1].foldl (iteration utils patternInfo parseFlags)
      { fAffixMatchers := [], fAffixPatternMatchers := [],
        fAffixTokenMatcherWarehouse := warehouse, warehouse := warehouse,
        posPrefix := none, posSuffix := none }

end AffixMatcherWarehouse

/-- The pattern text the constructor compiles for a side and a signum. -/
def sideText (utils : AffixUtils AffixPatternProvider) (patternInfo : AffixPatternProvider)
    (parseFlags : Nat) (isPrefix : Bool) (signum : Int) : List Nat :=
  utils.patternInfoToStringBuilder patternInfo isPrefix signum
    (AffixMatcherWarehouse.signDisplay parseFlags)

/-! ### Notions used to state the properties of the matcher set -/

/-- The pattern text of an optional composite matcher; `none` for `nullptr`. -/
def patternOf (affix : Option AffixPatternMatcher) : Option (List Nat) :=
  affix.map AffixPatternMatcher.getPattern

/-- What `fromAffixPattern` gives as a pointer: `nullptr` when `*success` is
false, the compiled matcher otherwise. -/
def compiledAffix (generated : AffixPatternMatcher × Bool × AffixTokenMatcherWarehouse) :
    Option AffixPatternMatcher :=
  if generated.2.1 then some generated.1 else none

/-- The pointer the constructor holds for a pattern text, read as a text:
`nullptr` for the empty text and the text itself otherwise. -/
def textOf (s : List Nat) : Option (List Nat) :=
  if s.isEmpty then none else some s

/-- A prefix-only affix matcher: the prefix is present and the suffix absent. -/
def AffixMatcher.isPrefixOnly (m : AffixMatcher) : Bool :=
  m.fPrefix.isSome && m.fSuffix.isNone

/-- A suffix-only affix matcher: the suffix is present and the prefix absent. -/
def AffixMatcher.isSuffixOnly (m : AffixMatcher) : Bool :=
  m.fPrefix.isNone && m.fSuffix.isSome

/-- Two affix matchers are duplicate unpaired matchers: both are prefix-only
with equal prefix pattern text, or both are suffix-only with equal suffix
pattern text. -/
def AffixMatcher.duplicatesUnpaired (a b : AffixMatcher) : Bool :=
  (a.isPrefixOnly && b.isPrefixOnly && decide (patternOf a.fPrefix = patternOf b.fPrefix)) ||
    (a.isSuffixOnly && b.isSuffixOnly && decide (patternOf a.fSuffix = patternOf b.fSuffix))

/-- No two affix matchers at different places of a set are duplicate unpaired
matchers. -/
def noDuplicateUnpaired (ms : List AffixMatcher) : Prop :=
  ms.Pairwise (fun a b => a.duplicatesUnpaired b = false)

/-- A matcher corresponds to a recorded pattern text, in the words of the
specification: an absent matcher corresponds only to an absent (bogus) record
and a present matcher only to a record equal to its pattern text. -/
def corresponds (affix : Option AffixPatternMatcher) (record : Option (List Nat)) : Prop :=
  (affix = none ∧ record = none) ∨ (∃ a, affix = some a ∧ record = some a.getPattern)

/-- The condition of `postProcess`: both sides are matched. -/
def AffixMatcher.fires (m : AffixMatcher) (result : ParsedNumber) : Bool :=
  AffixMatcher.matched m.fPrefix result.resultPrefix &&
    AffixMatcher.matched m.fSuffix result.resultSuffix

/-- The calls of `postProcess` of the matchers of a set, in sequence on one
accumulator: the number of matchers that found both sides matched (and applied
their flags), and the accumulator after the last call. -/
def postProcessAll : List AffixMatcher → ParsedNumber → Nat × ParsedNumber
  | [], result => (0, result)
  | m :: rest, result =>
    ((if m.fires result then 1 else 0) + (postProcessAll rest (m.postProcess result)).1,
      (postProcessAll rest (m.postProcess result)).2)

/-- A sample tokenizer: `-`, `+`, `%`, U+2030 and U+00A4 are the minus, plus,
percent, permille and single-currency tokens, every other code unit is a
literal code point (quoting is left out). -/
def sampleTokenize (s : List Nat) : List (Int × Int) :=
  s.map (fun u =>
    if u = 0x2D then (TYPE_MINUS_SIGN, 0)
    else if u = 0x2B then (TYPE_PLUS_SIGN, 0)
    else if u = 0x25 then (TYPE_PERCENT, 0)
    else if u = 0x2030 then (TYPE_PERMILLE, 0)
    else if u = 0xA4 then (TYPE_CURRENCY_SINGLE, 0)
    else (TYPE_CODEPOINT, (u : Int)))

/-- Sample providers of pattern text over the sample tokenizer; the text for
signum -1 is the negative subpattern when there is one, and the positive
affix otherwise. -/
def sampleUtils : AffixUtils AffixPatternProvider :=
  { iterateWithConsumer := sampleTokenize,
    containsOnlySymbolsAndIgnorables := fun s ign =>
      (sampleTokenize s).all (fun t => decide (t.1 ≠ TYPE_CODEPOINT) || ign.contains t.2),
    containsType := fun s type => (sampleTokenize s).any (fun t => decide (t.1 = type)),
    patternInfoToStringBuilder := fun info isPrefix signum _ =>
      if signum = -1 ∧ info.hasNegativeSubpattern = true then
        (if isPrefix then info.AFFIX_NEG_PREFIX else info.AFFIX_NEG_SUFFIX)
      else (if isPrefix then info.AFFIX_POS_PREFIX else info.AFFIX_POS_SUFFIX) }

/-- A sample ignorables matcher: the space and the two directional marks. -/
def sampleIgnorables : IgnorablesMatcher :=
  { contains := fun cp => decide (cp = 0x20 ∨ cp = 0x200E ∨ cp = 0x200F) }

/-- A sample pool with inline capacity 2 and batches of 3. -/
def samplePool : AffixTokenMatcherWarehouse :=
  AffixTokenMatcherWarehouse.fresh 2 3 (some sampleIgnorables)

/-- The affixes `("PRE", "A")` and `("PRE", "B")`: the negative pairing shares
the prefix of the positive one and differs in the suffix. -/
def sharedPrefixProvider : AffixPatternProvider :=
  { AFFIX_POS_PREFIX := [0x50, 0x52, 0x45], AFFIX_POS_SUFFIX := [0x41],
    AFFIX_NEG_PREFIX := [0x50, 0x52, 0x45], AFFIX_NEG_SUFFIX := [0x42],
    hasNegativeSubpattern := true }

/-- The affixes `("PRE", "A")` and `("NPRE", "B")`: the negative pairing
differs from the positive one on both sides. -/
def distinctProvider : AffixPatternProvider :=
  { AFFIX_POS_PREFIX := [0x50, 0x52, 0x45], AFFIX_POS_SUFFIX := [0x41],
    AFFIX_NEG_PREFIX := [0x4E, 0x50, 0x52, 0x45], AFFIX_NEG_SUFFIX := [0x42],
    hasNegativeSubpattern := true }

/-- The affixes `("PRE", "S")` for both signs. -/
def samePairProvider : AffixPatternProvider :=
  { AFFIX_POS_PREFIX := [0x50, 0x52, 0x45], AFFIX_POS_SUFFIX := [0x53],
    AFFIX_NEG_PREFIX := [0x50, 0x52, 0x45], AFFIX_NEG_SUFFIX := [0x53],
    hasNegativeSubpattern := true }

/-- The affixes `("", "")` and `("-", "")`. -/
def minusOnlyProvider : AffixPatternProvider :=
  { AFFIX_POS_PREFIX := [], AFFIX_POS_SUFFIX := [],
    AFFIX_NEG_PREFIX := [0x2D], AFFIX_NEG_SUFFIX := [],
    hasNegativeSubpattern := true }

/-- The texts (prefix, suffix) and the flags of the affix matchers of a set. -/
def matcherTexts (ms : List AffixMatcher) : List (Option (List Nat) × Option (List Nat) × Nat) :=
  ms.map (fun m => (patternOf m.fPrefix, patternOf m.fSuffix, m.fFlags))


/-! ### The default currency forms -/

/-- Modelled from the spec: `PluralAffix::equals(rhs)` (the class `PluralAffix`
is not among the sources): the two mappings have the same `other` entry and,
for every other category, the same explicit entry or none on both sides. -/
def PluralAffix.equals (p rhs : PluralAffix) : Bool :=
  decide (p.otherVariant = rhs.otherVariant) &&
    [PluralCategory.zero, PluralCategory.one, PluralCategory.two, PluralCategory.few,
      PluralCategory.many].all (fun c => decide (p.variants c = rhs.variants c))

/-- Embeds `CurrencyAffixInfo::isDefault()`; `dLong` is a default-constructed
`PluralAffix` to which the three default symbols are appended. -/
def CurrencyAffixInfo.isDefault (self : CurrencyAffixInfo) : Bool :=
  decide (self.fSymbol = gDefaultSymbols.take 1) && decide (self.fISO = gDefaultSymbols.take 2) &&
    self.fLong.equals (emptyPluralAffix.append (gDefaultSymbols.take 3) UNUM_FIELD_COUNT)

/-! ### Notions used to state the properties of the matcher compiler -/

/-- A token `iterateWithConsumer` can pass to `consumeToken`: a literal code
point (`TYPE_CODEPOINT` with a code point, which is not negative) or one of
the nine symbol kinds of `AffixPatternType`. -/
def isAffixPatternToken (tok : Int × Int) : Bool :=
  (decide (tok.1 = TYPE_CODEPOINT) && decide (0 ≤ tok.2)) ||
    (decide (TYPE_CURRENCY_QUINT ≤ tok.1) && decide (tok.1 ≤ TYPE_MINUS_SIGN))

/-- The builder `fromAffixPattern` constructs before the tokens are consumed
(`fMatchersLen(0), fLastTypeOrCp(0), fPattern(pattern), fWarehouse(warehouse),
fIgnorables(ignorables)`). -/
def AffixPatternMatcherBuilder.initial (pattern : List Nat)
    (warehouse : AffixTokenMatcherWarehouse) (ignorables : Option IgnorablesMatcher) :
    AffixPatternMatcherBuilder :=
  { fMatchers := [], fLastTypeOrCp := 0, fPattern := pattern, fWarehouse := warehouse,
    fIgnorables := ignorables }

/-- The matcher is a code-point matcher. -/
def NumberParseMatcherRef.isCodePoint : NumberParseMatcherRef → Bool
  | NumberParseMatcherRef.codePoint _ => true
  | _ => false

/-- The state of a builder with a non-null ignorables matcher between two
calls of `consumeToken`: the ignorables matcher sits exactly at the odd
places of the matcher list; after an odd number of matchers the last token
was a symbol or a literal that is not ignorable, and after an even, non-zero
number of matchers it was an ignorable literal. -/
def alternationInvariant (ign : IgnorablesMatcher) (b : AffixPatternMatcherBuilder) : Prop :=
  b.fIgnorables = some ign ∧
    (∀ i m, b.fMatchers[i]? = some m → (m = NumberParseMatcherRef.ignorables ↔ i % 2 = 1)) ∧
    (b.fMatchers.length % 2 = 1 → (b.fLastTypeOrCp < 0 ∨ ign.contains b.fLastTypeOrCp = false)) ∧
    (b.fMatchers.length % 2 = 0 → 0 < b.fMatchers.length →
      (0 ≤ b.fLastTypeOrCp ∧ ign.contains b.fLastTypeOrCp = true))

/-- The mapping of the specification from a symbol token kind to the accessor
of the matcher pool: minus, plus, percent and permille to their own matcher,
and the five currency kinds to the one currency matcher. -/
def symbolMatcher (type : Int) : NumberParseMatcherRef :=
  if type = TYPE_MINUS_SIGN then NumberParseMatcherRef.minusSign
  else if type = TYPE_PLUS_SIGN then NumberParseMatcherRef.plusSign
  else if type = TYPE_PERCENT then NumberParseMatcherRef.percent
  else if type = TYPE_PERMILLE then NumberParseMatcherRef.permille
  else NumberParseMatcherRef.currency

/-- The matcher list of the specification for a token stream without
ignorables: one matcher per token, in order; a symbol token gives its pool
matcher and the literal tokens take the code-point slots in the order of
issue, starting with the `k`-th slot. -/
def exactMatchers (capacity batchSize : Nat) : Nat → List (Int × Int) → List NumberParseMatcherRef
  | _, [] => []
  | k, tok :: rest =>
    if tok.1 = TYPE_CODEPOINT then
      NumberParseMatcherRef.codePoint (slotOf capacity batchSize k)
        :: exactMatchers capacity batchSize (k + 1) rest
    else symbolMatcher tok.1 :: exactMatchers capacity batchSize k rest

/-- The code points of the literal tokens of a token stream, in order. -/
def literalCodePoints (toks : List (Int × Int)) : List Int :=
  (toks.filter (fun tok => decide (tok.1 = TYPE_CODEPOINT))).map (fun tok => tok.2)

/-! ### The user string of a pattern -/

/-- The loop `for (int32_t i = 0; i < len; ++i)` of `escapeLiteral`: an
apostrophe is appended twice, every other code unit once.  The appender
(`UnicodeStringAppender`, whose header is not among the sources) is the text
appended so far. -/
def escapeLiteralLoop : List Nat → List Nat → List Nat
  | [], appender => appender
  | ch :: rest, appender =>
    if ch = 0x27 then escapeLiteralLoop rest ((appender ++ [0x27]) ++ [0x27])
    else escapeLiteralLoop rest (appender ++ [ch])

/-- Embeds the static function `escapeLiteral(literal, appender)`. -/
def escapeLiteral (literal : List Nat) (appender : List Nat) : List Nat :=
  escapeLiteralLoop literal (appender ++ [0x27]) ++ [0x27]

/-- The loop `for (int32_t i = 0; i < cl; ++i) appender.append((UChar) 0xA4);`
of `toUserString`. -/
def appendCurrencyGlyphs : Nat → List Nat → List Nat
  | 0, appender => appender
  | cl + 1, appender => appendCurrencyGlyphs cl (appender ++ [0xA4])

/-- The loop `while (iter.nextToken()) { switch ... }` of
`AffixPattern::toUserString`.  Arguments: fuel, the iterator, the appender.
The `default:` branch, `U_ASSERT(FALSE)`, gives `none`. -/
def toUserStringLoop : Nat → AffixPatternIterator → List Nat → Option (List Nat)
  | 0, _, appender => some appender
  | fuel + 1, iter, appender =>
    if iter.nextToken.1 then
      if iter.nextToken.2.getTokenType = kLiteral then
        toUserStringLoop fuel iter.nextToken.2 (escapeLiteral iter.nextToken.2.getLiteral appender)
      else if iter.nextToken.2.getTokenType = kPercent then
        toUserStringLoop fuel iter.nextToken.2 (appender ++ [0x25])
      else if iter.nextToken.2.getTokenType = kPerMill then
        toUserStringLoop fuel iter.nextToken.2 (appender ++ [0x2030])
      else if iter.nextToken.2.getTokenType = kCurrency then
        toUserStringLoop fuel iter.nextToken.2
          (appendCurrencyGlyphs iter.nextToken.2.getTokenLength appender)
      else if iter.nextToken.2.getTokenType = kNegative then
        toUserStringLoop fuel iter.nextToken.2 (appender ++ [0x2D])
      else none
    else some appender

/-- Embeds `AffixPattern::toUserString(appendTo)`: `appendTo` after the call, or
`none` when the `U_ASSERT(FALSE)` branch is reached.  Every successful
`nextToken` advances the iterator, so fuel `tokens.length + 1` is never
exhausted. -/
def AffixPattern.toUserString (p : AffixPattern) (appendTo : List Nat) : Option (List Nat) :=
  toUserStringLoop (p.tokens.length + 1) p.iterator appendTo

/-! ### Notions used to state the safety properties of the token stream -/

/-- A logical token the two parsers can produce: a literal, a percent,
permille or negative token (with a count that fits its cell), or a currency
token with a count of 1, 2 or 3. -/
def LogicalToken.known : LogicalToken → Bool
  | LogicalToken.literal _ => true
  | LogicalToken.symbol t count =>
    ((t == kPercent || t == kPerMill || t == kNegative) && decide (count < 256))
      || (t == kCurrency && decide (1 ≤ count) && decide (count ≤ 3))

/-- A pattern whose stream is described by a sequence of tokens the parsers
can produce. -/
def KnownStream (p : AffixPattern) : Prop :=
  ∃ toks, StreamOf p toks ∧ ∀ tok ∈ toks, tok.known = true

/-- The length chains of a run of cells are separated: a long cell is
preceded by a cell of literal kind, and a cell of literal kind without the
long bit is not; `prevLiteral` tells whether the cell before the run is of
literal kind (false at the start of the stream). -/
def chainsSeparated (prevLiteral : Bool) : List Nat → Bool
  | [] => true
  | c :: cs =>
    (if UNPACK_LONG c ≠ 0 then prevLiteral
      else if UNPACK_TOKEN c = kLiteral then !prevLiteral else true)
      && chainsSeparated (decide (UNPACK_TOKEN c = kLiteral)) cs

/-- The sum of the decoded lengths of the literal tokens of a pattern. -/
def decodedLiteralLength (p : AffixPattern) : Nat :=
  (p.replayAll.1.map (fun it =>
    if it.getTokenType = kLiteral then it.getTokenLength else 0)).sum

/-- The indices of an iterator are in bounds: the slice that `getLiteral`
reads starts at `nextLiteralIndex - lastLiteralLength`, which is not
negative, and ends at `nextLiteralIndex`, within `literals`; and
`nextTokenIndex` is within `tokens`. -/
def AffixPatternIterator.inBounds (it : AffixPatternIterator) : Bool :=
  decide (it.lastLiteralLength ≤ it.nextLiteralIndex) &&
    decide (it.nextLiteralIndex ≤ it.literals.length) &&
    decide (it.nextTokenIndex ≤ it.tokens.length)
/-! ## Arithmetic reading of the packing macros -/

theorem shl8_or_eq (a b : Nat) (hb : b < 256) : (a <<< 8) ||| b = a * 256 + b := by
  have h := Nat.mul_add_lt_is_or (i := 8) (b := b) (by simpa using hb) a
  rw [Nat.shiftLeft_eq, Nat.mul_comm a, ← h]

theorem and_ff_eq (c : Nat) : c &&& 0xFF = c % 256 :=
  Nat.and_pow_two_sub_one_eq_mod c 8

theorem UNPACK_LENGTH_eq (c : Nat) : UNPACK_LENGTH c = c % 256 :=
  and_ff_eq c

theorem UNPACK_TOKEN_eq (c : Nat) : UNPACK_TOKEN c = c / 256 % 128 := by
  unfold UNPACK_TOKEN
  rw [Nat.shiftRight_eq_div_pow]
  exact Nat.and_pow_two_sub_one_eq_mod (c / 2 ^ 8) 7

theorem UNPACK_LONG_ne_zero_iff (c : Nat) : UNPACK_LONG c ≠ 0 ↔ 128 ≤ c / 256 % 256 := by
  unfold UNPACK_LONG
  rw [Nat.shiftRight_eq_div_pow]
  have h := Nat.and_two_pow (c / 2 ^ 8) 7
  have h2 := Nat.testBit_to_div_mod (x := c / 2 ^ 8) (i := 7)
  norm_num at h h2 ⊢
  rw [h, h2]
  clear h h2
  by_cases h3 : c / 256 / 128 % 2 = 1
  · have h4 : 128 ≤ c / 256 % 256 := by omega
    simp [h3, h4]
  · have h4 : ¬ 128 ≤ c / 256 % 256 := by omega
    simp only [h3, decide_False, Bool.toNat_false, h4]
    simp

theorem PACK_TOKEN_AND_LENGTH_eq (t l : Nat) :
    PACK_TOKEN_AND_LENGTH t l = (t * 256 + l % 256) % 65536 := by
  unfold PACK_TOKEN_AND_LENGTH
  rw [and_ff_eq, shl8_or_eq _ _ (Nat.mod_lt _ (by norm_num))]

theorem UNPACK_TOKEN_PACK (t l : Nat) (ht : t < 128) :
    UNPACK_TOKEN (PACK_TOKEN_AND_LENGTH t l) = t := by
  rw [UNPACK_TOKEN_eq, PACK_TOKEN_AND_LENGTH_eq]
  omega

theorem UNPACK_LENGTH_PACK (t l : Nat) :
    UNPACK_LENGTH (PACK_TOKEN_AND_LENGTH t l) = l % 256 := by
  rw [UNPACK_LENGTH_eq, PACK_TOKEN_AND_LENGTH_eq]
  omega

theorem UNPACK_LONG_PACK (t l : Nat) (ht : t < 128) :
    UNPACK_LONG (PACK_TOKEN_AND_LENGTH t l) = 0 := by
  by_contra h
  have h2 := (UNPACK_LONG_ne_zero_iff _).mp h
  rw [PACK_TOKEN_AND_LENGTH_eq] at h2
  omega

theorem UNPACK_TOKEN_PACK_long (l : Nat) :
    UNPACK_TOKEN (PACK_TOKEN_AND_LENGTH (kLiteral ||| 0x80) l) = kLiteral := by
  rw [UNPACK_TOKEN_eq, PACK_TOKEN_AND_LENGTH_eq]
  have : kLiteral ||| 0x80 = 128 := by decide
  rw [this]
  unfold kLiteral
  omega

theorem UNPACK_LONG_PACK_long (l : Nat) :
    UNPACK_LONG (PACK_TOKEN_AND_LENGTH (kLiteral ||| 0x80) l) ≠ 0 := by
  rw [UNPACK_LONG_ne_zero_iff, PACK_TOKEN_AND_LENGTH_eq]
  have : kLiteral ||| 0x80 = 128 := by decide
  rw [this]
  omega

/-! ## The chain of cells written by `addLiteral` -/

theorem chainValue_nil : chainValue [] = 0 := rfl

theorem chainValue_cons (c : Nat) (cs : List Nat) :
    chainValue (c :: cs) = UNPACK_LENGTH c + 256 * chainValue cs := rfl

theorem chainValue_append (l m : List Nat) :
    chainValue (l ++ m) = chainValue l + 256 ^ l.length * chainValue m := by
  induction l with
  | nil => simp [chainValue]
  | cons c cs ih =>
    show UNPACK_LENGTH c + 256 * chainValue (cs ++ m) = _
    rw [ih]
    simp only [chainValue, List.length_cons, pow_succ]
    ring

theorem encodeLongCells_long (fuel n : Nat) :
    ∀ c ∈ AffixPattern.encodeLongCells fuel n, UNPACK_LONG c ≠ 0 ∧ UNPACK_TOKEN c = kLiteral := by
  induction fuel generalizing n with
  | zero => simp [AffixPattern.encodeLongCells]
  | succ f ih =>
    intro c hc
    unfold AffixPattern.encodeLongCells at hc
    by_cases hn : n ≠ 0
    · rw [if_pos hn] at hc
      rcases List.mem_cons.mp hc with h | h
      · subst h
        exact ⟨UNPACK_LONG_PACK_long _, UNPACK_TOKEN_PACK_long _⟩
      · exact ih _ c h
    · rw [if_neg hn] at hc
      simp at hc

theorem chainValue_encodeLongCells (fuel n : Nat) (h : n ≤ fuel) :
    chainValue (AffixPattern.encodeLongCells fuel n) = n := by
  induction fuel generalizing n with
  | zero =>
    have : n = 0 := by omega
    simp [AffixPattern.encodeLongCells, chainValue, this]
  | succ f ih =>
    unfold AffixPattern.encodeLongCells
    by_cases hn : n ≠ 0
    · rw [if_pos hn]
      simp only [chainValue]
      rw [UNPACK_LENGTH_PACK, and_ff_eq, Nat.shiftRight_eq_div_pow, ih (n / 2 ^ 8) (by
        have : n / 2 ^ 8 < n := Nat.div_lt_self (by omega) (by norm_num)
        omega)]
      norm_num
      omega
    · rw [if_neg hn]
      simp only [chainValue]
      omega

theorem chainValue_lengthChain (n : Nat) : chainValue (lengthChain n) = n := by
  unfold lengthChain
  simp only [chainValue]
  rw [UNPACK_LENGTH_PACK, and_ff_eq, Nat.shiftRight_eq_div_pow,
    chainValue_encodeLongCells _ _ (Nat.div_le_self _ _)]
  norm_num
  omega

theorem lengthChain_literal (n : Nat) : ∀ c ∈ lengthChain n, UNPACK_TOKEN c = kLiteral := by
  intro c hc
  unfold lengthChain at hc
  rcases List.mem_cons.mp hc with h | h
  · subst h
    exact UNPACK_TOKEN_PACK _ _ (by decide)
  · exact (encodeLongCells_long _ _ c h).2

theorem lengthChain_ne_nil (n : Nat) : lengthChain n ≠ [] := by
  simp [lengthChain]

/-! ## The backward scan of `addLiteral` -/

theorem findLiteralStart_append_left (L M : List Nat) (j acc : Nat) (hj : j ≤ L.length) :
    AffixPattern.findLiteralStart (L ++ M) j acc = AffixPattern.findLiteralStart L j acc := by
  induction j generalizing acc with
  | zero => rfl
  | succ k ih =>
    have hk : k < L.length := hj
    have hget : (L ++ M).getD k 0 = L.getD k 0 := by
      simp [List.getD_eq_getElem?_getD, List.getElem?_append_left hk]
    simp only [AffixPattern.findLiteralStart, hget]
    rw [ih _ (Nat.le_of_lt hk)]

theorem findLiteralStart_fixed (toks : List Nat) (k acc : Nat)
    (h : k = 0 ∨ UNPACK_TOKEN (toks.getD (k - 1) 0) ≠ kLiteral) :
    AffixPattern.findLiteralStart toks k acc = (k, acc) := by
  cases k with
  | zero => rfl
  | succ j =>
    rcases h with h | h
    · omega
    · simp only [Nat.add_sub_cancel] at h
      simp only [AffixPattern.findLiteralStart, if_neg h]

theorem findLiteralStart_stop (toks : List Nat) (j acc : Nat) :
    (AffixPattern.findLiteralStart toks j acc).1 ≤ j ∧
      ((AffixPattern.findLiteralStart toks j acc).1 = 0 ∨
        UNPACK_TOKEN (toks.getD ((AffixPattern.findLiteralStart toks j acc).1 - 1) 0) ≠ kLiteral) := by
  induction j generalizing acc with
  | zero => simp [AffixPattern.findLiteralStart]
  | succ k ih =>
    unfold AffixPattern.findLiteralStart
    by_cases hc : UNPACK_TOKEN (toks.getD k 0) = kLiteral
    · rw [if_pos hc]
      exact ⟨Nat.le_succ_of_le (ih _).1, (ih _).2⟩
    · rw [if_neg hc]
      exact ⟨Nat.le_refl _, Or.inr (by simpa using hc)⟩

theorem findLiteralStart_chain (pre suf : List Nat) (acc : Nat)
    (hs : ∀ c ∈ suf, UNPACK_TOKEN c = kLiteral) :
    AffixPattern.findLiteralStart (pre ++ suf) (pre.length + suf.length) acc =
      AffixPattern.findLiteralStart pre pre.length (acc * 256 ^ suf.length + chainValue suf) := by
  induction suf using List.reverseRecOn generalizing acc with
  | nil => simp [chainValue, findLiteralStart_append_left]
  | append_singleton s c ih =>
    have hc : UNPACK_TOKEN c = kLiteral := hs c (by simp)
    have hget : (pre ++ (s ++ [c])).getD (pre.length + s.length) 0 = c := by
      rw [← List.append_assoc, List.getD_eq_getElem?_getD,
        List.getElem?_append_right (by simp)]
      simp
    have hlen : pre.length + (s ++ [c]).length = (pre.length + s.length) + 1 := by
      simp [Nat.add_assoc]
    rw [hlen]
    simp only [AffixPattern.findLiteralStart, hget, if_pos hc]
    rw [← List.append_assoc, findLiteralStart_append_left _ _ _ _ (by simp),
      ih _ (fun x hx => hs x (by simp [hx])), chainValue_append,
      shl8_or_eq _ _ (by rw [UNPACK_LENGTH_eq]; omega)]
    congr 1
    simp only [chainValue, List.length_append, List.length_singleton, pow_succ]
    ring

/-- What `addLiteral` leaves in `tokens`: the cells before the trailing run of
literal cells, then the chain for the old length plus `len`. -/
theorem addLiteral_tokens (p : AffixPattern) (literal : List Nat) (start len : Nat) :
    (p.addLiteral literal start len).tokens =
      p.tokens.take (AffixPattern.findLiteralStart p.tokens p.tokens.length 0).1 ++
        lengthChain ((AffixPattern.findLiteralStart p.tokens p.tokens.length 0).2 + len) := rfl

/-- The scan over a stream that ends in the chain of `n`, written after a
position where an earlier scan stopped, finds that position and `n`. -/
theorem findLiteralStart_take_chain (toks : List Nat) (n : Nat) :
    AffixPattern.findLiteralStart
        (toks.take (AffixPattern.findLiteralStart toks toks.length 0).1 ++ lengthChain n)
        (toks.take (AffixPattern.findLiteralStart toks toks.length 0).1 ++ lengthChain n).length 0 =
      ((AffixPattern.findLiteralStart toks toks.length 0).1, n) := by
  obtain ⟨hle, hstop⟩ := findLiteralStart_stop toks toks.length 0
  generalize (AffixPattern.findLiteralStart toks toks.length 0).1 = k at hle hstop
  have hlen : (toks.take k).length = k := by simp [hle]
  rw [List.length_append, findLiteralStart_chain _ _ _ (lengthChain_literal n), hlen,
    chainValue_lengthChain]
  have hfix : k = 0 ∨ UNPACK_TOKEN ((toks.take k).getD (k - 1) 0) ≠ kLiteral := by
    rcases hstop with h | h
    · exact Or.inl h
    · by_cases hk : k = 0
      · exact Or.inl hk
      · right
        have : (toks.take k).getD (k - 1) 0 = toks.getD (k - 1) 0 := by
          simp [List.getD_eq_getElem?_getD, List.getElem?_take, Nat.sub_lt (Nat.pos_of_ne_zero hk)]
        rw [this]
        exact h
  rw [findLiteralStart_fixed _ _ _ hfix]
  simp

/-! ## Literal merging -/

/-- C2 (literal merging).  On every pattern state `p` and for all code-unit
strings `a`, `b` whose merged literal length fits an `int32_t`, calling
`addLiteral(a)` and then `addLiteral(b)` leaves the same `tokens` and the same
`literals` as the single call `addLiteral(a ++ b)`; the resulting stream is the
cells before the trailing literal run of `p` (empty, or ending in a cell that
is not a literal cell) followed by one length chain: a first cell without the
long bit and then only cells with the long bit. -/
theorem addLiteral_merge (p : AffixPattern) (a b : List Nat)
    (hfit : (AffixPattern.findLiteralStart p.tokens p.tokens.length 0).2
      + a.length + b.length < 2 ^ 31) :
    ((p.addLiteral a 0 a.length).addLiteral b 0 b.length).tokens
        = (p.addLiteral (a ++ b) 0 (a ++ b).length).tokens ∧
    ((p.addLiteral a 0 a.length).addLiteral b 0 b.length).literals
        = (p.addLiteral (a ++ b) 0 (a ++ b).length).literals ∧
    ∃ pre n, (p.addLiteral (a ++ b) 0 (a ++ b).length).tokens = pre ++ lengthChain n ∧
      (∀ c, pre.getLast? = some c → UNPACK_TOKEN c ≠ kLiteral) ∧
      (∀ c, (lengthChain n).head? = some c → UNPACK_LONG c = 0) ∧
      (∀ c ∈ (lengthChain n).tail, UNPACK_LONG c ≠ 0) := by
  refine ⟨?_, ?_, ?_⟩
  · rw [addLiteral_tokens, addLiteral_tokens, addLiteral_tokens, findLiteralStart_take_chain]
    obtain ⟨hle, -⟩ := findLiteralStart_stop p.tokens p.tokens.length 0
    simp only [List.length_append, Nat.add_assoc]
    rw [List.take_append_of_le_length (by simp [hle]), List.take_take, Nat.min_self]
  · simp [AffixPattern.addLiteral]
  · obtain ⟨hle, hstop⟩ := findLiteralStart_stop p.tokens p.tokens.length 0
    refine ⟨_, _, addLiteral_tokens p (a ++ b) 0 (a ++ b).length, ?_, ?_, ?_⟩
    · intro c hc
      rcases hstop with h | h
      · rw [h] at hc
        simp at hc
      · have hk : (AffixPattern.findLiteralStart p.tokens p.tokens.length 0).1 ≠ 0 := by
          intro h0
          rw [h0] at hc
          simp at hc
        generalize (AffixPattern.findLiteralStart p.tokens p.tokens.length 0).1 = k at *
        have hlen : (p.tokens.take k).length = k := by simp [hle]
        rw [List.getLast?_eq_getElem?, hlen, List.getElem?_take] at hc
        rw [if_pos (by omega)] at hc
        rw [List.getD_eq_getElem?_getD, hc] at h
        exact h
    · intro c hc
      simp only [lengthChain, List.head?_cons, Option.some.injEq] at hc
      subst hc
      exact UNPACK_LONG_PACK _ _ (by decide)
    · intro c hc
      simp only [lengthChain, List.tail_cons] at hc
      exact (encodeLongCells_long _ _ c hc).1

/-! ## The iterator on a stream of chains and symbol cells -/

theorem getD_append_length (pre : List Nat) (c : Nat) (rest : List Nat) :
    (pre ++ c :: rest).getD pre.length 0 = c := by
  rw [List.getD_eq_getElem?_getD, List.getElem?_append_right (Nat.le_refl _)]
  simp

theorem skipLong_run (pre longs rest : List Nat) (fuel : Nat)
    (hl : ∀ c ∈ longs, UNPACK_LONG c ≠ 0)
    (hr : ∀ c, rest.head? = some c → UNPACK_LONG c = 0)
    (hf : longs.length ≤ fuel) :
    AffixPatternIterator.skipLong (pre ++ longs ++ rest) (pre ++ longs ++ rest).length
      fuel pre.length = pre.length + longs.length := by
  induction longs generalizing pre fuel with
  | nil =>
    cases fuel with
    | zero => rfl
    | succ f =>
      simp only [List.append_nil, AffixPatternIterator.skipLong, List.length_nil, Nat.add_zero]
      rw [if_neg]
      rintro ⟨hlt, hlong⟩
      cases rest with
      | nil => simp at hlt
      | cons r rs =>
        rw [getD_append_length] at hlong
        exact hlong (hr r rfl)
  | cons c cs ih =>
    cases fuel with
    | zero => simp at hf
    | succ f =>
      have hget : (pre ++ c :: cs ++ rest).getD pre.length 0 = c := by
        rw [List.append_assoc, List.cons_append, getD_append_length]
      simp only [AffixPatternIterator.skipLong, hget]
      rw [if_pos ⟨by simp, hl c (by simp)⟩]
      have hre : pre ++ c :: cs ++ rest = (pre ++ [c]) ++ cs ++ rest := by simp
      have h := ih (pre ++ [c]) f (fun x hx => hl x (by simp [hx]))
        (by simpa using hf)
      rw [List.length_append pre [c], List.length_singleton] at h
      rw [hre, h, List.length_cons]
      omega

theorem readLength_step (toks : List Nat) (i acc : Nat) :
    AffixPatternIterator.readLength toks i acc =
      if i ≠ 0 ∧ UNPACK_LONG (toks.getD i 0) ≠ 0 then
        AffixPatternIterator.readLength toks (i - 1)
          ((acc <<< 8) ||| UNPACK_LENGTH (toks.getD i 0))
      else (acc <<< 8) ||| UNPACK_LENGTH (toks.getD i 0) := by
  cases i with
  | zero => simp [AffixPatternIterator.readLength]
  | succ k =>
    simp only [AffixPatternIterator.readLength, ne_eq, Nat.add_one_ne_zero, not_false_eq_true,
      true_and, Nat.add_sub_cancel]

theorem readLength_run (pre : List Nat) (c0 : Nat) (longs rest : List Nat) (acc : Nat)
    (h0 : UNPACK_LONG c0 = 0) (hl : ∀ c ∈ longs, UNPACK_LONG c ≠ 0) :
    AffixPatternIterator.readLength (pre ++ c0 :: longs ++ rest) (pre.length + longs.length) acc
      = acc * 256 ^ (longs.length + 1) + chainValue (c0 :: longs) := by
  induction longs using List.reverseRecOn generalizing acc rest with
  | nil =>
    rw [readLength_step]
    have hget : (pre ++ [c0] ++ rest).getD (pre.length + ([] : List Nat).length) 0 = c0 := by
      simp only [List.length_nil, Nat.add_zero, List.append_assoc, List.singleton_append]
      exact getD_append_length pre c0 rest
    rw [hget, if_neg (by simp [h0]), shl8_or_eq _ _ (by rw [UNPACK_LENGTH_eq]; omega)]
    simp [chainValue]
  | append_singleton ls c ih =>
    have hlong : UNPACK_LONG c ≠ 0 := hl c (by simp)
    have hget : (pre ++ c0 :: (ls ++ [c]) ++ rest).getD (pre.length + (ls ++ [c]).length) 0 = c := by
      have : pre ++ c0 :: (ls ++ [c]) ++ rest = (pre ++ c0 :: ls) ++ c :: rest := by simp
      rw [this]
      have h2 : pre.length + (ls ++ [c]).length = (pre ++ c0 :: ls).length := by
        simp [Nat.add_assoc]
      rw [h2]
      exact getD_append_length _ c rest
    rw [readLength_step, hget, if_pos ⟨by simp, hlong⟩,
      shl8_or_eq _ _ (by rw [UNPACK_LENGTH_eq]; omega)]
    have hre : pre ++ c0 :: (ls ++ [c]) ++ rest = pre ++ c0 :: ls ++ (c :: rest) := by simp
    have hidx : pre.length + (ls ++ [c]).length - 1 = pre.length + ls.length := by simp
    rw [hre, hidx, ih _ _ (fun x hx => hl x (by simp [hx]))]
    have hcv : chainValue (c0 :: (ls ++ [c])) =
        chainValue (c0 :: ls) + 256 ^ (ls.length + 1) * UNPACK_LENGTH c := by
      have := chainValue_append (c0 :: ls) [c]
      rw [List.cons_append] at this
      rw [this, List.length_cons, chainValue_cons c [], chainValue_nil]
      simp
    rw [hcv]
    simp only [List.length_append, List.length_singleton, pow_succ]
    ring

theorem lengthChain_head_not_long (n : Nat) :
    UNPACK_LONG (PACK_TOKEN_AND_LENGTH kLiteral (n &&& 0xFF)) = 0 :=
  UNPACK_LONG_PACK _ _ (by decide)

/-- One call of `nextToken` in front of a length chain: the whole chain is
consumed and its value becomes `lastLiteralLength`. -/
theorem nextToken_chain (pre rest : List Nat) (n li ll : Nat) (lits : List Nat)
    (hr : ∀ c, rest.head? = some c → UNPACK_LONG c = 0) :
    AffixPatternIterator.nextToken
        { nextLiteralIndex := li, lastLiteralLength := ll, nextTokenIndex := pre.length,
          tokens := pre ++ lengthChain n ++ rest, literals := lits } =
      (true, { nextLiteralIndex := li + n, lastLiteralLength := n,
               nextTokenIndex := pre.length + (lengthChain n).length,
               tokens := pre ++ lengthChain n ++ rest, literals := lits }) := by
  have hlongs := fun c hc => (encodeLongCells_long n (n >>> 8) c hc).1
  have htoks : pre ++ lengthChain n ++ rest =
      (pre ++ [PACK_TOKEN_AND_LENGTH kLiteral (n &&& 0xFF)])
        ++ AffixPattern.encodeLongCells n (n >>> 8) ++ rest := by
    simp [lengthChain]
  have hskip := skipLong_run (pre ++ [PACK_TOKEN_AND_LENGTH kLiteral (n &&& 0xFF)])
    (AffixPattern.encodeLongCells n (n >>> 8)) rest
    ((pre ++ lengthChain n ++ rest).length - (pre.length + 1)) hlongs hr
    (by simp only [lengthChain, List.length_append, List.length_cons]; omega)
  have hread := readLength_run pre (PACK_TOKEN_AND_LENGTH kLiteral (n &&& 0xFF))
    (AffixPattern.encodeLongCells n (n >>> 8)) rest 0 (lengthChain_head_not_long n) hlongs
  have hcv := chainValue_lengthChain n
  have hget : (pre ++ lengthChain n ++ rest).getD pre.length 0 =
      PACK_TOKEN_AND_LENGTH kLiteral (n &&& 0xFF) := by
    rw [List.append_assoc]
    exact getD_append_length pre _ _
  have hne : pre.length ≠ (pre ++ lengthChain n ++ rest).length := by
    simp only [lengthChain, List.length_append, List.length_cons]
    omega
  unfold AffixPatternIterator.nextToken
  simp only [if_neg hne, Nat.add_sub_cancel, hget, UNPACK_TOKEN_PACK _ _ (show kLiteral < 128 by decide),
    if_true]
  rw [← htoks, List.length_append pre, List.length_singleton] at hskip
  rw [hskip]
  have hidx : pre.length + 1 + (AffixPattern.encodeLongCells n (n >>> 8)).length - 1 =
      pre.length + (AffixPattern.encodeLongCells n (n >>> 8)).length := by omega
  have hre : pre ++ lengthChain n ++ rest =
      pre ++ PACK_TOKEN_AND_LENGTH kLiteral (n &&& 0xFF)
        :: AffixPattern.encodeLongCells n (n >>> 8) ++ rest := by
    simp [lengthChain]
  rw [← hre] at hread
  have hcv2 : chainValue (PACK_TOKEN_AND_LENGTH kLiteral (n &&& 0xFF)
      :: AffixPattern.encodeLongCells n (n >>> 8)) = n := hcv
  rw [hcv2, Nat.zero_mul, Nat.zero_add] at hread
  rw [hidx, hread]
  simp only [lengthChain, List.length_cons, Prod.mk.injEq, true_and,
    AffixPatternIterator.mk.injEq, and_true]
  omega

/-- One call of `nextToken` in front of a cell that is not a literal cell. -/
theorem nextToken_symbol (pre rest : List Nat) (c li ll : Nat) (lits : List Nat)
    (hc : UNPACK_TOKEN c ≠ kLiteral) :
    AffixPatternIterator.nextToken
        { nextLiteralIndex := li, lastLiteralLength := ll, nextTokenIndex := pre.length,
          tokens := pre ++ c :: rest, literals := lits } =
      (true, { nextLiteralIndex := li, lastLiteralLength := ll,
               nextTokenIndex := pre.length + 1,
               tokens := pre ++ c :: rest, literals := lits }) := by
  unfold AffixPatternIterator.nextToken
  have hne : pre.length ≠ (pre ++ c :: rest).length := by simp
  simp only [if_neg hne, Nat.add_sub_cancel, getD_append_length, if_neg hc]

/-- At the end of the stream `nextToken` returns `FALSE` and changes nothing. -/
theorem nextToken_end (it : AffixPatternIterator) (h : it.nextTokenIndex = it.tokens.length) :
    it.nextToken = (false, it) := by
  unfold AffixPatternIterator.nextToken
  simp [h]

/-! ## Round trip of the encoded stream -/

theorem LogicalToken.fits_of_wellFormed (tok : LogicalToken) (h : tok.wellFormed = true) :
    tok.fits := by
  cases tok with
  | literal s => trivial
  | symbol t count =>
    simp only [LogicalToken.wellFormed, kPercent, kPerMill, kNegative, kCurrency,
      Bool.or_eq_true, Bool.and_eq_true, beq_iff_eq, decide_eq_true_eq] at h
    simp only [LogicalToken.fits]
    omega

theorem cells_ne_nil (tok : LogicalToken) : tok.cells ≠ [] := by
  cases tok <;> simp [LogicalToken.cells, lengthChain]

theorem cells_head_not_long (tok : LogicalToken) (hf : tok.fits) :
    ∀ c, tok.cells.head? = some c → UNPACK_LONG c = 0 := by
  intro c hc
  cases tok with
  | literal s =>
    simp only [LogicalToken.cells, lengthChain, List.head?_cons, Option.some.injEq] at hc
    subst hc
    exact lengthChain_head_not_long _
  | symbol t count =>
    simp only [LogicalToken.cells, List.head?_cons, Option.some.injEq] at hc
    subst hc
    exact UNPACK_LONG_PACK _ _ hf.2.1

theorem flatMap_cells_head_not_long (toks : List LogicalToken) (hf : ∀ tok ∈ toks, tok.fits) :
    ∀ c, (toks.flatMap LogicalToken.cells).head? = some c → UNPACK_LONG c = 0 := by
  intro c hc
  cases toks with
  | nil => simp at hc
  | cons tok rest =>
    rw [List.flatMap_cons] at hc
    obtain ⟨x, xs, hx⟩ := List.exists_cons_of_ne_nil (cells_ne_nil tok)
    rw [hx, List.cons_append, List.head?_cons] at hc
    exact cells_head_not_long tok (hf tok (by simp)) c (by rw [hx, List.head?_cons]; exact hc)


theorem build_concat (toks : List LogicalToken) (tok : LogicalToken) :
    AffixPattern.build (toks ++ [tok]) = (AffixPattern.build toks).addToken tok := by
  simp [AffixPattern.build, List.foldl_append]

theorem addLiteral_after_symbol (p : AffixPattern) (s : List Nat)
    (h : p.tokens = [] ∨ ∃ pre c, p.tokens = pre ++ [c] ∧ UNPACK_TOKEN c ≠ kLiteral) :
    (p.addLiteral s 0 s.length).tokens = p.tokens ++ lengthChain s.length := by
  have hfix : AffixPattern.findLiteralStart p.tokens p.tokens.length 0 = (p.tokens.length, 0) := by
    apply findLiteralStart_fixed
    rcases h with h | ⟨pre, c, h, hc⟩
    · left; simp [h]
    · right
      rw [h, List.length_append, List.length_singleton, Nat.add_sub_cancel, getD_append_length]
      exact hc
  rw [addLiteral_tokens, hfix]
  simp

theorem addLiteral_literals (p : AffixPattern) (s : List Nat) :
    (p.addLiteral s 0 s.length).literals = p.literals ++ s := by
  simp [AffixPattern.addLiteral]

theorem noAdjacentLiterals_iff (toks : List LogicalToken) :
    noAdjacentLiterals toks = true ↔
      List.Chain' (fun a b => ¬ (a.isLiteral = true ∧ b.isLiteral = true)) toks := by
  induction toks with
  | nil => simp [noAdjacentLiterals]
  | cons a rest ih =>
    cases rest with
    | nil => simp [noAdjacentLiterals]
    | cons b rest2 =>
      rw [List.chain'_cons, ← ih]
      simp only [noAdjacentLiterals, Bool.and_eq_true, Bool.not_eq_true', Bool.and_eq_false_iff,
        not_and, Bool.not_eq_true]
      constructor
      · rintro ⟨h1, h2⟩
        refine ⟨fun ha => ?_, h2⟩
        rcases h1 with h1 | h1
        · rw [ha] at h1; cases h1
        · exact h1
      · rintro ⟨h1, h2⟩
        refine ⟨?_, h2⟩
        cases ha : a.isLiteral
        · exact Or.inl rfl
        · exact Or.inr (h1 ha)

/-- The stream and the text buffer of a pattern built from logical tokens, no
two literals adjacent: the concatenation of the cells, and of the texts. -/
theorem build_stream (toks : List LogicalToken) (hf : ∀ tok ∈ toks, tok.fits)
    (hadj : List.Chain' (fun a b => ¬ (a.isLiteral = true ∧ b.isLiteral = true)) toks) :
    (AffixPattern.build toks).tokens = toks.flatMap LogicalToken.cells ∧
      (AffixPattern.build toks).literals = toks.flatMap LogicalToken.text := by
  induction toks using List.reverseRecOn with
  | nil => exact ⟨rfl, rfl⟩
  | append_singleton ts tok ih =>
    rw [List.chain'_append] at hadj
    obtain ⟨h1, -, h3⟩ := hadj
    obtain ⟨iht, ihl⟩ := ih (fun t ht => hf t (by simp [ht])) h1
    rw [build_concat, List.flatMap_append, List.flatMap_append]
    cases tok with
    | symbol t count =>
      simp [AffixPattern.addToken, AffixPattern.add, iht, ihl, LogicalToken.cells,
        LogicalToken.text]
    | literal s =>
      simp only [AffixPattern.addToken, List.flatMap_cons, List.flatMap_nil, List.append_nil,
        LogicalToken.cells, LogicalToken.text]
      refine ⟨?_, ?_⟩
      · rw [addLiteral_after_symbol, iht]
        rcases List.eq_nil_or_concat ts with hts | ⟨L, b, hts⟩
        · left; rw [iht, hts]; rfl
        · right
          rw [List.concat_eq_append] at hts
          subst hts
          have hb := h3 b (by simp) (LogicalToken.literal s) (by simp)
          cases b with
          | literal s2 => simp [LogicalToken.isLiteral] at hb
          | symbol t count =>
            have hfb := hf (LogicalToken.symbol t count) (by simp)
            refine ⟨L.flatMap LogicalToken.cells, PACK_TOKEN_AND_LENGTH t count, ?_, ?_⟩
            · rw [iht, List.flatMap_append]
              simp [LogicalToken.cells]
            · rw [UNPACK_TOKEN_PACK _ _ hfb.2.1]
              unfold kLiteral
              exact Nat.ne_of_gt hfb.1
      · rw [addLiteral_literals, ihl]

theorem getD_last_of_middle (pre mid rest : List Nat) (h : mid ≠ []) :
    (pre ++ mid ++ rest).getD (pre.length + mid.length - 1) 0 ∈ mid := by
  rcases List.eq_nil_or_concat mid with hm | ⟨init, last, hm⟩
  · exact absurd hm h
  · rw [List.concat_eq_append] at hm
    subst hm
    have h1 : pre ++ (init ++ [last]) ++ rest = (pre ++ init) ++ last :: rest := by simp
    have h2 : pre.length + (init ++ [last]).length - 1 = (pre ++ init).length := by simp
    rw [h1, h2, getD_append_length]
    simp

theorem replay_succ_true (fuel : Nat) (it it2 : AffixPatternIterator)
    (h : it.nextToken = (true, it2)) :
    AffixPatternIterator.replay (fuel + 1) it =
      (it2 :: (AffixPatternIterator.replay fuel it2).1, (AffixPatternIterator.replay fuel it2).2) := by
  simp [AffixPatternIterator.replay, h]

theorem replay_succ_false (fuel : Nat) (it it2 : AffixPatternIterator)
    (h : it.nextToken = (false, it2)) :
    AffixPatternIterator.replay (fuel + 1) it = ([], it2) := by
  simp [AffixPatternIterator.replay, h]

/-- Replaying a stream that is the concatenation of the cells of logical
tokens visits one iterator state per token, each agreeing with its token, and
ends with `nextToken` returning `FALSE`. -/
theorem replay_stream (toks : List LogicalToken) (hf : ∀ tok ∈ toks, tok.fits)
    (pre lpre : List Nat) (ll fuel : Nat) (hfuel : toks.length < fuel) :
    List.Forall₂ LogicalToken.agrees toks
      (AffixPatternIterator.replay fuel
        { nextLiteralIndex := lpre.length, lastLiteralLength := ll, nextTokenIndex := pre.length,
          tokens := pre ++ toks.flatMap LogicalToken.cells,
          literals := lpre ++ toks.flatMap LogicalToken.text }).1 ∧
    (AffixPatternIterator.replay fuel
        { nextLiteralIndex := lpre.length, lastLiteralLength := ll, nextTokenIndex := pre.length,
          tokens := pre ++ toks.flatMap LogicalToken.cells,
          literals := lpre ++ toks.flatMap LogicalToken.text }).2.nextToken.1 = false := by
  induction toks generalizing pre lpre ll fuel with
  | nil =>
    obtain ⟨f, rfl⟩ : ∃ f, fuel = f + 1 := ⟨fuel - 1, by simp at hfuel; omega⟩
    rw [replay_succ_false f _ _ (nextToken_end _ (by simp))]
    refine ⟨List.Forall₂.nil, ?_⟩
    rw [nextToken_end _ (by simp)]
  | cons tok rest ih =>
    obtain ⟨f, rfl⟩ : ∃ f, fuel = f + 1 := ⟨fuel - 1, by simp at hfuel; omega⟩
    have hfr : ∀ t ∈ rest, t.fits := fun t ht => hf t (by simp [ht])
    have hlt : rest.length < f := by simpa using hfuel
    have hhead := flatMap_cells_head_not_long rest hfr
    cases tok with
    | literal s =>
      have hnt := nextToken_chain pre (rest.flatMap LogicalToken.cells) s.length lpre.length ll
        (lpre ++ (LogicalToken.literal s :: rest).flatMap LogicalToken.text) hhead
      have htoks : pre ++ (LogicalToken.literal s :: rest).flatMap LogicalToken.cells =
          pre ++ lengthChain s.length ++ rest.flatMap LogicalToken.cells := by
        simp [LogicalToken.cells]
      rw [htoks, replay_succ_true f _ _ hnt]
      have hih := ih hfr (pre ++ lengthChain s.length) (lpre ++ s) s.length f hlt
      have hlits : lpre ++ (LogicalToken.literal s :: rest).flatMap LogicalToken.text =
          lpre ++ s ++ rest.flatMap LogicalToken.text := by
        simp [LogicalToken.text]
      rw [hlits]
      rw [List.length_append pre, List.length_append lpre] at hih
      refine ⟨List.Forall₂.cons ?_ hih.1, hih.2⟩
      have hty : UNPACK_TOKEN ((pre ++ lengthChain s.length ++ rest.flatMap LogicalToken.cells).getD
          (pre.length + (lengthChain s.length).length - 1) 0) = kLiteral :=
        lengthChain_literal _ _ (getD_last_of_middle _ _ _ (lengthChain_ne_nil _))
      refine ⟨hty, ?_, ?_⟩
      · simp only [AffixPatternIterator.getTokenLength, hty, if_true]
      · simp only [AffixPatternIterator.getLiteral, Nat.add_sub_cancel, List.append_assoc,
          List.drop_left, List.take_left]
    | symbol t count =>
      have hft := hf (LogicalToken.symbol t count) (by simp)
      have hne : UNPACK_TOKEN (PACK_TOKEN_AND_LENGTH t count) ≠ kLiteral := by
        rw [UNPACK_TOKEN_PACK _ _ hft.2.1]
        unfold kLiteral
        exact Nat.ne_of_gt hft.1
      have hnt := nextToken_symbol pre (rest.flatMap LogicalToken.cells)
        (PACK_TOKEN_AND_LENGTH t count) lpre.length ll
        (lpre ++ (LogicalToken.symbol t count :: rest).flatMap LogicalToken.text) hne
      have htoks : pre ++ (LogicalToken.symbol t count :: rest).flatMap LogicalToken.cells =
          pre ++ PACK_TOKEN_AND_LENGTH t count :: rest.flatMap LogicalToken.cells := by
        simp [LogicalToken.cells]
      rw [htoks, replay_succ_true f _ _ hnt]
      have hih := ih hfr (pre ++ [PACK_TOKEN_AND_LENGTH t count]) lpre ll f hlt
      have hlits : lpre ++ (LogicalToken.symbol t count :: rest).flatMap LogicalToken.text =
          lpre ++ rest.flatMap LogicalToken.text := by
        simp [LogicalToken.text]
      have hre : pre ++ [PACK_TOKEN_AND_LENGTH t count] ++ rest.flatMap LogicalToken.cells =
          pre ++ PACK_TOKEN_AND_LENGTH t count :: rest.flatMap LogicalToken.cells := by simp
      rw [hlits]
      rw [List.length_append pre, List.length_singleton, hre] at hih
      refine ⟨List.Forall₂.cons ?_ hih.1, hih.2⟩
      have hget : (pre ++ PACK_TOKEN_AND_LENGTH t count :: rest.flatMap LogicalToken.cells).getD
          (pre.length + 1 - 1) 0 = PACK_TOKEN_AND_LENGTH t count := by
        rw [Nat.add_sub_cancel, getD_append_length]
      refine ⟨?_, ?_⟩
      · simp only [AffixPatternIterator.getTokenType, hget, UNPACK_TOKEN_PACK _ _ hft.2.1]
      · simp only [AffixPatternIterator.getTokenLength, hget, if_neg hne, UNPACK_LENGTH_PACK]
        exact Nat.mod_eq_of_lt hft.2.2

theorem flatMap_cells_length (toks : List LogicalToken) :
    toks.length ≤ (toks.flatMap LogicalToken.cells).length := by
  induction toks with
  | nil => simp
  | cons tok rest ih =>
    have := List.length_pos.mpr (cells_ne_nil tok)
    simp only [List.flatMap_cons, List.length_append, List.length_cons]
    omega

theorem replayAll_of_stream (p : AffixPattern) (toks : List LogicalToken)
    (hf : ∀ tok ∈ toks, tok.fits)
    (ht : p.tokens = toks.flatMap LogicalToken.cells)
    (hl : p.literals = toks.flatMap LogicalToken.text) :
    List.Forall₂ LogicalToken.agrees toks p.replayAll.1 ∧
      p.replayAll.2.nextToken.1 = false := by
  have h := replay_stream toks hf [] [] 0 (p.tokens.length + 1)
    (by rw [ht]; exact Nat.lt_succ_of_le (flatMap_cells_length toks))
  simp only [List.nil_append, List.length_nil] at h
  unfold AffixPattern.replayAll AffixPattern.iterator
  rw [ht, hl]
  rw [ht] at h
  exact h

/-- The pattern built from a sequence of fitting tokens without adjacent
literals replays as that sequence. -/
theorem build_replayAll (toks : List LogicalToken) (hf : ∀ tok ∈ toks, tok.fits)
    (hadj : noAdjacentLiterals toks = true) :
    List.Forall₂ LogicalToken.agrees toks (AffixPattern.build toks).replayAll.1 ∧
      (AffixPattern.build toks).replayAll.2.nextToken.1 = false := by
  obtain ⟨ht, hl⟩ := build_stream toks hf ((noAdjacentLiterals_iff toks).mp hadj)
  exact replayAll_of_stream _ toks hf ht hl

/-- C1 (round trip of the encoded stream).  For every sequence of logical
tokens whose literals are non-empty (total literal length below `2 ^ 31`),
with no two literals adjacent, percent/permille/negative tokens of count 1
and currency tokens of count 1..3: the pattern built from empty by the
corresponding `add` / `addLiteral` calls, replayed from `iterator()` with
`nextToken`, visits exactly one iterator state per token, in order, and
`getTokenType`, `getTokenLength` and (for a literal) `getLiteral` agree with
the token; the next call of `nextToken` returns `FALSE`. -/
theorem roundTrip (toks : List LogicalToken)
    (hwf : ∀ tok ∈ toks, tok.wellFormed = true)
    (hadj : noAdjacentLiterals toks = true)
    (hlen : totalLiteralLength toks < 2 ^ 31) :
    List.Forall₂ LogicalToken.agrees toks (AffixPattern.build toks).replayAll.1 ∧
      (AffixPattern.build toks).replayAll.2.nextToken.1 = false := by
  have hf : ∀ tok ∈ toks, tok.fits := fun tok h => tok.fits_of_wellFormed (hwf tok h)
  obtain ⟨ht, hl⟩ := build_stream toks hf ((noAdjacentLiterals_iff toks).mp hadj)
  have h := replay_stream toks hf [] [] 0 ((AffixPattern.build toks).tokens.length + 1)
    (by rw [ht]; exact Nat.lt_succ_of_le (flatMap_cells_length toks))
  simp only [List.nil_append, List.length_nil] at h
  unfold AffixPattern.replayAll AffixPattern.iterator
  rw [ht, hl]
  rw [ht] at h
  exact h

/-- Witness of C1 on the sample sequence `ab`, currency x3, `%` literal, percent. -/
theorem roundTrip_witness :
    (∀ tok ∈ sampleTokens, tok.wellFormed = true) ∧ noAdjacentLiterals sampleTokens = true ∧
      totalLiteralLength sampleTokens < 2 ^ 31 ∧
      List.Forall₂ LogicalToken.agrees sampleTokens (AffixPattern.build sampleTokens).replayAll.1 ∧
      (AffixPattern.build sampleTokens).replayAll.2.nextToken.1 = false :=
  ⟨by decide, by decide, by decide, roundTrip sampleTokens (by decide) (by decide) (by decide)⟩

/-- Witness of C2: two literal appends after `%a` against one append. -/
theorem addLiteral_merge_witness :
    ((samplePattern.addLiteral [0x62] 0 1).addLiteral [0x63, 0x64] 0 2).tokens
        = (samplePattern.addLiteral [0x62, 0x63, 0x64] 0 3).tokens ∧
      ((samplePattern.addLiteral [0x62] 0 1).addLiteral [0x63, 0x64] 0 2).literals
        = (samplePattern.addLiteral [0x62, 0x63, 0x64] 0 3).literals :=
  ⟨(addLiteral_merge samplePattern [0x62] [0x63, 0x64] (by decide)).1,
    (addLiteral_merge samplePattern [0x62] [0x63, 0x64] (by decide)).2.1⟩

/-! ## Multi-cell literal lengths -/

theorem PACK_literal_eq (n : Nat) : PACK_TOKEN_AND_LENGTH kLiteral (n &&& 0xFF) = n % 256 := by
  rw [PACK_TOKEN_AND_LENGTH_eq, and_ff_eq]
  unfold kLiteral
  omega

theorem PACK_long_eq (n : Nat) :
    PACK_TOKEN_AND_LENGTH (kLiteral ||| 0x80) (n &&& 0xFF) = 0x8000 + n % 256 := by
  rw [PACK_TOKEN_AND_LENGTH_eq, and_ff_eq]
  have : kLiteral ||| 0x80 = 128 := by decide
  rw [this]
  omega

theorem encodeLongCells_digits (fuel m : Nat) (h : m ≤ fuel) :
    AffixPattern.encodeLongCells fuel m = (Nat.digits 256 m).map (fun x => 0x8000 + x) := by
  induction fuel generalizing m with
  | zero =>
    have : m = 0 := by omega
    subst this
    simp [AffixPattern.encodeLongCells]
  | succ f ih =>
    unfold AffixPattern.encodeLongCells
    by_cases hm : m ≠ 0
    · rw [if_pos hm, Nat.digits_def' (by norm_num) (Nat.pos_of_ne_zero hm), PACK_long_eq,
        Nat.shiftRight_eq_div_pow, ih (m / 2 ^ 8) (by
          have : m / 2 ^ 8 < m := Nat.div_lt_self (by omega) (by norm_num)
          omega)]
      simp
    · have : m = 0 := by omega
      subst this
      simp

theorem lengthChain_digits (n : Nat) :
    lengthChain n = n % 256 :: (Nat.digits 256 (n / 256)).map (fun x => 0x8000 + x) := by
  unfold lengthChain
  rw [PACK_literal_eq, Nat.shiftRight_eq_div_pow, encodeLongCells_digits _ _ (Nat.div_le_self _ _)]

theorem addLiteral_empty_tokens (s : List Nat) (start len : Nat) :
    (AffixPattern.empty.addLiteral s start len).tokens = lengthChain len := by
  simp [addLiteral_tokens, AffixPattern.empty, AffixPattern.findLiteralStart]

/-- C3 (multi-cell literal length).  For `1 ≤ n < 2 ^ 31`, `addLiteral` of `n`
code units onto the empty pattern writes the base-256 digits of `n`, least
significant first: the first digit in a cell without the long bit (the cell is
the digit itself), every further digit `x` in a cell `0x8000 + x` with the long
bit, and the last digit is not zero.  One `nextToken` step of the iterator then
returns `TRUE` with token type literal, `getTokenLength() = n` and
`getLiteral()` the code units added, and the next step returns `FALSE`. -/
theorem addLiteral_multiCell (n : Nat) (s : List Nat) (hs : s.length = n)
    (h1 : 1 ≤ n) (h2 : n < 2 ^ 31) :
    (∃ d ds, Nat.digits 256 n = d :: ds ∧
      (AffixPattern.empty.addLiteral s 0 n).tokens = d :: ds.map (fun x => 0x8000 + x) ∧
      (∀ x, (d :: ds).getLast? = some x → x ≠ 0)) ∧
    (∀ c, (AffixPattern.empty.addLiteral s 0 n).tokens.head? = some c → UNPACK_LONG c = 0) ∧
    (∀ c ∈ (AffixPattern.empty.addLiteral s 0 n).tokens.tail, UNPACK_LONG c ≠ 0) ∧
    (AffixPattern.empty.addLiteral s 0 n).iterator.nextToken.1 = true ∧
    (AffixPattern.empty.addLiteral s 0 n).iterator.nextToken.2.getTokenType = kLiteral ∧
    (AffixPattern.empty.addLiteral s 0 n).iterator.nextToken.2.getTokenLength = n ∧
    (AffixPattern.empty.addLiteral s 0 n).iterator.nextToken.2.getLiteral = s ∧
    (AffixPattern.empty.addLiteral s 0 n).iterator.nextToken.2.nextToken.1 = false := by
  have hn : n ≠ 0 := by omega
  have hdig := Nat.digits_def' (b := 256) (by norm_num) (Nat.pos_of_ne_zero hn)
  refine ⟨⟨n % 256, Nat.digits 256 (n / 256), hdig, ?_, ?_⟩, ?_, ?_, ?_⟩
  · rw [addLiteral_empty_tokens, lengthChain_digits n]
  · intro x hx
    rw [← hdig] at hx
    have hne := Nat.getLast_digit_ne_zero 256 hn
    rw [List.getLast?_eq_getLast _ (Nat.digits_ne_nil_iff_ne_zero.mpr hn)] at hx
    simp only [Option.some.injEq] at hx
    rw [← hx]
    exact hne
  · intro c hc
    rw [addLiteral_empty_tokens] at hc
    simp only [lengthChain, List.head?_cons, Option.some.injEq] at hc
    subst hc
    exact lengthChain_head_not_long n
  · intro c hc
    rw [addLiteral_empty_tokens] at hc
    simp only [lengthChain, List.tail_cons] at hc
    exact (encodeLongCells_long _ _ c hc).1
  · have hlit : (AffixPattern.empty.addLiteral s 0 n).literals = s := by
      simp [AffixPattern.addLiteral, AffixPattern.empty, ← hs]
    have hnt := nextToken_chain [] [] n 0 0 s (by simp)
    simp only [List.nil_append, List.append_nil, List.length_nil, Nat.zero_add] at hnt
    have hit : (AffixPattern.empty.addLiteral s 0 n).iterator =
        { nextLiteralIndex := 0, lastLiteralLength := 0, nextTokenIndex := 0,
          tokens := lengthChain n, literals := s } := by
      simp only [AffixPattern.iterator, addLiteral_empty_tokens, hlit]
    rw [hit, hnt]
    have hty : UNPACK_TOKEN ((lengthChain n).getD ((lengthChain n).length - 1) 0) = kLiteral := by
      have := getD_last_of_middle [] (lengthChain n) [] (lengthChain_ne_nil n)
      simp only [List.nil_append, List.append_nil, List.length_nil, Nat.zero_add] at this
      exact lengthChain_literal _ _ this
    refine ⟨rfl, hty, ?_, ?_, ?_⟩
    · simp only [AffixPatternIterator.getTokenLength, hty, if_true]
    · simp [AffixPatternIterator.getLiteral, ← hs]
    · rw [nextToken_end _ rfl]

/-- Witness of C3: 300 code units give the two cells `0x002C`, `0x8001`. -/
theorem addLiteral_multiCell_witness :
    (AffixPattern.empty.addLiteral (List.replicate 300 0x61) 0 300).tokens = [0x002C, 0x8001] ∧
    (AffixPattern.empty.addLiteral (List.replicate 300 0x61) 0 300).iterator.nextToken.2.getTokenLength
      = 300 ∧
    (AffixPattern.empty.addLiteral (List.replicate 300 0x61) 0 300).iterator.nextToken.2.getLiteral
      = List.replicate 300 0x61 :=
  ⟨by decide,
    (addLiteral_multiCell 300 (List.replicate 300 0x61) (List.length_replicate _ _)
      (by decide) (by decide)).2.2.2.2.2.1,
    (addLiteral_multiCell 300 (List.replicate 300 0x61) (List.length_replicate _ _)
      (by decide) (by decide)).2.2.2.2.2.2.1⟩

/-! ## `parseAffixString`: currency runs -/

theorem nextTokenRun_le (buffer : List Nat) (idx len fuel i : Nat) (hi : i ≤ 4) :
    nextTokenRun buffer idx len fuel i ≤ 4 := by
  induction fuel generalizing i with
  | zero => exact hi
  | succ f ih =>
    unfold nextTokenRun
    split
    · rename_i h
      exact ih (i + 1) (by omega)
    · exact hi

theorem nextToken_size_le (buffer : List Nat) (idx len : Nat) :
    (nextToken buffer idx len).1 ≤ 4 := by
  unfold nextToken
  split
  · simp
  · split
    · exact nextTokenRun_le buffer idx len 4 2 (by decide)
    · simp

theorem literalRun_size_le (buffer : List Nat) (len fuel i tokenSize token : Nat)
    (h : tokenSize ≤ 4) : (literalRun buffer len fuel i tokenSize token).2.1 ≤ 4 := by
  induction fuel generalizing i tokenSize token with
  | zero => exact h
  | succ f ih =>
    unfold literalRun
    split
    · split
      · exact ih _ _ _ (nextToken_size_le buffer i len)
      · exact nextToken_size_le buffer i len
    · exact h

theorem parseAffixStringLoop_status (buffer : List Nat) (len fuel i : Nat)
    (appendTo : AffixPattern) (status : UErrorCode) :
    (parseAffixStringLoop buffer len fuel i appendTo status).2 = status := by
  induction fuel generalizing i appendTo with
  | zero => rfl
  | succ f ih =>
    unfold parseAffixStringLoop
    have hsize : (if (nextToken buffer i len).1 = 1 then
          literalRun buffer len (len - (i + 1)) (i + 1) (nextToken buffer i len).1
            (nextToken buffer i len).2
        else (i, (nextToken buffer i len).1, (nextToken buffer i len).2)).2.1 ≤ 4 := by
      split
      · exact literalRun_size_le _ _ _ _ _ _ (nextToken_size_le buffer i len)
      · exact nextToken_size_le buffer i len
    have hnot : ¬ ((if (nextToken buffer i len).1 = 1 then
          literalRun buffer len (len - (i + 1)) (i + 1) (nextToken buffer i len).1
            (nextToken buffer i len).2
        else (i, (nextToken buffer i len).1, (nextToken buffer i len).2)).2.1 - 1 > 3) := by
      omega
    simp only [hnot, if_false]
    split_ifs <;> first | rfl | exact ih _ _

/-- C4, as the code behaves.  `parseAffixString` never changes the status: for
every input, pattern and status the status after the call is the status before
it, so `U_PARSE_ERROR` is never set.  On the apostrophe followed by four
U+00A4 the call succeeds and leaves a currency token of length 3 followed by
the one-character literal U+00A4. -/
theorem parseAffixString_never_fails :
    (∀ (affixStr : List Nat) (appendTo : AffixPattern) (status : UErrorCode),
      (AffixPattern.parseAffixString affixStr appendTo status).2 = status) ∧
    AffixPattern.parseAffixString [0x27, 0xA4, 0xA4, 0xA4, 0xA4] AffixPattern.empty
        UErrorCode.U_ZERO_ERROR =
      ({ tokens := [0x0303, 0x0001], literals := [0xA4], hasCurrencyToken := true,
         hasPercentToken := false, hasPermillToken := false, char32Count := 4 },
        UErrorCode.U_ZERO_ERROR) := by
  refine ⟨?_, by decide⟩
  intro affixStr appendTo status
  unfold AffixPattern.parseAffixString
  split
  · rfl
  · exact parseAffixStringLoop_status _ _ _ _ _ _

theorem parseAffixString_currency_eq (k : Nat) (hk : k = 1 ∨ k = 2 ∨ k = 3) :
    AffixPattern.parseAffixString (0x27 :: List.replicate k 0xA4) AffixPattern.empty
        UErrorCode.U_ZERO_ERROR =
      (AffixPattern.build [LogicalToken.symbol kCurrency k], UErrorCode.U_ZERO_ERROR) := by
  rcases hk with rfl | rfl | rfl <;> decide

/-- C5 (currency runs of 1, 2 and 3).  For `k` in `{1, 2, 3}`,
`parseAffixString` applied to the apostrophe followed by exactly `k` U+00A4, on
the empty pattern with a success status, leaves the status a success and a
pattern that replays as exactly one token, a currency token of length `k`
(after it `nextToken` returns `FALSE`), with `hasCurrencyToken` set and no
literal text. -/
theorem parseAffixString_currency (k : Nat) (hk : k = 1 ∨ k = 2 ∨ k = 3) :
    (AffixPattern.parseAffixString (0x27 :: List.replicate k 0xA4) AffixPattern.empty
        UErrorCode.U_ZERO_ERROR).2 = UErrorCode.U_ZERO_ERROR ∧
    List.Forall₂ LogicalToken.agrees [LogicalToken.symbol kCurrency k]
      (AffixPattern.parseAffixString (0x27 :: List.replicate k 0xA4) AffixPattern.empty
        UErrorCode.U_ZERO_ERROR).1.replayAll.1 ∧
    (AffixPattern.parseAffixString (0x27 :: List.replicate k 0xA4) AffixPattern.empty
        UErrorCode.U_ZERO_ERROR).1.replayAll.2.nextToken.1 = false ∧
    (AffixPattern.parseAffixString (0x27 :: List.replicate k 0xA4) AffixPattern.empty
        UErrorCode.U_ZERO_ERROR).1.hasCurrencyToken = true ∧
    (AffixPattern.parseAffixString (0x27 :: List.replicate k 0xA4) AffixPattern.empty
        UErrorCode.U_ZERO_ERROR).1.literals = [] := by
  rw [parseAffixString_currency_eq k hk]
  have hwf : ∀ tok ∈ [LogicalToken.symbol kCurrency k], tok.wellFormed = true := by
    rcases hk with rfl | rfl | rfl <;> decide
  have hrt := build_replayAll [LogicalToken.symbol kCurrency k]
    (fun tok h => tok.fits_of_wellFormed (hwf tok h)) rfl
  refine ⟨rfl, hrt.1, hrt.2, ?_, ?_⟩
  · rcases hk with rfl | rfl | rfl <;> decide
  · rcases hk with rfl | rfl | rfl <;> decide

/-- Witness of C5 at `k = 3`: the apostrophe followed by three U+00A4. -/
theorem parseAffixString_currency_witness :
    (AffixPattern.parseAffixString [0x27, 0xA4, 0xA4, 0xA4] AffixPattern.empty
        UErrorCode.U_ZERO_ERROR).2 = UErrorCode.U_ZERO_ERROR ∧
    (AffixPattern.parseAffixString [0x27, 0xA4, 0xA4, 0xA4] AffixPattern.empty
        UErrorCode.U_ZERO_ERROR).1.tokens = [PACK_TOKEN_AND_LENGTH kCurrency 3] ∧
    (AffixPattern.parseAffixString [0x27, 0xA4, 0xA4, 0xA4] AffixPattern.empty
        UErrorCode.U_ZERO_ERROR).1.hasCurrencyToken = true :=
  ⟨(parseAffixString_currency 3 (Or.inr (Or.inr rfl))).1, by decide,
    (parseAffixString_currency 3 (Or.inr (Or.inr rfl))).2.2.2.1⟩

/-! ## `parseUserAffixString`: quoted text -/

theorem nextUserTokenRun_spec (buffer : List Nat) (idx len max fuel i : Nat) :
    i ≤ nextUserTokenRun buffer idx len max fuel i ∧
    (nextUserTokenRun buffer idx len max fuel i = i ∨
      (nextUserTokenRun buffer idx len max fuel i ≤ max ∧
        idx + nextUserTokenRun buffer idx len max fuel i ≤ len)) ∧
    ∀ j, i ≤ j → j < nextUserTokenRun buffer idx len max fuel i →
      buffer.getD (idx + j) 0 = buffer.getD idx 0 := by
  induction fuel generalizing i with
  | zero =>
    refine ⟨Nat.le_refl _, Or.inl rfl, ?_⟩
    intro j h1 h2
    simp only [nextUserTokenRun] at h2
    omega
  | succ f ih =>
    unfold nextUserTokenRun
    split
    · rename_i h
      obtain ⟨h1, h2, h3⟩ := ih (i + 1)
      refine ⟨by omega, Or.inr ?_, ?_⟩
      · rcases h2 with h2 | h2
        · rw [h2]; omega
        · exact h2
      · intro j hj1 hj2
        by_cases hji : j = i
        · subst hji; exact h.2.2
        · exact h3 j (by omega) hj2
    · refine ⟨Nat.le_refl _, Or.inl rfl, ?_⟩
      intro j h1 h2
      omega

/-- The size of a user token that starts with a code unit other than the
apostrophe: at least 1, at most 3, more than 1 only for U+00A4, inside the
buffer, and all its code units are equal to the first. -/
theorem nextUserToken_plain (buffer : List Nat) (idx : Nat) (hidx : idx < buffer.length)
    (hc : buffer.getD idx 0 ≠ 0x27) :
    (nextUserToken buffer idx buffer.length).2 = buffer.getD idx 0 ∧
    1 ≤ (nextUserToken buffer idx buffer.length).1 ∧
    ((nextUserToken buffer idx buffer.length).1 = 1 ∨ buffer.getD idx 0 = 0xA4) ∧
    idx + (nextUserToken buffer idx buffer.length).1 ≤ buffer.length ∧
    ∀ j, j < (nextUserToken buffer idx buffer.length).1 →
      buffer.getD (idx + j) 0 = buffer.getD idx 0 := by
  unfold nextUserToken
  simp only [if_neg hc]
  by_cases h4 : buffer.getD idx 0 = 0xA4
  · simp only [if_pos h4]
    obtain ⟨h1, h2, h3⟩ := nextUserTokenRun_spec buffer idx buffer.length 3 3 1
    refine ⟨trivial, h1, Or.inr h4, ?_, ?_⟩
    · rcases h2 with h2 | h2
      · rw [h2]; omega
      · exact h2.2
    · intro j hj
      by_cases hj0 : j = 0
      · subst hj0; simp [h4]
      · rw [h3 j (by omega) hj, h4]
  · simp only [if_neg h4]
    obtain ⟨h1, h2, h3⟩ := nextUserTokenRun_spec buffer idx buffer.length 1 1 1
    have hr : nextUserTokenRun buffer idx buffer.length 1 1 1 = 1 := by
      rcases h2 with h2 | h2
      · exact h2
      · omega
    rw [hr]
    refine ⟨trivial, Nat.le_refl _, Or.inl rfl, by omega, ?_⟩
    intro j hj
    have : j = 0 := by omega
    subst this
    rfl

/-- An apostrophe that is not followed by another apostrophe is a token of
size 1. -/
theorem nextUserToken_quote (buffer : List Nat) (idx : Nat)
    (hc : buffer.getD idx 0 = 0x27)
    (hnext : idx + 1 = buffer.length ∨ buffer.getD (idx + 1) 0 ≠ 0x27) :
    nextUserToken buffer idx buffer.length = (1, 0x27) := by
  unfold nextUserToken
  simp only [hc, if_true]
  have : nextUserTokenRun buffer idx buffer.length 2 2 1 = 1 := by
    unfold nextUserTokenRun
    rw [if_neg]
    rintro ⟨h1, -, h3⟩
    rcases hnext with h | h
    · omega
    · rw [hc] at h3
      exact h h3
  rw [this]

theorem addLiteral_literalOnly (p : AffixPattern) (buf : List Nat)
    (hp : p.tokens = (if p.literals = [] then [] else lengthChain p.literals.length)) :
    (p.addLiteral buf 0 buf.length).tokens = lengthChain (p.literals.length + buf.length) ∧
      (p.addLiteral buf 0 buf.length).literals = p.literals ++ buf ∧
      (p.addLiteral buf 0 buf.length).hasCurrencyToken = p.hasCurrencyToken ∧
      (p.addLiteral buf 0 buf.length).hasPercentToken = p.hasPercentToken ∧
      (p.addLiteral buf 0 buf.length).hasPermillToken = p.hasPermillToken := by
  refine ⟨?_, addLiteral_literals p buf, rfl, rfl, rfl⟩
  rw [addLiteral_tokens]
  by_cases hl : p.literals = []
  · rw [if_pos hl] at hp
    simp [hp, hl, AffixPattern.findLiteralStart]
  · rw [if_neg hl] at hp
    have h := findLiteralStart_chain [] (lengthChain p.literals.length) 0
      (lengthChain_literal _)
    rw [List.nil_append, List.length_nil, Nat.zero_add, Nat.zero_mul, Nat.zero_add,
      chainValue_lengthChain] at h
    have h2 : AffixPattern.findLiteralStart [] 0 p.literals.length = (0, p.literals.length) := rfl
    rw [hp, h, h2]
    simp

theorem append_literalOnly (a : AffixPatternAppender) (x : Nat) (h : a.literalOnly) :
    (a.append x).literalOnly ∧ (a.append x).pending = a.pending ++ [x] := by
  unfold AffixPatternAppender.append
  by_cases hfull : a.fBuffer.length = 32
  · rw [if_pos hfull]
    obtain ⟨h1, h2, h3, h4, h5⟩ := addLiteral_literalOnly a.fDest a.fBuffer h.1
    have hne : a.fBuffer ≠ [] := by
      intro h0
      rw [h0] at hfull
      simp at hfull
    refine ⟨⟨?_, ?_, ?_, ?_⟩, ?_⟩
    · simp only [h1, h2]
      rw [if_neg (by simp [hne]), List.length_append]
    · rw [h3]; exact h.2.1
    · rw [h4]; exact h.2.2.1
    · rw [h5]; exact h.2.2.2
    · simp [AffixPatternAppender.pending, h2]
  · rw [if_neg hfull]
    exact ⟨h, by simp [AffixPatternAppender.pending]⟩

theorem appendN_literalOnly (a : AffixPatternAppender) (x n : Nat) (h : a.literalOnly) :
    (a.appendN x n).literalOnly ∧ (a.appendN x n).pending = a.pending ++ List.replicate n x := by
  induction n generalizing a with
  | zero => exact ⟨h, by simp [AffixPatternAppender.appendN]⟩
  | succ m ih =>
    obtain ⟨h1, h2⟩ := append_literalOnly a x h
    obtain ⟨h3, h4⟩ := ih (a.append x) h1
    refine ⟨h3, ?_⟩
    simp only [AffixPatternAppender.appendN]
    rw [h4, h2, List.replicate_succ]
    simp

theorem flush_literalOnly (a : AffixPatternAppender) (h : a.literalOnly) :
    a.flush.fDest.tokens = (if a.pending = [] then [] else lengthChain a.pending.length) ∧
      a.flush.fDest.literals = a.pending ∧
      a.flush.fDest.hasCurrencyToken = false ∧ a.flush.fDest.hasPercentToken = false ∧
      a.flush.fDest.hasPermillToken = false := by
  unfold AffixPatternAppender.flush
  by_cases hb : a.fBuffer.length ≠ 0
  · rw [if_pos hb]
    obtain ⟨h1, h2, h3, h4, h5⟩ := addLiteral_literalOnly a.fDest a.fBuffer h.1
    have hne : a.fBuffer ≠ [] := by
      intro h0
      rw [h0] at hb
      simp at hb
    refine ⟨?_, ?_, ?_, ?_, ?_⟩
    · simp only [h1, AffixPatternAppender.pending]
      rw [if_neg (by simp [hne]), List.length_append]
    · simp [AffixPatternAppender.pending, h2]
    · simp only [h3]; exact h.2.1
    · simp only [h4]; exact h.2.2.1
    · simp only [h5]; exact h.2.2.2
  · rw [if_neg hb]
    have hnil : a.fBuffer = [] := by
      have : a.fBuffer.length = 0 := by omega
      exact List.length_eq_zero.mp this
    refine ⟨?_, ?_, h.2.1, h.2.2.1, h.2.2.2⟩
    · simp only [AffixPatternAppender.pending, hnil, List.append_nil]
      exact h.1
    · simp only [AffixPatternAppender.pending, hnil, List.append_nil]

theorem drop_eq_replicate_append (s : List Nat) (c r k : Nat) (hk : k + r ≤ s.length)
    (h : ∀ j, j < r → s.getD (k + j) 0 = c) :
    s.drop k = List.replicate r c ++ s.drop (k + r) := by
  induction r generalizing k with
  | zero => simp
  | succ m ih =>
    have hlt : k < s.length := by omega
    have h0 := h 0 (by omega)
    rw [Nat.add_zero, List.getD_eq_getElem?_getD, List.getElem?_eq_getElem hlt] at h0
    simp only [Option.getD_some] at h0
    rw [List.drop_eq_getElem_cons hlt, h0, List.replicate_succ, List.cons_append,
      ih (k + 1) (by omega) (fun j hj => by
        have := h (j + 1) (by omega)
        rw [← this]
        congr 1
        omega)]
    rw [show k + 1 + m = k + (m + 1) by omega]

theorem quoted_getD_inner (s : List Nat) (m : Nat) (hm : m < s.length) :
    (0x27 :: (s ++ [0x27])).getD (m + 1) 0 = s.getD m 0 := by
  simp [List.getD_eq_getElem?_getD, List.getElem?_append_left hm]

theorem quoted_getD_close (s : List Nat) :
    (0x27 :: (s ++ [0x27])).getD (s.length + 1) 0 = 0x27 := by
  simp [List.getD_eq_getElem?_getD]

theorem getD_mem_of_lt (s : List Nat) (m : Nat) (hm : m < s.length) : s.getD m 0 ∈ s := by
  rw [List.getD_eq_getElem?_getD, List.getElem?_eq_getElem hm]
  exact List.getElem_mem hm

/-- Inside a quoted region without apostrophes the loop of
`parseUserAffixString` hands every remaining code unit to the appender and
stops after the closing apostrophe. -/
theorem parseUser_quoted_loop (s : List Nat) (hq : ∀ c ∈ s, c ≠ 0x27)
    (fuel k : Nat) (a : AffixPatternAppender)
    (hk : k ≤ s.length) (hfuel : s.length - k + 1 ≤ fuel) (ha : a.literalOnly) :
    (parseUserAffixStringLoop (0x27 :: (s ++ [0x27])) (0x27 :: (s ++ [0x27])).length
        fuel (k + 1) 1 a).literalOnly ∧
    (parseUserAffixStringLoop (0x27 :: (s ++ [0x27])) (0x27 :: (s ++ [0x27])).length
        fuel (k + 1) 1 a).pending = a.pending ++ s.drop k := by
  induction fuel generalizing k a with
  | zero => omega
  | succ f ih =>
    have hlen : (0x27 :: (s ++ [0x27])).length = s.length + 2 := by simp
    unfold parseUserAffixStringLoop
    rw [if_pos (by rw [hlen]; omega)]
    by_cases hks : k = s.length
    · -- the closing apostrophe
      subst hks
      have hnt := nextUserToken_quote (0x27 :: (s ++ [0x27])) (s.length + 1)
        (quoted_getD_close s) (Or.inl (by rw [hlen]))
      simp only [hnt, and_self, if_true]
      have hstop : parseUserAffixStringLoop (0x27 :: (s ++ [0x27]))
          (0x27 :: (s ++ [0x27])).length f (s.length + 1 + 1) (1 - 1) a = a := by
        cases f with
        | zero => rfl
        | succ g =>
          unfold parseUserAffixStringLoop
          rw [if_neg (by rw [hlen]; omega)]
      rw [hstop]
      exact ⟨ha, by simp⟩
    · -- a code unit of the quoted text
      have hlt : k < s.length := by omega
      have hc : (0x27 :: (s ++ [0x27])).getD (k + 1) 0 ≠ 0x27 := by
        rw [quoted_getD_inner s k hlt]
        exact hq _ (getD_mem_of_lt s k hlt)
      obtain ⟨htok, h1, h2, h3, h4⟩ := nextUserToken_plain (0x27 :: (s ++ [0x27])) (k + 1)
        (by rw [hlen]; omega) hc
      generalize (nextUserToken (0x27 :: (s ++ [0x27])) (k + 1)
        (0x27 :: (s ++ [0x27])).length).1 = r at h1 h2 h3 h4 ⊢
      rw [htok]
      generalize hcdef : (0x27 :: (s ++ [0x27])).getD (k + 1) 0 = c at hc h2 h4 ⊢
      have hkr : k + r ≤ s.length := by
        by_contra hcon
        have hj := h4 (s.length - k) (by omega)
        rw [show k + 1 + (s.length - k) = s.length + 1 by omega, quoted_getD_close] at hj
        exact hc hj.symm
      have hs : ∀ j, j < r → s.getD (k + j) 0 = c := by
        intro j hj
        rw [← quoted_getD_inner s (k + j) (by omega), ← h4 j hj]
        congr 1
        omega
      have hstep : ∀ a2 : AffixPatternAppender, a2 = a.appendN c r →
          (parseUserAffixStringLoop (0x27 :: (s ++ [0x27])) (0x27 :: (s ++ [0x27])).length
            f (k + 1 + r) 1 a2).literalOnly ∧
          (parseUserAffixStringLoop (0x27 :: (s ++ [0x27])) (0x27 :: (s ++ [0x27])).length
            f (k + 1 + r) 1 a2).pending = a.pending ++ s.drop k := by
        intro a2 ha2
        obtain ⟨hl2, hp2⟩ := appendN_literalOnly a c r ha
        rw [← ha2] at hl2 hp2
        have := ih (k + r) a2 hkr (by omega) hl2
        rw [show k + r + 1 = k + 1 + r by omega] at this
        refine ⟨this.1, ?_⟩
        rw [this.2, hp2, drop_eq_replicate_append s c r k hkr hs]
        simp
      have hc1 : ¬ (c = 0x27 ∧ r = 1) := fun h => hc h.1
      simp only [hc1, if_false, if_neg hc, show ¬ ((1 : Nat) = 0) by decide]
      by_cases h164 : c = 0xA4
      · rw [if_pos h164]
        exact hstep _ (by rw [h164])
      · rw [if_neg h164]
        have hr1 : r = 1 := by
          rcases h2 with h2 | h2
          · exact h2
          · exact absurd h2 h164
        subst hr1
        exact hstep _ rfl

/-- C6 (quoted text is literal in the user-facing syntax).  For every
non-empty string `s` without an apostrophe (short enough for the quoted string
to be a `UnicodeString`), `parseUserAffixString` applied to apostrophe + `s` +
apostrophe on the empty pattern leaves the status unchanged and a pattern that
replays as exactly one token, a literal whose text is `s` (after it `nextToken`
returns `FALSE`), and none of `hasCurrencyToken`, `hasPercentToken`,
`hasPermillToken` is set, whatever code units `s` contains. -/
theorem parseUserAffixString_quoted (s : List Nat) (hne : s ≠ [])
    (hq : ∀ c ∈ s, c ≠ 0x27) (hlen : s.length + 2 < 2 ^ 31) :
    (AffixPattern.parseUserAffixString (0x27 :: (s ++ [0x27])) AffixPattern.empty
        UErrorCode.U_ZERO_ERROR).2 = UErrorCode.U_ZERO_ERROR ∧
    List.Forall₂ LogicalToken.agrees [LogicalToken.literal s]
      (AffixPattern.parseUserAffixString (0x27 :: (s ++ [0x27])) AffixPattern.empty
        UErrorCode.U_ZERO_ERROR).1.replayAll.1 ∧
    (AffixPattern.parseUserAffixString (0x27 :: (s ++ [0x27])) AffixPattern.empty
        UErrorCode.U_ZERO_ERROR).1.replayAll.2.nextToken.1 = false ∧
    (AffixPattern.parseUserAffixString (0x27 :: (s ++ [0x27])) AffixPattern.empty
        UErrorCode.U_ZERO_ERROR).1.hasCurrencyToken = false ∧
    (AffixPattern.parseUserAffixString (0x27 :: (s ++ [0x27])) AffixPattern.empty
        UErrorCode.U_ZERO_ERROR).1.hasPercentToken = false ∧
    (AffixPattern.parseUserAffixString (0x27 :: (s ++ [0x27])) AffixPattern.empty
        UErrorCode.U_ZERO_ERROR).1.hasPermillToken = false := by
  have hlen2 : (0x27 :: (s ++ [0x27])).length = (s.length + 1) + 1 := by simp
  have ha0 : AffixPatternAppender.literalOnly { fDest := AffixPattern.empty, fBuffer := [] } := by
    simp [AffixPatternAppender.literalOnly, AffixPattern.empty]
  -- the opening apostrophe
  have hopen := nextUserToken_quote (0x27 :: (s ++ [0x27])) 0 rfl (Or.inr (by
    obtain ⟨x, xs, rfl⟩ := List.exists_cons_of_ne_nil hne
    simpa using hq x (by simp)))
  have hloop := parseUser_quoted_loop s hq (s.length + 1) 0
    { fDest := AffixPattern.empty, fBuffer := [] } (Nat.zero_le _) (Nat.le_refl _) ha0
  have hfirst : ∀ F, F = s.length + 1 →
      parseUserAffixStringLoop (0x27 :: (s ++ [0x27])) (0x27 :: (s ++ [0x27])).length
        (F + 1) 0 0 { fDest := AffixPattern.empty, fBuffer := [] } =
      parseUserAffixStringLoop (0x27 :: (s ++ [0x27])) (0x27 :: (s ++ [0x27])).length
        F (0 + 1) 1 { fDest := AffixPattern.empty, fBuffer := [] } := by
    intro F _
    conv_lhs => unfold parseUserAffixStringLoop
    rw [if_pos (by simp), hopen]
    simp
  have hfuel : parseUserAffixStringLoop (0x27 :: (s ++ [0x27])) (0x27 :: (s ++ [0x27])).length
      (0x27 :: (s ++ [0x27])).length 0 0 { fDest := AffixPattern.empty, fBuffer := [] } =
      parseUserAffixStringLoop (0x27 :: (s ++ [0x27])) (0x27 :: (s ++ [0x27])).length
        (s.length + 1 + 1) 0 0 { fDest := AffixPattern.empty, fBuffer := [] } :=
    congrArg (fun F => parseUserAffixStringLoop (0x27 :: (s ++ [0x27]))
      (0x27 :: (s ++ [0x27])).length F 0 0 { fDest := AffixPattern.empty, fBuffer := [] }) hlen2
  obtain ⟨hlo, hpend⟩ := hloop
  rw [← hfirst _ rfl, ← hfuel] at hlo hpend
  have hres : AffixPattern.parseUserAffixString (0x27 :: (s ++ [0x27])) AffixPattern.empty
      UErrorCode.U_ZERO_ERROR =
      ((parseUserAffixStringLoop (0x27 :: (s ++ [0x27])) (0x27 :: (s ++ [0x27])).length
        (0x27 :: (s ++ [0x27])).length 0 0
        { fDest := AffixPattern.empty, fBuffer := [] }).flush.fDest, UErrorCode.U_ZERO_ERROR) := by
    simp [AffixPattern.parseUserAffixString, U_FAILURE]
  rw [hres]
  have hp0 : AffixPatternAppender.pending { fDest := AffixPattern.empty, fBuffer := [] } = [] := rfl
  rw [hp0, List.nil_append, List.drop_zero] at hpend
  generalize parseUserAffixStringLoop (0x27 :: (s ++ [0x27])) (0x27 :: (s ++ [0x27])).length
    (0x27 :: (s ++ [0x27])).length 0 0 { fDest := AffixPattern.empty, fBuffer := [] } = X
    at hlo hpend ⊢
  obtain ⟨h1, h2, h3, h4, h5⟩ := flush_literalOnly X hlo
  rw [hpend] at h1 h2
  rw [if_neg hne] at h1
  have hrt := replayAll_of_stream X.flush.fDest [LogicalToken.literal s]
    (by simp [LogicalToken.fits])
    (by rw [h1]; simp [LogicalToken.cells]) (by rw [h2]; simp [LogicalToken.text])
  exact ⟨rfl, hrt.1, hrt.2, h3, h4, h5⟩

/-- Witness of C6: the quoted `%` is the literal `%`, not a percent token. -/
theorem parseUserAffixString_quoted_witness :
    (AffixPattern.parseUserAffixString [0x27, 0x25, 0x27] AffixPattern.empty
        UErrorCode.U_ZERO_ERROR).1.tokens = [PACK_TOKEN_AND_LENGTH kLiteral 1] ∧
    (AffixPattern.parseUserAffixString [0x27, 0x25, 0x27] AffixPattern.empty
        UErrorCode.U_ZERO_ERROR).1.literals = [0x25] ∧
    List.Forall₂ LogicalToken.agrees [LogicalToken.literal [0x25]]
      (AffixPattern.parseUserAffixString [0x27, 0x25, 0x27] AffixPattern.empty
        UErrorCode.U_ZERO_ERROR).1.replayAll.1 ∧
    (AffixPattern.parseUserAffixString [0x27, 0x25, 0x27] AffixPattern.empty
        UErrorCode.U_ZERO_ERROR).1.hasPercentToken = false :=
  ⟨by decide, by decide,
    (parseUserAffixString_quoted [0x25] (by decide) (by decide) (by decide)).2.1,
    (parseUserAffixString_quoted [0x25] (by decide) (by decide) (by decide)).2.2.2.2.1⟩

/-! ## The renderer -/

theorem getByCategory_append (p : PluralAffix) (value : List Nat) (fieldId : Nat)
    (c : PluralCategory) :
    (p.append value fieldId).getByCategory c = (p.getByCategory c).append value fieldId := by
  unfold PluralAffix.getByCategory PluralAffix.append
  by_cases hc : c = PluralCategory.other
  · simp [hc]
  · simp only [if_neg hc]
    cases p.variants c <;> rfl

theorem getByCategory_appendPlural (p rhs : PluralAffix) (fieldId : Nat) (c : PluralCategory) :
    (p.appendPlural rhs fieldId).getByCategory c =
      (p.getByCategory c).append (rhs.getByCategory c).fAffix fieldId := by
  unfold PluralAffix.getByCategory PluralAffix.appendPlural
  by_cases hc : c = PluralCategory.other
  · simp [hc]
  · simp only [if_neg hc]
    cases p.variants c <;> cases rhs.variants c <;> rfl

theorem parseUserAffixString_percent_eq :
    AffixPattern.parseUserAffixString [0x25] AffixPattern.empty UErrorCode.U_ZERO_ERROR =
      (AffixPattern.build [LogicalToken.symbol kPercent 1], UErrorCode.U_ZERO_ERROR) := by
  decide

/-- C7 (end-to-end percent).  `parseUserAffixString` applied to the
one-character pattern `%` on the empty pattern gives a pattern that replays as
exactly one token, a percent token of length 1 (after it `nextToken` returns
`FALSE`), with `hasPercentToken` set; and for every parser, every
`CurrencyAffixInfo`, every `appendTo` and every plural category,
`AffixPatternParser::parse` of that pattern returns `appendTo` with exactly
the parser's `fPercent` appended, tagged `UNUM_PERCENT_FIELD`. -/
theorem percent_endToEnd (self : AffixPatternParser) (info : CurrencyAffixInfo)
    (appendTo : PluralAffix) (c : PluralCategory) :
    List.Forall₂ LogicalToken.agrees [LogicalToken.symbol kPercent 1]
      (AffixPattern.parseUserAffixString [0x25] AffixPattern.empty
        UErrorCode.U_ZERO_ERROR).1.replayAll.1 ∧
    (AffixPattern.parseUserAffixString [0x25] AffixPattern.empty
        UErrorCode.U_ZERO_ERROR).1.replayAll.2.nextToken.1 = false ∧
    (AffixPattern.parseUserAffixString [0x25] AffixPattern.empty
        UErrorCode.U_ZERO_ERROR).1.hasPercentToken = true ∧
    ∃ r, self.parse (AffixPattern.parseUserAffixString [0x25] AffixPattern.empty
          UErrorCode.U_ZERO_ERROR).1 info appendTo UErrorCode.U_ZERO_ERROR = some r ∧
      r.getByCategory c = (appendTo.getByCategory c).append self.fPercent UNUM_PERCENT_FIELD := by
  rw [parseUserAffixString_percent_eq]
  have hrt := build_replayAll [LogicalToken.symbol kPercent 1]
    (fun tok h => tok.fits_of_wellFormed (by
      simp only [List.mem_singleton] at h
      subst h
      decide)) rfl
  refine ⟨hrt.1, hrt.2, by decide, appendTo.append self.fPercent UNUM_PERCENT_FIELD, ?_,
    getByCategory_append _ _ _ _⟩
  rfl

theorem parseLoop_spans (self : AffixPatternParser) (info : CurrencyAffixInfo) (fuel : Nat)
    (it : AffixPatternIterator) (appendTo : PluralAffix)
    (hk : ∀ x ∈ (AffixPatternIterator.replay fuel it).1, knownToken x = true) :
    ∃ r, AffixPatternParser.parseLoop self info fuel it appendTo = some r ∧
      ∀ c, r.getByCategory c =
        (AffixPatternIterator.replay fuel it).1.foldl
          (fun acc x => acc.append (spanText self info c x) (spanField x))
          (appendTo.getByCategory c) := by
  induction fuel generalizing it appendTo with
  | zero => exact ⟨appendTo, rfl, fun c => rfl⟩
  | succ f ih =>
    unfold AffixPatternParser.parseLoop
    by_cases hnt : it.nextToken.1 = true
    · have hrep := replay_succ_true f it it.nextToken.2 (by rw [← hnt])
      rw [hrep] at hk ⊢
      have hknown := hk it.nextToken.2 (by simp)
      have hrest : ∀ x ∈ (AffixPatternIterator.replay f it.nextToken.2).1, knownToken x = true :=
        fun x hx => hk x (by simp [hx])
      simp only [if_pos hnt, List.foldl_cons]
      simp only [knownToken, Bool.or_eq_true, Bool.and_eq_true, beq_iff_eq] at hknown
      by_cases h1 : it.nextToken.2.getTokenType = kPercent
      · obtain ⟨r, hr, hc⟩ := ih it.nextToken.2 (appendTo.append self.fPercent UNUM_PERCENT_FIELD)
          hrest
        refine ⟨r, by rw [if_pos h1]; exact hr, fun c => ?_⟩
        rw [hc c, getByCategory_append]
        simp only [spanText, spanField, if_pos h1]
      · by_cases h2 : it.nextToken.2.getTokenType = kPerMill
        · obtain ⟨r, hr, hc⟩ := ih it.nextToken.2
            (appendTo.append self.fPermill UNUM_PERMILL_FIELD) hrest
          refine ⟨r, by rw [if_neg h1, if_pos h2]; exact hr, fun c => ?_⟩
          rw [hc c, getByCategory_append]
          simp only [spanText, spanField, if_neg h1, if_pos h2]
        · by_cases h3 : it.nextToken.2.getTokenType = kNegative
          · obtain ⟨r, hr, hc⟩ := ih it.nextToken.2
              (appendTo.append self.fNegative UNUM_SIGN_FIELD) hrest
            refine ⟨r, by rw [if_neg h1, if_neg h2, if_pos h3]; exact hr, fun c => ?_⟩
            rw [hc c, getByCategory_append]
            simp only [spanText, spanField, if_neg h1, if_neg h2, if_pos h3]
          · by_cases h4 : it.nextToken.2.getTokenType = kCurrency
            · have hlen : it.nextToken.2.getTokenLength = 1 ∨ it.nextToken.2.getTokenLength = 2 ∨
                  it.nextToken.2.getTokenLength = 3 := by
                rcases hknown with hknown | hknown
                · rw [h4] at hknown
                  simp [kCurrency, kPercent, kPerMill, kNegative, kLiteral] at hknown
                · rcases hknown.2 with (h | h) | h
                  · exact Or.inl h
                  · exact Or.inr (Or.inl h)
                  · exact Or.inr (Or.inr h)
              rw [if_neg h1, if_neg h2, if_neg h3, if_pos h4]
              rcases hlen with hl | hl | hl
              · obtain ⟨r, hr, hc⟩ := ih it.nextToken.2
                  (appendTo.append info.fSymbol UNUM_CURRENCY_FIELD) hrest
                refine ⟨r, by rw [if_pos hl]; exact hr, fun c => ?_⟩
                rw [hc c, getByCategory_append]
                simp only [spanText, spanField, if_neg h1, if_neg h2, if_neg h3, if_pos h4,
                  if_pos hl]
              · have hn1 : ¬ it.nextToken.2.getTokenLength = 1 := by omega
                obtain ⟨r, hr, hc⟩ := ih it.nextToken.2
                  (appendTo.append info.fISO UNUM_CURRENCY_FIELD) hrest
                refine ⟨r, by rw [if_neg hn1, if_pos hl]; exact hr, fun c => ?_⟩
                rw [hc c, getByCategory_append]
                simp only [spanText, spanField, if_neg h1, if_neg h2, if_neg h3, if_pos h4,
                  if_neg hn1, if_pos hl]
              · have hn1 : ¬ it.nextToken.2.getTokenLength = 1 := by omega
                have hn2 : ¬ it.nextToken.2.getTokenLength = 2 := by omega
                obtain ⟨r, hr, hc⟩ := ih it.nextToken.2
                  (appendTo.appendPlural info.fLong UNUM_CURRENCY_FIELD) hrest
                refine ⟨r, by rw [if_neg hn1, if_neg hn2, if_pos hl]; exact hr, fun c => ?_⟩
                rw [hc c, getByCategory_appendPlural]
                simp only [spanText, spanField, if_neg h1, if_neg h2, if_neg h3, if_pos h4,
                  if_neg hn1, if_neg hn2]
            · have h5 : it.nextToken.2.getTokenType = kLiteral := by
                rcases hknown with (((h | h) | h) | h) | h
                · exact absurd h h1
                · exact absurd h h2
                · exact absurd h h3
                · exact h
                · exact absurd h.1 h4
              obtain ⟨r, hr, hc⟩ := ih it.nextToken.2
                (appendTo.append it.nextToken.2.getLiteral UNUM_FIELD_COUNT) hrest
              refine ⟨r, by rw [if_neg h1, if_neg h2, if_neg h3, if_neg h4, if_pos h5]; exact hr,
                fun c => ?_⟩
              rw [hc c, getByCategory_append]
              simp only [spanText, spanField, if_neg h1, if_neg h2, if_neg h3, if_neg h4]
    · have hf : it.nextToken.1 = false := by simpa using hnt
      have hrep := replay_succ_false f it it.nextToken.2 (by rw [← hf])
      rw [hrep]
      simp only [hf, Bool.false_eq_true, if_false, List.foldl_nil]
      exact ⟨appendTo, rfl, fun c => rfl⟩

theorem setLongLoop_fISO (data : CurrencyData) (locale currency : List Nat)
    (keywords : List PluralCategory) (self : CurrencyAffixInfo) (status : UErrorCode) :
    (CurrencyAffixInfo.setLongLoop data locale currency keywords self status).1.fISO
      = self.fISO := by
  induction keywords generalizing self status with
  | nil => rfl
  | cons k rest ih =>
    unfold CurrencyAffixInfo.setLongLoop
    split
    · rfl
    · rw [ih]

/-- C8 (renderer currency selection).  For every pattern whose decoded tokens
are of the five kinds with currency lengths 1..3, `AffixPatternParser::parse`
(entered with a success status) returns `appendTo` with one span appended per
decoded token, in stream order; read for a plural category `c`, the span of a
currency token is `fSymbol` for length 1, `fISO` for length 2 (the same for
every category) and the long form of `c` for length 3, tagged
`UNUM_CURRENCY_FIELD`; percent, permille and negative tokens give `fPercent`,
`fPermill`, `fNegative` tagged percent, permille, sign; a literal token gives
its literal text.  And after `CurrencyAffixInfo::set` with a currency code
whose symbol lookup succeeds, `fISO` is that code. -/
theorem parse_spans (self : AffixPatternParser) (p : AffixPattern) (info : CurrencyAffixInfo)
    (appendTo : PluralAffix) (status : UErrorCode)
    (data : CurrencyData) (locale currency : List Nat) (info0 : CurrencyAffixInfo)
    (hs : U_FAILURE status = false)
    (hk : ∀ x ∈ p.replayAll.1, knownToken x = true)
    (hname : U_FAILURE (data.ucurr_getName currency locale status).2 = false) :
    (∃ r, self.parse p info appendTo status = some r ∧
      ∀ c, r.getByCategory c =
        p.replayAll.1.foldl (fun acc x => acc.append (spanText self info c x) (spanField x))
          (appendTo.getByCategory c)) ∧
    (info0.set data locale (some currency) status).1.fISO = currency := by
  refine ⟨?_, ?_⟩
  · unfold AffixPatternParser.parse
    rw [hs]
    exact parseLoop_spans self info _ _ appendTo hk
  · unfold CurrencyAffixInfo.set
    simp only [hs, hname, Bool.false_eq_true, if_false]
    split
    · rfl
    · rw [setLongLoop_fISO]

/-- Witness of C8: the pattern of two U+00A4 with the currency `USD` renders,
for every plural category, to `USD` tagged as a currency field. -/
theorem parse_spans_witness :
    U_FAILURE UErrorCode.U_ZERO_ERROR = false ∧
    (∀ x ∈ isoPattern.replayAll.1, knownToken x = true) ∧
    sampleCurrencyAffixInfo.fISO = sampleCurrency ∧
    ∀ c, ∃ r, defaultParser.parse isoPattern sampleCurrencyAffixInfo emptyPluralAffix
        UErrorCode.U_ZERO_ERROR = some r ∧
      r.getByCategory c =
        { fAffix := sampleCurrency,
          fAnnotations := [UNUM_CURRENCY_FIELD, UNUM_CURRENCY_FIELD, UNUM_CURRENCY_FIELD] } := by
  have h := parse_spans defaultParser isoPattern sampleCurrencyAffixInfo emptyPluralAffix
    UErrorCode.U_ZERO_ERROR sampleCurrencyData sampleLocale sampleCurrency
    defaultCurrencyAffixInfo rfl (by decide) rfl
  refine ⟨rfl, by decide, h.2, fun c => ?_⟩
  obtain ⟨r, hr, hc⟩ := h.1
  refine ⟨r, hr, ?_⟩
  rw [hc c]
  cases c <;> rfl

/-! ## The recorded character count -/

set_option maxRecDepth 100000 in
/-- C9, as the code behaves.  When a surrogate pair is split between two
`addLiteral` calls, each half is counted as a code point of its own while the
merged literal holds one code point: after `addLiteral(D83D)`,
`addLiteral(DE00)` the recorded `char32Count` is 2 and the decoded count is 1.
`parseUserAffixString` makes such calls when a pair straddles the 32-unit
buffer of its appender: for 31 letters followed by U+1F600 the recorded count
is 33 and the decoded count is 32. -/
theorem char32Count_split_surrogate :
    (runOps [Op.addLiteral [0xD83D], Op.addLiteral [0xDE00]]).char32Count = 2 ∧
    decodedCharCount (runOps [Op.addLiteral [0xD83D], Op.addLiteral [0xDE00]]) = 1 ∧
    (AffixPattern.parseUserAffixString surrogateAtBoundary AffixPattern.empty
      UErrorCode.U_ZERO_ERROR).1.char32Count = 33 ∧
    decodedCharCount (AffixPattern.parseUserAffixString surrogateAtBoundary AffixPattern.empty
      UErrorCode.U_ZERO_ERROR).1 = 32 := by
  refine ⟨by decide, by decide, by decide, by decide⟩

/-! ## The shape of every built pattern -/

theorem cells_end_not_literal (ts : List LogicalToken) (x : LogicalToken)
    (hx : x.isLiteral = true) (hf : ∀ tok ∈ ts, tok.fits)
    (hadj : List.Chain' (fun a b => ¬ (a.isLiteral = true ∧ b.isLiteral = true)) (ts ++ [x])) :
    ts.flatMap LogicalToken.cells = [] ∨
      ∃ pre c, ts.flatMap LogicalToken.cells = pre ++ [c] ∧ UNPACK_TOKEN c ≠ kLiteral := by
  rw [List.chain'_append] at hadj
  obtain ⟨-, -, h3⟩ := hadj
  rcases List.eq_nil_or_concat ts with hts | ⟨L, b, hts⟩
  · left; rw [hts]; rfl
  · right
    rw [List.concat_eq_append] at hts
    subst hts
    have hb := h3 b (by simp) x (by simp)
    cases b with
    | literal s2 => exact absurd ⟨rfl, hx⟩ hb
    | symbol t count =>
      have hfb := hf (LogicalToken.symbol t count) (by simp)
      refine ⟨L.flatMap LogicalToken.cells, PACK_TOKEN_AND_LENGTH t count, ?_, ?_⟩
      · rw [List.flatMap_append]
        simp [LogicalToken.cells]
      · rw [UNPACK_TOKEN_PACK _ _ hfb.2.1]
        unfold kLiteral
        exact Nat.ne_of_gt hfb.1

theorem good_empty : Good AffixPattern.empty :=
  ⟨[], ⟨by simp, List.chain'_nil, rfl, rfl⟩, by simp [FlagsOf, AffixPattern.empty]⟩

theorem good_remove (p : AffixPattern) : Good p.remove := good_empty

theorem good_add (p : AffixPattern) (t count : Nat) (ht0 : 0 < t) (ht : t < 128)
    (hc : count < 256) (hp : Good p) : Good (p.add t count) := by
  obtain ⟨toks, ⟨hf, hadj, htok, hlit⟩, hcur, hper, hmil⟩ := hp
  refine ⟨toks ++ [LogicalToken.symbol t count], ⟨?_, ?_, ?_, ?_⟩, ?_, ?_, ?_⟩
  · intro tok htk
    rcases List.mem_append.mp htk with h | h
    · exact hf tok h
    · simp only [List.mem_singleton] at h
      subst h
      exact ⟨ht0, ht, hc⟩
  · rw [List.chain'_append]
    refine ⟨hadj, List.chain'_singleton _, ?_⟩
    intro x _ y hy
    simp only [List.head?_cons, Option.mem_def, Option.some.injEq] at hy
    subst hy
    simp [LogicalToken.isLiteral]
  · simp [AffixPattern.add, htok, List.flatMap_append, LogicalToken.cells]
  · simp [AffixPattern.add, hlit, List.flatMap_append, LogicalToken.text]
  · simp only [AffixPattern.add, List.mem_append, List.mem_singleton, LogicalToken.symbol.injEq]
    by_cases h : t = kCurrency
    · simp [h]
    · simp only [if_neg h, hcur]
      constructor
      · rintro ⟨c, hc⟩; exact ⟨c, Or.inl hc⟩
      · rintro ⟨c, hc | hc⟩
        · exact ⟨c, hc⟩
        · exact absurd hc.1.symm h
  · simp only [AffixPattern.add, List.mem_append, List.mem_singleton, LogicalToken.symbol.injEq]
    by_cases h : t = kPercent
    · simp [h]
    · simp only [if_neg h, hper]
      constructor
      · rintro ⟨c, hc⟩; exact ⟨c, Or.inl hc⟩
      · rintro ⟨c, hc | hc⟩
        · exact ⟨c, hc⟩
        · exact absurd hc.1.symm h
  · simp only [AffixPattern.add, List.mem_append, List.mem_singleton, LogicalToken.symbol.injEq]
    by_cases h : t = kPerMill
    · simp [h]
    · simp only [if_neg h, hmil]
      constructor
      · rintro ⟨c, hc⟩; exact ⟨c, Or.inl hc⟩
      · rintro ⟨c, hc | hc⟩
        · exact ⟨c, hc⟩
        · exact absurd hc.1.symm h

theorem good_addLiteral (p : AffixPattern) (s : List Nat) (hp : Good p) :
    Good (p.addLiteral s 0 s.length) := by
  obtain ⟨toks, ⟨hf, hadj, htok, hlit⟩, hcur, hper, hmil⟩ := hp
  have hflags : ∀ q : AffixPattern, q = p.addLiteral s 0 s.length →
      q.hasCurrencyToken = p.hasCurrencyToken ∧ q.hasPercentToken = p.hasPercentToken ∧
        q.hasPermillToken = p.hasPermillToken := by
    intro q hq
    subst hq
    exact ⟨rfl, rfl, rfl⟩
  obtain ⟨hq1, hq2, hq3⟩ := hflags _ rfl
  rcases List.eq_nil_or_concat toks with hts | ⟨ts, last, hts⟩
  · -- nothing before
    subst hts
    refine ⟨[LogicalToken.literal s], ⟨by simp [LogicalToken.fits], List.chain'_singleton _, ?_, ?_⟩,
      ?_, ?_, ?_⟩
    · rw [addLiteral_after_symbol p s (Or.inl (by rw [htok]; rfl)), htok]
      simp [LogicalToken.cells]
    · rw [addLiteral_literals, hlit]
      simp [LogicalToken.text]
    · rw [hq1, hcur]; simp
    · rw [hq2, hper]; simp
    · rw [hq3, hmil]; simp
  · rw [List.concat_eq_append] at hts
    subst hts
    cases last with
    | symbol t count =>
      have hft := hf (LogicalToken.symbol t count) (by simp)
      refine ⟨ts ++ [LogicalToken.symbol t count] ++ [LogicalToken.literal s], ⟨?_, ?_, ?_, ?_⟩,
        ?_, ?_, ?_⟩
      · intro tok htk
        rcases List.mem_append.mp htk with h | h
        · exact hf tok h
        · simp only [List.mem_singleton] at h
          subst h
          trivial
      · rw [List.chain'_append]
        refine ⟨hadj, List.chain'_singleton _, ?_⟩
        intro x hx y _
        have hl : (ts ++ [LogicalToken.symbol t count]).getLast?
            = some (LogicalToken.symbol t count) := by simp
        rw [Option.mem_def, hl] at hx
        injection hx with hx
        subst hx
        simp [LogicalToken.isLiteral]
      · rw [addLiteral_after_symbol p s (Or.inr ⟨ts.flatMap LogicalToken.cells,
          PACK_TOKEN_AND_LENGTH t count, by rw [htok]; simp [List.flatMap_append, LogicalToken.cells],
          by rw [UNPACK_TOKEN_PACK _ _ hft.2.1]; unfold kLiteral; exact Nat.ne_of_gt hft.1⟩), htok]
        simp [List.flatMap_append, LogicalToken.cells]
      · rw [addLiteral_literals, hlit]
        simp [List.flatMap_append, LogicalToken.text]
      · rw [hq1, hcur]; simp
      · rw [hq2, hper]; simp
      · rw [hq3, hmil]; simp
    | literal s0 =>
      have hend := cells_end_not_literal ts (LogicalToken.literal s0) rfl
        (fun tok h => hf tok (by simp [h])) hadj
      have htok2 : p.tokens = ts.flatMap LogicalToken.cells ++ lengthChain s0.length := by
        rw [htok]; simp [List.flatMap_append, LogicalToken.cells]
      have hfind : AffixPattern.findLiteralStart p.tokens p.tokens.length 0 =
          ((ts.flatMap LogicalToken.cells).length, s0.length) := by
        rw [htok2, List.length_append, findLiteralStart_chain _ _ _ (lengthChain_literal _),
          chainValue_lengthChain, Nat.zero_mul, Nat.zero_add]
        apply findLiteralStart_fixed
        rcases hend with h | ⟨pre, c, h, hc⟩
        · left; rw [h]; rfl
        · right
          rw [h, List.length_append, List.length_singleton, Nat.add_sub_cancel,
            getD_append_length]
          exact hc
      refine ⟨ts ++ [LogicalToken.literal (s0 ++ s)], ⟨?_, ?_, ?_, ?_⟩, ?_, ?_, ?_⟩
      · intro tok htk
        rcases List.mem_append.mp htk with h | h
        · exact hf tok (by simp [h])
        · simp only [List.mem_singleton] at h
          subst h
          trivial
      · rw [List.chain'_append] at hadj ⊢
        refine ⟨hadj.1, List.chain'_singleton _, ?_⟩
        intro x hx y hy
        have := hadj.2.2 x hx (LogicalToken.literal s0) (by simp)
        simp only [List.head?_cons, Option.mem_def, Option.some.injEq] at hy
        subst hy
        simpa [LogicalToken.isLiteral] using this
      · rw [addLiteral_tokens, hfind, htok2]
        simp [List.flatMap_append, LogicalToken.cells]
      · rw [addLiteral_literals, hlit]
        simp [List.flatMap_append, LogicalToken.text]
      · rw [hq1, hcur]; simp
      · rw [hq2, hper]; simp
      · rw [hq3, hmil]; simp

theorem agrees_type_iff (toks : List LogicalToken) (states : List AffixPatternIterator)
    (h : List.Forall₂ LogicalToken.agrees toks states) (k : Nat) (hk : k ≠ kLiteral) :
    (∃ it ∈ states, it.getTokenType = k) ↔ ∃ c, LogicalToken.symbol k c ∈ toks := by
  induction h with
  | nil => simp
  | @cons tok it toks2 states2 hhead _ ih =>
    constructor
    · rintro ⟨x, hx, hxk⟩
      rcases List.mem_cons.mp hx with hx | hx
      · subst hx
        cases tok with
        | literal s =>
          exact absurd (hhead.1.symm.trans hxk).symm hk
        | symbol t count =>
          have : t = k := hhead.1.symm.trans hxk
          subst this
          exact ⟨count, by simp⟩
      · obtain ⟨c, hc⟩ := ih.mp ⟨x, hx, hxk⟩
        exact ⟨c, by simp [hc]⟩
    · rintro ⟨c, hc⟩
      rcases List.mem_cons.mp hc with hc | hc
      · subst hc
        exact ⟨it, by simp, hhead.1⟩
      · obtain ⟨x, hx, hxk⟩ := ih.mpr ⟨c, hc⟩
        exact ⟨x, by simp [hx], hxk⟩

theorem flagsAgree_of_good (p : AffixPattern) (hp : Good p) : flagsAgree p := by
  obtain ⟨toks, ⟨hf, _, htok, hlit⟩, hcur, hper, hmil⟩ := hp
  have hrt := (replayAll_of_stream p toks hf htok hlit).1
  refine ⟨?_, ?_, ?_⟩
  · rw [hcur, agrees_type_iff toks _ hrt kCurrency (by decide)]
  · rw [hper, agrees_type_iff toks _ hrt kPercent (by decide)]
  · rw [hmil, agrees_type_iff toks _ hrt kPerMill (by decide)]

theorem good_apply (p : AffixPattern) (op : Op) (hv : op.valid = true) (hp : Good p) :
    Good (op.apply p) := by
  cases op with
  | add t count =>
    simp only [Op.valid, kLiteral, kLastToken, Bool.and_eq_true, decide_eq_true_eq] at hv
    exact good_add p t count (by omega) (by omega) hv.2 hp
  | addCurrency count =>
    simp only [Op.valid, decide_eq_true_eq] at hv
    exact good_add p kCurrency count (by decide) (by decide) hv hp
  | addLiteral literal => exact good_addLiteral p literal hp
  | remove => exact good_remove p

theorem good_runOps (ops : List Op) (hv : ∀ op ∈ ops, op.valid = true) : Good (runOps ops) := by
  induction ops using List.reverseRecOn with
  | nil => exact good_empty
  | append_singleton rest op ih =>
    have : runOps (rest ++ [op]) = op.apply (runOps rest) := by
      simp [runOps, List.foldl_append]
    rw [this]
    exact good_apply _ op (hv op (by simp)) (ih (fun o ho => hv o (by simp [ho])))

theorem addLiteral_slice (p : AffixPattern) (literal : List Nat) (start len : Nat)
    (h : start + len ≤ literal.length) :
    p.addLiteral literal start len =
      p.addLiteral ((literal.drop start).take len) 0 ((literal.drop start).take len).length := by
  have hl : ((literal.drop start).take len).length = len := by
    rw [List.length_take, List.length_drop]
    omega
  unfold AffixPattern.addLiteral
  simp only [hl, List.drop_zero, List.take_take, Nat.min_self]

theorem good_addLiteral_slice (p : AffixPattern) (literal : List Nat) (start len : Nat)
    (h : start + len ≤ literal.length) (hp : Good p) : Good (p.addLiteral literal start len) := by
  rw [addLiteral_slice p literal start len h]
  exact good_addLiteral p _ hp

theorem literalRun_le (buffer : List Nat) (len fuel i tokenSize token : Nat) (hi : i ≤ len) :
    (literalRun buffer len fuel i tokenSize token).1 ≤ len := by
  induction fuel generalizing i tokenSize token with
  | zero => exact hi
  | succ f ih =>
    unfold literalRun
    split
    · split
      · exact ih _ _ _ (by omega)
      · exact hi
    · exact hi

theorem good_parseAffixStringLoop (buffer : List Nat) (fuel i : Nat)
    (appendTo : AffixPattern) (status : UErrorCode) (hp : Good appendTo) :
    Good (parseAffixStringLoop buffer buffer.length fuel i appendTo status).1 := by
  induction fuel generalizing i appendTo with
  | zero => exact hp
  | succ f ih =>
    unfold parseAffixStringLoop
    by_cases hi : i < buffer.length
    · have hrun := literalRun_le buffer buffer.length (buffer.length - (i + 1)) (i + 1)
        (nextToken buffer i buffer.length).1 (nextToken buffer i buffer.length).2 (by omega)
      have hsize : (if (nextToken buffer i buffer.length).1 = 1 then
            literalRun buffer buffer.length (buffer.length - (i + 1)) (i + 1)
              (nextToken buffer i buffer.length).1 (nextToken buffer i buffer.length).2
          else (i, (nextToken buffer i buffer.length).1,
            (nextToken buffer i buffer.length).2)).2.1 ≤ 4 := by
        split
        · exact literalRun_size_le _ _ _ _ _ _ (nextToken_size_le buffer i buffer.length)
        · exact nextToken_size_le buffer i buffer.length
      have hp1 : Good (if (nextToken buffer i buffer.length).1 = 1 then
          appendTo.addLiteral buffer i
            ((if (nextToken buffer i buffer.length).1 = 1 then
              literalRun buffer buffer.length (buffer.length - (i + 1)) (i + 1)
                (nextToken buffer i buffer.length).1 (nextToken buffer i buffer.length).2
            else (i, (nextToken buffer i buffer.length).1,
              (nextToken buffer i buffer.length).2)).1 - i)
          else appendTo) := by
        split
        · exact good_addLiteral_slice _ _ _ _ (by omega) hp
        · exact hp
      simp only [if_pos hi]
      generalize (if (nextToken buffer i buffer.length).1 = 1 then
          appendTo.addLiteral buffer i
            ((if (nextToken buffer i buffer.length).1 = 1 then
              literalRun buffer buffer.length (buffer.length - (i + 1)) (i + 1)
                (nextToken buffer i buffer.length).1 (nextToken buffer i buffer.length).2
            else (i, (nextToken buffer i buffer.length).1,
              (nextToken buffer i buffer.length).2)).1 - i)
          else appendTo) = p1 at hp1 ⊢
      generalize (if (nextToken buffer i buffer.length).1 = 1 then
            literalRun buffer buffer.length (buffer.length - (i + 1)) (i + 1)
              (nextToken buffer i buffer.length).1 (nextToken buffer i buffer.length).2
          else (i, (nextToken buffer i buffer.length).1,
            (nextToken buffer i buffer.length).2)) = run at hsize ⊢
      split_ifs
      · exact hp1
      · exact ih _ _ (good_add _ _ _ (by decide) (by decide) (by decide) hp1)
      · exact ih _ _ (good_add _ _ _ (by decide) (by decide) (by decide) hp1)
      · exact ih _ _ (good_add _ _ _ (by decide) (by decide) (by decide) hp1)
      · exact hp1
      · exact ih _ _ (good_add _ _ _ (by decide) (by decide) (by omega) hp1)
      · exact ih _ _ (good_addLiteral_slice _ _ _ _ (by simp) hp1)
    · simp only [if_neg hi]
      exact hp

theorem good_parseAffixString (affixStr : List Nat) (status : UErrorCode) :
    Good (AffixPattern.parseAffixString affixStr AffixPattern.empty status).1 := by
  unfold AffixPattern.parseAffixString
  split
  · exact good_empty
  · exact good_parseAffixStringLoop _ _ _ _ _ good_empty

theorem good_append (a : AffixPatternAppender) (x : Nat) (h : Good a.fDest) :
    Good (a.append x).fDest := by
  unfold AffixPatternAppender.append
  split
  · exact good_addLiteral _ _ h
  · exact h

theorem good_appendN (a : AffixPatternAppender) (x n : Nat) (h : Good a.fDest) :
    Good (a.appendN x n).fDest := by
  induction n generalizing a with
  | zero => exact h
  | succ m ih => exact ih _ (good_append a x h)

theorem good_flush (a : AffixPatternAppender) (h : Good a.fDest) : Good a.flush.fDest := by
  unfold AffixPatternAppender.flush
  split
  · exact good_addLiteral _ _ h
  · exact h

theorem good_flushAdd (a : AffixPatternAppender) (t count : Nat) (ht0 : 0 < t) (ht : t < 128)
    (hc : count < 256) (h : Good a.fDest) : Good (a.flushAdd t count).fDest :=
  good_add _ _ _ ht0 ht hc (good_flush a h)

theorem nextUserToken_size_le (buffer : List Nat) (idx len : Nat) :
    (nextUserToken buffer idx len).1 ≤ 3 := by
  unfold nextUserToken
  simp only
  obtain ⟨-, h2, -⟩ := nextUserTokenRun_spec buffer idx len
    (if buffer.getD idx 0 = 0x27 then 2 else if buffer.getD idx 0 = 0xA4 then 3 else 1)
    (if buffer.getD idx 0 = 0x27 then 2 else if buffer.getD idx 0 = 0xA4 then 3 else 1) 1
  have hmax : (if buffer.getD idx 0 = 0x27 then 2 else if buffer.getD idx 0 = 0xA4 then 3
      else 1) ≤ 3 := by
    split_ifs <;> omega
  rcases h2 with h2 | h2
  · rw [h2]; omega
  · exact Nat.le_trans h2.1 hmax

theorem good_parseUserAffixStringLoop (buffer : List Nat) (len fuel i state : Nat)
    (a : AffixPatternAppender) (h : Good a.fDest) :
    Good (parseUserAffixStringLoop buffer len fuel i state a).fDest := by
  induction fuel generalizing i state a with
  | zero => exact h
  | succ f ih =>
    unfold parseUserAffixStringLoop
    have hsz := nextUserToken_size_le buffer i len
    simp only
    split_ifs
    · exact ih _ _ _ h
    · exact ih _ _ _ (good_flushAdd _ _ _ (by decide) (by decide) (by decide) h)
    · exact ih _ _ _ (good_append _ _ h)
    · exact ih _ _ _ (good_flushAdd _ _ _ (by decide) (by decide) (by decide) h)
    · exact ih _ _ _ (good_flushAdd _ _ _ (by decide) (by decide) (by decide) h)
    · exact ih _ _ _ (good_flushAdd _ _ _ (by decide) (by decide) (by omega) h)
    · exact ih _ _ _ (good_append _ _ h)
    · exact ih _ _ _ (good_append _ _ h)
    · exact ih _ _ _ (good_appendN _ _ _ h)
    · exact ih _ _ _ (good_append _ _ h)
    · exact h

theorem good_parseUserAffixString (affixStr : List Nat) (status : UErrorCode) :
    Good (AffixPattern.parseUserAffixString affixStr AffixPattern.empty status).1 := by
  unfold AffixPattern.parseUserAffixString
  split
  · exact good_empty
  · exact good_flush _ (good_parseUserAffixStringLoop _ _ _ _ _ _ good_empty)

/-! ## The aggregate flags -/

/-- C10 (aggregate flags).  After any sequence of admissible `add` /
`addCurrency` / `addLiteral` / `remove` calls on the empty pattern,
`hasCurrencyToken` is true iff the decoded token stream contains a currency
token, `hasPercentToken` iff it contains a percent token and `hasPermillToken`
iff it contains a permille token; the same holds for the pattern that
`parseAffixString` or `parseUserAffixString` builds from any string on the
empty pattern; and `addLiteral` never changes a flag, whatever the text. -/
theorem flags_agree (ops : List Op) (hv : ∀ op ∈ ops, op.valid = true) :
    flagsAgree (runOps ops) ∧
    (∀ (affixStr : List Nat) (status : UErrorCode),
      flagsAgree (AffixPattern.parseAffixString affixStr AffixPattern.empty status).1) ∧
    (∀ (affixStr : List Nat) (status : UErrorCode),
      flagsAgree (AffixPattern.parseUserAffixString affixStr AffixPattern.empty status).1) ∧
    (∀ (p : AffixPattern) (literal : List Nat) (start len : Nat),
      (p.addLiteral literal start len).hasCurrencyToken = p.hasCurrencyToken ∧
      (p.addLiteral literal start len).hasPercentToken = p.hasPercentToken ∧
      (p.addLiteral literal start len).hasPermillToken = p.hasPermillToken) :=
  ⟨flagsAgree_of_good _ (good_runOps ops hv),
    fun s st => flagsAgree_of_good _ (good_parseAffixString s st),
    fun s st => flagsAgree_of_good _ (good_parseUserAffixString s st),
    fun _ _ _ _ => ⟨rfl, rfl, rfl⟩⟩

/-- Witness of C10: after the sample calls only the percent flag is set,
although the literal text holds U+00A4. -/
theorem flags_agree_witness :
    (∀ op ∈ sampleOps, op.valid = true) ∧ flagsAgree (runOps sampleOps) ∧
      (runOps sampleOps).hasPercentToken = true ∧ (runOps sampleOps).hasCurrencyToken = false :=
  ⟨by decide, (flags_agree sampleOps (by decide)).1, by decide, by decide⟩

/-! ## Affix matchers at run time -/

theorem matched_iff_corresponds (affix : Option AffixPatternMatcher)
    (record : Option (List Nat)) :
    AffixMatcher.matched affix record = true ↔ corresponds affix record := by
  unfold AffixMatcher.matched corresponds
  cases affix with
  | none =>
    cases record <;> simp
  | some a =>
    cases record with
    | none => simp
    | some r =>
      simp
      exact eq_comm

theorem matched_iff_patternOf (affix : Option AffixPatternMatcher)
    (record : Option (List Nat)) :
    AffixMatcher.matched affix record = true ↔ patternOf affix = record := by
  unfold AffixMatcher.matched patternOf
  cases affix with
  | none =>
    cases record <;> simp
  | some a =>
    cases record with
    | none => simp
    | some r => simp

/-- C17 (`AffixMatcher::postProcess`).  For every matcher and accumulator: if
the matcher's prefix corresponds to the recorded prefix and its suffix to the
recorded suffix, then `postProcess` ORs the matcher's flags into
`result.flags` and leaves both records non-bogus, a bogus one replaced by the
empty string and a non-bogus one unchanged, and touches nothing else;
otherwise the accumulator is unchanged. -/
theorem postProcess_spec (m : AffixMatcher) (result : ParsedNumber) :
    (corresponds m.fPrefix result.resultPrefix ∧ corresponds m.fSuffix result.resultSuffix →
      m.postProcess result =
        { seenNumber := result.seenNumber,
          resultPrefix := some (result.resultPrefix.getD []),
          resultSuffix := some (result.resultSuffix.getD []),
          flags := result.flags ||| m.fFlags }) ∧
    (¬ (corresponds m.fPrefix result.resultPrefix ∧ corresponds m.fSuffix result.resultSuffix) →
      m.postProcess result = result) := by
  rw [← matched_iff_corresponds, ← matched_iff_corresponds]
  unfold AffixMatcher.postProcess
  constructor
  · rintro ⟨h1, h2⟩
    simp only [h1, h2, Bool.and_self, if_true]
    cases hp : result.resultPrefix <;> cases hs : result.resultSuffix <;> simp
  · intro h
    have : (AffixMatcher.matched m.fPrefix result.resultPrefix &&
        AffixMatcher.matched m.fSuffix result.resultSuffix) = false := by
      cases h1 : AffixMatcher.matched m.fPrefix result.resultPrefix
      · rfl
      · cases h2 : AffixMatcher.matched m.fSuffix result.resultSuffix
        · rfl
        · exact absurd ⟨h1, h2⟩ h
    rw [this]
    simp

/-- C17, at the negative matcher with the prefix `"PRE"` and no suffix, on an
accumulator that recorded the prefix `"PRE"` and no suffix: the flag is set
and the bogus suffix becomes the empty string. -/
theorem postProcess_spec_witness :
    (corresponds (some { fMatchers := [], fPattern := [0x50, 0x52, 0x45] })
        (some [0x50, 0x52, 0x45]) ∧ corresponds none none) ∧
    AffixMatcher.postProcess
        { fPrefix := some { fMatchers := [], fPattern := [0x50, 0x52, 0x45] },
          fSuffix := none, fFlags := FLAG_NEGATIVE }
        { seenNumber := true, resultPrefix := some [0x50, 0x52, 0x45],
          resultSuffix := none, flags := 0 } =
      { seenNumber := true, resultPrefix := some [0x50, 0x52, 0x45],
        resultSuffix := some [], flags := FLAG_NEGATIVE } :=
  ⟨⟨Or.inr ⟨_, rfl, rfl⟩, Or.inl ⟨rfl, rfl⟩⟩,
    (postProcess_spec
      { fPrefix := some { fMatchers := [], fPattern := [0x50, 0x52, 0x45] },
        fSuffix := none, fFlags := FLAG_NEGATIVE }
      { seenNumber := true, resultPrefix := some [0x50, 0x52, 0x45],
        resultSuffix := none, flags := 0 }).1
      ⟨Or.inr ⟨_, rfl, rfl⟩, Or.inl ⟨rfl, rfl⟩⟩⟩

/-- C18 (`AffixMatcher::match`).  With no number seen, `match` refuses when a
prefix is already recorded or the matcher's prefix is absent; with a number
seen it refuses when a suffix is already recorded, the matcher's suffix is
absent, or the recorded prefix does not correspond to the matcher's prefix.  A
refusal returns false, invokes no composite matcher and leaves the segment
and the accumulator as they were.  In the remaining cases exactly the prefix
composite matcher (no number) or the suffix composite matcher (number seen)
is invoked, its flag is returned, and its pattern text is recorded as
`result.prefix` / `result.suffix` iff the offset of the segment changed. -/
theorem matchAffix_spec
    (seriesMatch : AffixPatternMatcher → StringSegment → ParsedNumber →
      Bool × StringSegment × ParsedNumber)
    (m : AffixMatcher) (segment : StringSegment) (result : ParsedNumber) :
    (result.seenNumber = false → (result.resultPrefix ≠ none ∨ m.fPrefix = none) →
      m.matchAffix seriesMatch segment result =
        { maybeMore := false, segment := segment, result := result, invoked := [] }) ∧
    (result.seenNumber = true →
      (result.resultSuffix ≠ none ∨ m.fSuffix = none
        ∨ ¬ corresponds m.fPrefix result.resultPrefix) →
      m.matchAffix seriesMatch segment result =
        { maybeMore := false, segment := segment, result := result, invoked := [] }) ∧
    (∀ p, result.seenNumber = false → result.resultPrefix = none → m.fPrefix = some p →
      m.matchAffix seriesMatch segment result =
        { maybeMore := (seriesMatch p segment result).1,
          segment := (seriesMatch p segment result).2.1,
          result :=
            if segment.offset ≠ (seriesMatch p segment result).2.1.offset then
              { (seriesMatch p segment result).2.2 with resultPrefix := some p.getPattern }
            else (seriesMatch p segment result).2.2,
          invoked := [p] }) ∧
    (∀ s, result.seenNumber = true → result.resultSuffix = none → m.fSuffix = some s →
      corresponds m.fPrefix result.resultPrefix →
      m.matchAffix seriesMatch segment result =
        { maybeMore := (seriesMatch s segment result).1,
          segment := (seriesMatch s segment result).2.1,
          result :=
            if segment.offset ≠ (seriesMatch s segment result).2.1.offset then
              { (seriesMatch s segment result).2.2 with resultSuffix := some s.getPattern }
            else (seriesMatch s segment result).2.2,
          invoked := [s] }) := by
  refine ⟨?_, ?_, ?_, ?_⟩
  · intro hn h
    unfold AffixMatcher.matchAffix
    rw [if_pos hn]
    cases hp : m.fPrefix with
    | none => rfl
    | some p =>
      rcases h with h | h
      · have : result.resultPrefix.isSome = true := by
          cases hr : result.resultPrefix with
          | none => exact absurd hr h
          | some x => rfl
        simp [this]
      · rw [hp] at h; cases h
  · intro hn h
    unfold AffixMatcher.matchAffix
    rw [if_neg (by simp [hn])]
    cases hs : m.fSuffix with
    | none => rfl
    | some s =>
      have hcond : result.resultSuffix.isSome = true ∨
          AffixMatcher.matched m.fPrefix result.resultPrefix = false := by
        rcases h with h | h | h
        · left
          cases hr : result.resultSuffix with
          | none => exact absurd hr h
          | some x => rfl
        · rw [hs] at h; cases h
        · right
          rw [← matched_iff_corresponds] at h
          simpa using h
      simp only [if_pos hcond]
  · intro p hn hr hp
    unfold AffixMatcher.matchAffix
    rw [if_pos hn]
    simp only [hp, hr, Option.isSome_none, Bool.false_eq_true, if_false]
  · intro s hn hr hs hc
    unfold AffixMatcher.matchAffix
    rw [if_neg (by simp [hn])]
    have hm : AffixMatcher.matched m.fPrefix result.resultPrefix = true :=
      (matched_iff_corresponds _ _).mpr hc
    simp [hs, hr, hm]

/-- C18, at a matcher with the prefix `"PRE"` and the suffix `"S"`, on an
accumulator with a number and the recorded prefix `"X"`: the suffix phase
refuses, whatever the composite matcher would do. -/
theorem matchAffix_spec_witness :
    AffixMatcher.matchAffix (fun _ segment result => (true, segment, result))
        { fPrefix := some { fMatchers := [], fPattern := [0x50, 0x52, 0x45] },
          fSuffix := some { fMatchers := [], fPattern := [0x53] }, fFlags := 0 }
        { fStr := [0x53], offset := 0 }
        { seenNumber := true, resultPrefix := some [0x58], resultSuffix := none, flags := 0 } =
      { maybeMore := false, segment := { fStr := [0x53], offset := 0 },
        result :=
          { seenNumber := true, resultPrefix := some [0x58], resultSuffix := none, flags := 0 },
        invoked := [] } :=
  (matchAffix_spec (fun _ segment result => (true, segment, result))
    { fPrefix := some { fMatchers := [], fPattern := [0x50, 0x52, 0x45] },
      fSuffix := some { fMatchers := [], fPattern := [0x53] }, fFlags := 0 }
    { fStr := [0x53], offset := 0 }
    { seenNumber := true, resultPrefix := some [0x58], resultSuffix := none, flags := 0 }).2.1
    rfl (Or.inr (Or.inr (by rw [← matched_iff_corresponds]; decide)))

/-! ## The matcher compiler keeps the pattern text -/

theorem addMatcher_fPattern (b : AffixPatternMatcherBuilder) (r : NumberParseMatcherRef) :
    (b.addMatcher r).fPattern = b.fPattern := rfl

theorem addIgnorables_fPattern (b : AffixPatternMatcherBuilder) :
    b.addIgnorables.fPattern = b.fPattern := by
  unfold AffixPatternMatcherBuilder.addIgnorables
  cases b.fIgnorables with
  | none => rfl
  | some ign =>
    simp only
    split_ifs <;> rfl

theorem addTokenMatcher_fPattern (b : AffixPatternMatcherBuilder) (type cp : Int) :
    (b.addTokenMatcher type cp).fPattern = b.fPattern := by
  unfold AffixPatternMatcherBuilder.addTokenMatcher
  split_ifs
  all_goals first
    | rfl
    | (cases b.fIgnorables with
        | none => rfl
        | some ign =>
          simp only
          split_ifs <;> rfl)

theorem consumeToken_fPattern (b : AffixPatternMatcherBuilder) (type cp : Int) :
    (b.consumeToken type cp).fPattern = b.fPattern := by
  unfold AffixPatternMatcherBuilder.consumeToken
  simp only [addTokenMatcher_fPattern, addIgnorables_fPattern]

theorem consumeAll_fPattern (toks : List (Int × Int)) (b : AffixPatternMatcherBuilder) :
    (b.consumeAll toks).fPattern = b.fPattern := by
  induction toks generalizing b with
  | nil => rfl
  | cons tok rest ih =>
    show ((b.consumeToken tok.1 tok.2).consumeAll rest).fPattern = b.fPattern
    rw [ih, consumeToken_fPattern]

theorem compiled_fPattern (utils : AffixUtils AffixPatternProvider) (s : List Nat)
    (w : AffixTokenMatcherWarehouse) (f : Nat) :
    (AffixPatternMatcher.compiled utils s w f).fPattern = s := by
  unfold AffixPatternMatcher.compiled
  rw [consumeAll_fPattern]

theorem fromAffixPattern_success (utils : AffixUtils AffixPatternProvider) (s : List Nat)
    (w : AffixTokenMatcherWarehouse) (f : Nat) :
    (AffixPatternMatcher.fromAffixPattern utils s w f).2.1 = !s.isEmpty := by
  unfold AffixPatternMatcher.fromAffixPattern
  cases s <;> simp

theorem fromAffixPattern_pattern (utils : AffixUtils AffixPatternProvider) (s : List Nat)
    (w : AffixTokenMatcherWarehouse) (f : Nat) :
    (AffixPatternMatcher.fromAffixPattern utils s w f).1.fPattern = s := by
  unfold AffixPatternMatcher.fromAffixPattern
  cases s with
  | nil => rfl
  | cons x xs =>
    simp only [List.isEmpty_cons, Bool.false_eq_true, if_false]
    exact compiled_fPattern utils (x :: xs) w f

theorem patternOf_compiledAffix (utils : AffixUtils AffixPatternProvider) (s : List Nat)
    (w : AffixTokenMatcherWarehouse) (f : Nat) :
    patternOf (compiledAffix (AffixPatternMatcher.fromAffixPattern utils s w f)) = textOf s := by
  unfold compiledAffix textOf patternOf
  rw [fromAffixPattern_success]
  cases s with
  | nil => rfl
  | cons x xs =>
    simp only [List.isEmpty_cons, Bool.not_false, if_true, Option.map_some',
      Bool.false_eq_true, if_false]
    congr 1
    exact fromAffixPattern_pattern utils (x :: xs) w f

theorem textOf_eq_none (s : List Nat) : textOf s = none ↔ s = [] := by
  unfold textOf
  cases s <;> simp

theorem textOf_inj (s t : List Nat) : textOf s = textOf t ↔ s = t := by
  unfold textOf
  cases s <;> cases t <;> simp

theorem textOf_ne_some_nil (s : List Nat) : textOf s ≠ some [] := by
  unfold textOf
  cases s <;> simp

theorem equals_iff (a b : Option AffixPatternMatcher) :
    AffixMatcherWarehouse.equals a b = true ↔ patternOf a = patternOf b := by
  unfold AffixMatcherWarehouse.equals patternOf AffixPatternMatcher.getPattern
  cases a <;> cases b <;> simp

/-! ## The matcher set, iteration by iteration -/

theorem construct_matchers (utils : AffixUtils AffixPatternProvider)
    (info : AffixPatternProvider) (w : AffixTokenMatcherWarehouse) (ign : IgnorablesMatcher)
    (f : Nat) (hI : AffixMatcherWarehouse.isInteresting utils info ign f = true) :
    ∃ P0 S0 Pn Sn : Option AffixPatternMatcher,
      patternOf P0 = textOf (sideText utils info f true 0) ∧
      patternOf S0 = textOf (sideText utils info f false 0) ∧
      patternOf Pn = textOf (sideText utils info f true (-1)) ∧
      patternOf Sn = textOf (sideText utils info f false (-1)) ∧
      (AffixMatcherWarehouse.construct utils info w ign f).fAffixMatchers =
        AffixMatcherWarehouse.storedMatchers f 1
            (compiledAffix (AffixPatternMatcher.fromAffixPattern utils
              (sideText utils info f true 1) w f))
            (compiledAffix (AffixPatternMatcher.fromAffixPattern utils
              (sideText utils info f false 1)
              (AffixPatternMatcher.fromAffixPattern utils
                (sideText utils info f true 1) w f).2.2 f))
            none none ++
          AffixMatcherWarehouse.storedMatchers f 0 P0 S0
            (compiledAffix (AffixPatternMatcher.fromAffixPattern utils
              (sideText utils info f true 1) w f))
            (compiledAffix (AffixPatternMatcher.fromAffixPattern utils
              (sideText utils info f false 1)
              (AffixPatternMatcher.fromAffixPattern utils
                (sideText utils info f true 1) w f).2.2 f)) ++
          AffixMatcherWarehouse.storedMatchers f (-1) Pn Sn
            (compiledAffix (AffixPatternMatcher.fromAffixPattern utils
              (sideText utils info f true 1) w f))
            (compiledAffix (AffixPatternMatcher.fromAffixPattern utils
              (sideText utils info f false 1)
              (AffixPatternMatcher.fromAffixPattern utils
                (sideText utils info f true 1) w f).2.2 f)) := by
  unfold AffixMatcherWarehouse.construct
  rw [if_neg (by simp [hI])]
  simp only [List.foldl]
  refine ⟨compiledAffix (AffixPatternMatcher.fromAffixPattern utils
      (sideText utils info f true 0) (AffixPatternMatcher.fromAffixPattern utils
      (sideText utils info f false 1) (AffixPatternMatcher.fromAffixPattern utils
      (sideText utils info f true 1) w f).2.2 f).2.2 f),
    compiledAffix (AffixPatternMatcher.fromAffixPattern utils
      (sideText utils info f false 0) (AffixPatternMatcher.fromAffixPattern utils
      (sideText utils info f true 0) (AffixPatternMatcher.fromAffixPattern utils
      (sideText utils info f false 1) (AffixPatternMatcher.fromAffixPattern utils
      (sideText utils info f true 1) w f).2.2 f).2.2 f).2.2 f),
    compiledAffix (AffixPatternMatcher.fromAffixPattern utils
      (sideText utils info f true (-1)) (AffixPatternMatcher.fromAffixPattern utils
      (sideText utils info f false 0) (AffixPatternMatcher.fromAffixPattern utils
      (sideText utils info f true 0) (AffixPatternMatcher.fromAffixPattern utils
      (sideText utils info f false 1) (AffixPatternMatcher.fromAffixPattern utils
      (sideText utils info f true 1) w f).2.2 f).2.2 f).2.2 f).2.2 f),
    compiledAffix (AffixPatternMatcher.fromAffixPattern utils
      (sideText utils info f false (-1)) (AffixPatternMatcher.fromAffixPattern utils
      (sideText utils info f true (-1)) (AffixPatternMatcher.fromAffixPattern utils
      (sideText utils info f false 0) (AffixPatternMatcher.fromAffixPattern utils
      (sideText utils info f true 0) (AffixPatternMatcher.fromAffixPattern utils
      (sideText utils info f false 1) (AffixPatternMatcher.fromAffixPattern utils
      (sideText utils info f true 1) w f).2.2 f).2.2 f).2.2 f).2.2 f).2.2 f),
    patternOf_compiledAffix _ _ _ _, patternOf_compiledAffix _ _ _ _,
    patternOf_compiledAffix _ _ _ _, patternOf_compiledAffix _ _ _ _, ?_⟩
  simp only [AffixMatcherWarehouse.iteration, List.nil_append, List.append_assoc]
  rfl

theorem storedMatchers_flags (f : Nat) (signum : Int)
    (P S pp ps : Option AffixPatternMatcher) (m : AffixMatcher)
    (hm : m ∈ AffixMatcherWarehouse.storedMatchers f signum P S pp ps) :
    m.fFlags = if signum = -1 then FLAG_NEGATIVE else 0 := by
  unfold AffixMatcherWarehouse.storedMatchers at hm
  generalize (if signum = -1 then FLAG_NEGATIVE else 0) = fl at hm ⊢
  generalize (if signum = 1 then P else pp) = pq at hm
  generalize (if signum = 1 then S else ps) = sq at hm
  split_ifs at hm <;> simp at hm
  all_goals (rcases hm with h | h | h <;> first | rfl | (subst h; rfl))

theorem storedMatchers_skip (f : Nat) (signum : Int)
    (P S pp ps : Option AffixPatternMatcher)
    (h : signum ≠ 1 ∧ AffixMatcherWarehouse.equals P pp = true
      ∧ AffixMatcherWarehouse.equals S ps = true) :
    AffixMatcherWarehouse.storedMatchers f signum P S pp ps = [] := by
  unfold AffixMatcherWarehouse.storedMatchers
  rw [if_pos h]

theorem storedMatchers_head (f : Nat) (signum : Int)
    (P S pp ps : Option AffixPatternMatcher)
    (h : ¬ (signum ≠ 1 ∧ AffixMatcherWarehouse.equals P pp = true
      ∧ AffixMatcherWarehouse.equals S ps = true)) :
    ∃ rest, AffixMatcherWarehouse.storedMatchers f signum P S pp ps =
      { fPrefix := P, fSuffix := S, fFlags := if signum = -1 then FLAG_NEGATIVE else 0 } :: rest := by
  unfold AffixMatcherWarehouse.storedMatchers
  rw [if_neg h]
  exact ⟨_, rfl⟩

theorem compiledAffix_eq_none (utils : AffixUtils AffixPatternProvider) (s : List Nat)
    (w : AffixTokenMatcherWarehouse) (f : Nat) :
    compiledAffix (AffixPatternMatcher.fromAffixPattern utils s w f) = none ↔ s = [] := by
  rw [← textOf_eq_none, ← patternOf_compiledAffix utils s w f]
  unfold patternOf
  cases compiledAffix (AffixPatternMatcher.fromAffixPattern utils s w f) <;> simp

/-- C14 (`AffixMatcherWarehouse::isInteresting` and the early return of the
constructor).  `isInteresting` returns false exactly when
`PARSE_FLAG_USE_FULL_AFFIXES` is not set, each of the four affix strings (the
negative ones taken as empty when the provider has no negative subpattern)
contains only symbols and ignorables, and neither suffix string contains a
plus-sign or minus-sign token; in every other case it returns true.  When it
returns false the constructor adds no affix matcher and compiles no affix
pattern matcher. -/
theorem isInteresting_fastPath (utils : AffixUtils AffixPatternProvider)
    (info : AffixPatternProvider) (w : AffixTokenMatcherWarehouse) (ign : IgnorablesMatcher)
    (f : Nat) :
    (AffixMatcherWarehouse.isInteresting utils info ign f = false ↔
      (f &&& PARSE_FLAG_USE_FULL_AFFIXES = 0
        ∧ utils.containsOnlySymbolsAndIgnorables info.AFFIX_POS_PREFIX ign = true
        ∧ utils.containsOnlySymbolsAndIgnorables info.AFFIX_POS_SUFFIX ign = true
        ∧ utils.containsOnlySymbolsAndIgnorables
            (if info.hasNegativeSubpattern then info.AFFIX_NEG_PREFIX else []) ign = true
        ∧ utils.containsOnlySymbolsAndIgnorables
            (if info.hasNegativeSubpattern then info.AFFIX_NEG_SUFFIX else []) ign = true
        ∧ utils.containsType info.AFFIX_POS_SUFFIX TYPE_PLUS_SIGN = false
        ∧ utils.containsType info.AFFIX_POS_SUFFIX TYPE_MINUS_SIGN = false
        ∧ utils.containsType
            (if info.hasNegativeSubpattern then info.AFFIX_NEG_SUFFIX else []) TYPE_PLUS_SIGN
            = false
        ∧ utils.containsType
            (if info.hasNegativeSubpattern then info.AFFIX_NEG_SUFFIX else []) TYPE_MINUS_SIGN
            = false)) ∧
    (AffixMatcherWarehouse.isInteresting utils info ign f = false →
      (AffixMatcherWarehouse.construct utils info w ign f).fAffixMatchers = [] ∧
      (AffixMatcherWarehouse.construct utils info w ign f).fAffixPatternMatchers = []) := by
  constructor
  · unfold AffixMatcherWarehouse.isInteresting
    simp only
    generalize (if info.hasNegativeSubpattern = true then info.AFFIX_NEG_PREFIX else [])
      = negPrefixString
    generalize (if info.hasNegativeSubpattern = true then info.AFFIX_NEG_SUFFIX else [])
      = negSuffixString
    split_ifs with h
    · exact ⟨fun _ => h, fun _ => rfl⟩
    · exact ⟨fun h2 => absurd h2 (by simp), fun h2 => absurd h2 h⟩
  · intro h
    unfold AffixMatcherWarehouse.construct
    rw [if_pos h]
    exact ⟨rfl, rfl⟩

/-- C14, at the affixes `("", "")` and `("-", "")` with no parse flag: the set is
empty. -/
theorem isInteresting_fastPath_witness :
    AffixMatcherWarehouse.isInteresting sampleUtils minusOnlyProvider sampleIgnorables 0 = false ∧
    (AffixMatcherWarehouse.construct sampleUtils minusOnlyProvider samplePool
      sampleIgnorables 0).fAffixMatchers = [] ∧
    (AffixMatcherWarehouse.construct sampleUtils minusOnlyProvider samplePool
      sampleIgnorables 0).fAffixPatternMatchers = [] :=
  ⟨by decide,
    (isInteresting_fastPath sampleUtils minusOnlyProvider samplePool sampleIgnorables 0).2
      (by decide)⟩

/-- C15 (the positive pairing).  Whenever `isInteresting` returns true the set
built by the constructor is non-empty and its first affix matcher is the
positive pairing: its prefix and suffix are the matchers compiled from the
texts synthesized for signum +1, absent exactly on a side whose text is
empty, and its flags do not contain `FLAG_NEGATIVE`; no condition on the two
sides guards it, so it is there also when both are absent. -/
theorem construct_positive_first (utils : AffixUtils AffixPatternProvider)
    (info : AffixPatternProvider) (w : AffixTokenMatcherWarehouse) (ign : IgnorablesMatcher)
    (f : Nat) (hI : AffixMatcherWarehouse.isInteresting utils info ign f = true) :
    ∃ first rest,
      (AffixMatcherWarehouse.construct utils info w ign f).fAffixMatchers = first :: rest ∧
      first.fPrefix = compiledAffix (AffixPatternMatcher.fromAffixPattern utils
        (sideText utils info f true 1) w f) ∧
      first.fSuffix = compiledAffix (AffixPatternMatcher.fromAffixPattern utils
        (sideText utils info f false 1)
        (AffixPatternMatcher.fromAffixPattern utils (sideText utils info f true 1) w f).2.2 f) ∧
      patternOf first.fPrefix = textOf (sideText utils info f true 1) ∧
      patternOf first.fSuffix = textOf (sideText utils info f false 1) ∧
      (first.fPrefix = none ↔ sideText utils info f true 1 = []) ∧
      (first.fSuffix = none ↔ sideText utils info f false 1 = []) ∧
      first.fFlags &&& FLAG_NEGATIVE = 0 := by
  obtain ⟨P0, S0, Pn, Sn, -, -, -, -, hset⟩ := construct_matchers utils info w ign f hI
  obtain ⟨rest, hrest⟩ := storedMatchers_head f 1
    (compiledAffix (AffixPatternMatcher.fromAffixPattern utils
      (sideText utils info f true 1) w f))
    (compiledAffix (AffixPatternMatcher.fromAffixPattern utils
      (sideText utils info f false 1)
      (AffixPatternMatcher.fromAffixPattern utils (sideText utils info f true 1) w f).2.2 f))
    none none (by simp)
  rw [hrest] at hset
  refine ⟨_, _, hset, rfl, rfl, patternOf_compiledAffix _ _ _ _,
    patternOf_compiledAffix _ _ _ _, compiledAffix_eq_none _ _ _ _,
    compiledAffix_eq_none _ _ _ _, ?_⟩
  show (if (1 : Int) = -1 then FLAG_NEGATIVE else 0) &&& FLAG_NEGATIVE = 0
  decide

/-- C15, at the affixes `("", "")` and `("-", "")` under
`PARSE_FLAG_USE_FULL_AFFIXES`: the positive pairing is there with both sides
absent. -/
theorem construct_positive_first_witness :
    AffixMatcherWarehouse.isInteresting sampleUtils minusOnlyProvider sampleIgnorables
        PARSE_FLAG_USE_FULL_AFFIXES = true ∧
    ∃ first rest,
      (AffixMatcherWarehouse.construct sampleUtils minusOnlyProvider samplePool sampleIgnorables
        PARSE_FLAG_USE_FULL_AFFIXES).fAffixMatchers = first :: rest ∧
      first.fPrefix = compiledAffix (AffixPatternMatcher.fromAffixPattern sampleUtils
        (sideText sampleUtils minusOnlyProvider PARSE_FLAG_USE_FULL_AFFIXES true 1)
        samplePool PARSE_FLAG_USE_FULL_AFFIXES) ∧
      first.fSuffix = compiledAffix (AffixPatternMatcher.fromAffixPattern sampleUtils
        (sideText sampleUtils minusOnlyProvider PARSE_FLAG_USE_FULL_AFFIXES false 1)
        (AffixPatternMatcher.fromAffixPattern sampleUtils
          (sideText sampleUtils minusOnlyProvider PARSE_FLAG_USE_FULL_AFFIXES true 1)
          samplePool PARSE_FLAG_USE_FULL_AFFIXES).2.2 PARSE_FLAG_USE_FULL_AFFIXES) ∧
      patternOf first.fPrefix =
        textOf (sideText sampleUtils minusOnlyProvider PARSE_FLAG_USE_FULL_AFFIXES true 1) ∧
      patternOf first.fSuffix =
        textOf (sideText sampleUtils minusOnlyProvider PARSE_FLAG_USE_FULL_AFFIXES false 1) ∧
      (first.fPrefix = none ↔
        sideText sampleUtils minusOnlyProvider PARSE_FLAG_USE_FULL_AFFIXES true 1 = []) ∧
      (first.fSuffix = none ↔
        sideText sampleUtils minusOnlyProvider PARSE_FLAG_USE_FULL_AFFIXES false 1 = []) ∧
      first.fFlags &&& FLAG_NEGATIVE = 0 :=
  ⟨by decide,
    construct_positive_first sampleUtils minusOnlyProvider samplePool sampleIgnorables
      PARSE_FLAG_USE_FULL_AFFIXES (by decide)⟩

theorem equals_compiled_iff (P pp : Option AffixPatternMatcher) (s t : List Nat)
    (hP : patternOf P = textOf s) (hpp : patternOf pp = textOf t) :
    AffixMatcherWarehouse.equals P pp = true ↔ s = t := by
  rw [equals_iff, hP, hpp, textOf_inj]

/-- C13 (negative-pairing elision).  When a set is built, it contains an affix
matcher flagged `FLAG_NEGATIVE` iff the pattern texts synthesized for
signum -1 differ from those synthesized for signum +1 on at least one side;
when both sides are identical to the positive ones no negative-flagged matcher
of any kind is in the set. -/
theorem negative_elision (utils : AffixUtils AffixPatternProvider)
    (info : AffixPatternProvider) (w : AffixTokenMatcherWarehouse) (ign : IgnorablesMatcher)
    (f : Nat) (hI : AffixMatcherWarehouse.isInteresting utils info ign f = true) :
    (∃ m ∈ (AffixMatcherWarehouse.construct utils info w ign f).fAffixMatchers,
        m.fFlags &&& FLAG_NEGATIVE ≠ 0) ↔
      (sideText utils info f true (-1) ≠ sideText utils info f true 1 ∨
        sideText utils info f false (-1) ≠ sideText utils info f false 1) := by
  obtain ⟨P0, S0, Pn, Sn, -, -, hnp, hns, hset⟩ := construct_matchers utils info w ign f hI
  rw [hset]
  have hp := equals_compiled_iff Pn _ _ _ hnp
    (patternOf_compiledAffix utils (sideText utils info f true 1) w f)
  have hs := equals_compiled_iff Sn _ _ _ hns
    (patternOf_compiledAffix utils (sideText utils info f false 1)
      (AffixPatternMatcher.fromAffixPattern utils (sideText utils info f true 1) w f).2.2 f)
  constructor
  · rintro ⟨m, hm, hflag⟩
    rw [List.mem_append, List.mem_append] at hm
    rcases hm with (hm | hm) | hm
    · exfalso
      apply hflag
      rw [storedMatchers_flags _ _ _ _ _ _ m hm]
      decide
    · exfalso
      apply hflag
      rw [storedMatchers_flags _ _ _ _ _ _ m hm]
      decide
    · by_contra hne
      have heq : sideText utils info f true (-1) = sideText utils info f true 1 ∧
          sideText utils info f false (-1) = sideText utils info f false 1 := by
        constructor
        · by_contra h1
          exact hne (Or.inl h1)
        · by_contra h1
          exact hne (Or.inr h1)
      rw [storedMatchers_skip f (-1) Pn Sn _ _ ⟨by decide, hp.mpr heq.1, hs.mpr heq.2⟩] at hm
      cases hm
  · intro hne
    obtain ⟨rest, hrest⟩ := storedMatchers_head f (-1) Pn Sn
      (compiledAffix (AffixPatternMatcher.fromAffixPattern utils
        (sideText utils info f true 1) w f))
      (compiledAffix (AffixPatternMatcher.fromAffixPattern utils
        (sideText utils info f false 1)
        (AffixPatternMatcher.fromAffixPattern utils (sideText utils info f true 1) w f).2.2 f))
      (by
        rintro ⟨-, h1, h2⟩
        rcases hne with h | h
        · exact h (hp.mp h1)
        · exact h (hs.mp h2))
    refine ⟨AffixMatcher.mk Pn Sn (if (-1 : Int) = -1 then FLAG_NEGATIVE else 0), ?_, ?_⟩
    · rw [hrest]
      simp
    · show (if (-1 : Int) = -1 then FLAG_NEGATIVE else 0) &&& FLAG_NEGATIVE ≠ 0
      decide

/-- C13, at the affixes `("PRE", "S")` for both signs with unpaired affixes
included: no matcher of the set is flagged negative. -/
theorem negative_elision_witness :
    AffixMatcherWarehouse.isInteresting sampleUtils samePairProvider sampleIgnorables
        PARSE_FLAG_INCLUDE_UNPAIRED_AFFIXES = true ∧
    ¬ (∃ m ∈ (AffixMatcherWarehouse.construct sampleUtils samePairProvider samplePool
          sampleIgnorables PARSE_FLAG_INCLUDE_UNPAIRED_AFFIXES).fAffixMatchers,
        m.fFlags &&& FLAG_NEGATIVE ≠ 0) :=
  ⟨by decide, fun h =>
    ((negative_elision sampleUtils samePairProvider samplePool sampleIgnorables
      PARSE_FLAG_INCLUDE_UNPAIRED_AFFIXES (by decide)).mp h).elim
      (fun h1 => h1 (by decide)) (fun h1 => h1 (by decide))⟩

/-! ## Unpaired matchers -/

/-- C12 (unpaired matchers of a retained pairing), at the affixes
`("PRE", "A")` and `("NPRE", "B")` with `PARSE_FLAG_INCLUDE_UNPAIRED_AFFIXES`:
the constructor retains the negative pairing `("NPRE", "B")`, whose two sides
are non-empty, and the set holds neither a prefix-only matcher for `"NPRE"`
nor a suffix-only matcher for `"B"`.  The guard `equals(prefix, posPrefix)` of
the unpaired matchers is true only for a side equal to the positive one. -/
theorem unpaired_missing_for_distinct_negative :
    matcherTexts (AffixMatcherWarehouse.construct sampleUtils distinctProvider samplePool
        sampleIgnorables PARSE_FLAG_INCLUDE_UNPAIRED_AFFIXES).fAffixMatchers =
      [(some [0x50, 0x52, 0x45], some [0x41], 0),
       (some [0x50, 0x52, 0x45], none, 0),
       (none, some [0x41], 0),
       (some [0x4E, 0x50, 0x52, 0x45], some [0x42], FLAG_NEGATIVE)] ∧
    (∃ m ∈ (AffixMatcherWarehouse.construct sampleUtils distinctProvider samplePool
          sampleIgnorables PARSE_FLAG_INCLUDE_UNPAIRED_AFFIXES).fAffixMatchers,
        patternOf m.fPrefix = some [0x4E, 0x50, 0x52, 0x45] ∧
        patternOf m.fSuffix = some [0x42]) ∧
    ¬ (∃ m ∈ (AffixMatcherWarehouse.construct sampleUtils distinctProvider samplePool
          sampleIgnorables PARSE_FLAG_INCLUDE_UNPAIRED_AFFIXES).fAffixMatchers,
        m.isPrefixOnly = true ∧ patternOf m.fPrefix = some [0x4E, 0x50, 0x52, 0x45]) ∧
    ¬ (∃ m ∈ (AffixMatcherWarehouse.construct sampleUtils distinctProvider samplePool
          sampleIgnorables PARSE_FLAG_INCLUDE_UNPAIRED_AFFIXES).fAffixMatchers,
        m.isSuffixOnly = true ∧ patternOf m.fSuffix = some [0x42]) := by
  decide

/-- C11 (no duplicate unpaired matchers), at the affixes `("PRE", "A")` and
`("PRE", "B")` with `PARSE_FLAG_INCLUDE_UNPAIRED_AFFIXES`: both pairings are
retained with two non-empty sides, the negative pairing shares the prefix of
the positive one, `equals(prefix, posPrefix)` is true, and a second unpaired
prefix-only matcher for `"PRE"` is stored, flagged negative.  The set holds
two prefix-only matchers with equal prefix pattern text, at the places 1
and 4. -/
theorem unpaired_repeated_for_shared_prefix :
    matcherTexts (AffixMatcherWarehouse.construct sampleUtils sharedPrefixProvider samplePool
        sampleIgnorables PARSE_FLAG_INCLUDE_UNPAIRED_AFFIXES).fAffixMatchers =
      [(some [0x50, 0x52, 0x45], some [0x41], 0),
       (some [0x50, 0x52, 0x45], none, 0),
       (none, some [0x41], 0),
       (some [0x50, 0x52, 0x45], some [0x42], FLAG_NEGATIVE),
       (some [0x50, 0x52, 0x45], none, FLAG_NEGATIVE)] ∧
    (AffixMatcherWarehouse.construct sampleUtils sharedPrefixProvider samplePool
        sampleIgnorables PARSE_FLAG_INCLUDE_UNPAIRED_AFFIXES).fAffixMatchers.map
        (fun m => (m.isPrefixOnly, patternOf m.fPrefix)) =
      [(false, some [0x50, 0x52, 0x45]), (true, some [0x50, 0x52, 0x45]), (false, none),
       (false, some [0x50, 0x52, 0x45]), (true, some [0x50, 0x52, 0x45])] ∧
    ¬ noDuplicateUnpaired (AffixMatcherWarehouse.construct sampleUtils sharedPrefixProvider
      samplePool sampleIgnorables PARSE_FLAG_INCLUDE_UNPAIRED_AFFIXES).fAffixMatchers := by
  refine ⟨by decide, by decide, ?_⟩
  unfold noDuplicateUnpaired
  decide

theorem construct_matchers_signs (utils : AffixUtils AffixPatternProvider)
    (info : AffixPatternProvider) (w : AffixTokenMatcherWarehouse) (ign : IgnorablesMatcher)
    (f : Nat) (hI : AffixMatcherWarehouse.isInteresting utils info ign f = true)
    (hp : sideText utils info f true 0 = sideText utils info f true 1)
    (hs : sideText utils info f false 0 = sideText utils info f false 1) :
    ∃ P1 S1 Pn Sn : Option AffixPatternMatcher,
      patternOf P1 = textOf (sideText utils info f true 1) ∧
      patternOf S1 = textOf (sideText utils info f false 1) ∧
      patternOf Pn = textOf (sideText utils info f true (-1)) ∧
      patternOf Sn = textOf (sideText utils info f false (-1)) ∧
      (AffixMatcherWarehouse.construct utils info w ign f).fAffixMatchers =
        AffixMatcherWarehouse.storedMatchers f 1 P1 S1 none none ++
          AffixMatcherWarehouse.storedMatchers f (-1) Pn Sn P1 S1 := by
  obtain ⟨P0, S0, Pn, Sn, h0p, h0s, hnp, hns, hset⟩ := construct_matchers utils info w ign f hI
  refine ⟨compiledAffix (AffixPatternMatcher.fromAffixPattern utils
      (sideText utils info f true 1) w f),
    compiledAffix (AffixPatternMatcher.fromAffixPattern utils
      (sideText utils info f false 1)
      (AffixPatternMatcher.fromAffixPattern utils (sideText utils info f true 1) w f).2.2 f),
    Pn, Sn, patternOf_compiledAffix _ _ _ _, patternOf_compiledAffix _ _ _ _,
    hnp, hns, ?_⟩
  rw [hset, storedMatchers_skip f 0 P0 S0 _ _
    ⟨by decide,
      (equals_compiled_iff P0 _ _ _ h0p (patternOf_compiledAffix _ _ _ _)).mpr hp,
      (equals_compiled_iff S0 _ _ _ h0s (patternOf_compiledAffix _ _ _ _)).mpr hs⟩,
    List.append_nil]

/-! ## Pairing mutual exclusion -/

theorem fires_iff (m : AffixMatcher) (r : ParsedNumber) :
    m.fires r = true ↔
      patternOf m.fPrefix = r.resultPrefix ∧ patternOf m.fSuffix = r.resultSuffix := by
  unfold AffixMatcher.fires
  rw [Bool.and_eq_true, matched_iff_patternOf, matched_iff_patternOf]

theorem postProcess_of_not_fires (m : AffixMatcher) (r : ParsedNumber)
    (h : m.fires r = false) : m.postProcess r = r := by
  unfold AffixMatcher.postProcess
  unfold AffixMatcher.fires at h
  rw [h]
  rfl

theorem postProcess_of_fires (m : AffixMatcher) (r : ParsedNumber)
    (h : m.fires r = true) :
    (m.postProcess r).resultPrefix = some (r.resultPrefix.getD []) ∧
    (m.postProcess r).resultSuffix = some (r.resultSuffix.getD []) := by
  unfold AffixMatcher.postProcess
  unfold AffixMatcher.fires at h
  rw [h]
  cases hp : r.resultPrefix <;> cases hs : r.resultSuffix <;> simp

theorem postProcessAll_none_fires (ms : List AffixMatcher) (r : ParsedNumber)
    (h : ∀ m ∈ ms, m.fires r = false) : (postProcessAll ms r).1 = 0 := by
  induction ms with
  | nil => rfl
  | cons m rest ih =>
    have hm : m.fires r = false := h m (List.mem_cons_self _ _)
    show (if m.fires r = true then 1 else 0) + (postProcessAll rest (m.postProcess r)).1 = 0
    rw [postProcess_of_not_fires m r hm, hm, ih (fun x hx => h x (List.mem_cons_of_mem _ hx))]
    rfl

theorem postProcessAll_le_one (ms : List AffixMatcher)
    (hne : ∀ m ∈ ms, patternOf m.fPrefix ≠ some [] ∧ patternOf m.fSuffix ≠ some [])
    (hpw : ms.Pairwise (fun a b =>
      ¬ (patternOf a.fPrefix = patternOf b.fPrefix ∧ patternOf a.fSuffix = patternOf b.fSuffix
        ∧ a.fPrefix.isSome = true ∧ a.fSuffix.isSome = true)))
    (r : ParsedNumber) : (postProcessAll ms r).1 ≤ 1 := by
  induction ms generalizing r with
  | nil => exact Nat.zero_le 1
  | cons m rest ih =>
    rw [List.pairwise_cons] at hpw
    show (if m.fires r = true then 1 else 0) + (postProcessAll rest (m.postProcess r)).1 ≤ 1
    cases hm : m.fires r with
    | false =>
      rw [postProcess_of_not_fires m r hm]
      simp only [Bool.false_eq_true, if_false, Nat.zero_add]
      exact ih (fun x hx => hne x (List.mem_cons_of_mem _ hx)) hpw.2 r
    | true =>
      have hfire := (fires_iff m r).mp hm
      have hpost := postProcess_of_fires m r hm
      have hzero : (postProcessAll rest (m.postProcess r)).1 = 0 := by
        apply postProcessAll_none_fires
        intro x hx
        cases hxf : x.fires (m.postProcess r) with
        | false => rfl
        | true =>
          exfalso
          have hxfire := (fires_iff x (m.postProcess r)).mp hxf
          rw [hpost.1, hpost.2] at hxfire
          have hxne := hne x (List.mem_cons_of_mem _ hx)
          have hp : ∃ p, r.resultPrefix = some p := by
            cases hrp : r.resultPrefix with
            | none =>
              rw [hrp] at hxfire
              exact absurd hxfire.1 hxne.1
            | some p => exact ⟨p, rfl⟩
          have hs : ∃ s, r.resultSuffix = some s := by
            cases hrs : r.resultSuffix with
            | none =>
              rw [hrs] at hxfire
              exact absurd hxfire.2 hxne.2
            | some s => exact ⟨s, rfl⟩
          obtain ⟨p, hp⟩ := hp
          obtain ⟨s, hs⟩ := hs
          rw [hp, hs] at hxfire hfire
          apply hpw.1 x hx
          refine ⟨?_, ?_, ?_, ?_⟩
          · rw [hfire.1, hxfire.1]
            rfl
          · rw [hfire.2, hxfire.2]
            rfl
          · have h1 := hfire.1
            unfold patternOf at h1
            cases hmp : m.fPrefix with
            | none =>
              rw [hmp] at h1
              cases h1
            | some a => rfl
          · have h2 := hfire.2
            unfold patternOf at h2
            cases hms : m.fSuffix with
            | none =>
              rw [hms] at h2
              cases h2
            | some a => rfl
      rw [hzero]
      rfl

theorem storedMatchers_sides (f : Nat) (signum : Int)
    (P S pp ps : Option AffixPatternMatcher) (m : AffixMatcher)
    (hm : m ∈ AffixMatcherWarehouse.storedMatchers f signum P S pp ps) :
    (m.fPrefix = P ∨ m.fPrefix = none) ∧ (m.fSuffix = S ∨ m.fSuffix = none) := by
  unfold AffixMatcherWarehouse.storedMatchers at hm
  generalize (if signum = -1 then FLAG_NEGATIVE else 0) = fl at hm
  generalize (if signum = 1 then P else pp) = pq at hm
  generalize (if signum = 1 then S else ps) = sq at hm
  split_ifs at hm <;> simp at hm
  all_goals (rcases hm with h | h | h <;> first | simp | (subst h; simp))

theorem storedMatchers_pairwise (f : Nat) (signum : Int)
    (P S pp ps : Option AffixPatternMatcher) :
    (AffixMatcherWarehouse.storedMatchers f signum P S pp ps).Pairwise (fun a b =>
      ¬ (patternOf a.fPrefix = patternOf b.fPrefix ∧ patternOf a.fSuffix = patternOf b.fSuffix
        ∧ a.fPrefix.isSome = true ∧ a.fSuffix.isSome = true)) := by
  unfold AffixMatcherWarehouse.storedMatchers
  generalize (if signum = -1 then FLAG_NEGATIVE else 0) = fl
  generalize (if signum = 1 then P else pp) = pq
  generalize (if signum = 1 then S else ps) = sq
  cases P <;> cases S <;> split_ifs <;> simp_all [patternOf]

theorem patternOf_ne_of_text (P : Option AffixPatternMatcher) (s : List Nat)
    (h : patternOf P = textOf s) : patternOf P ≠ some [] := by
  rw [h]
  exact textOf_ne_some_nil s

theorem patternOf_none : patternOf none = none := rfl

theorem side_ne_some_nil (m P : Option AffixPatternMatcher)
    (hP : patternOf P ≠ some []) (h : m = P ∨ m = none) : patternOf m ≠ some [] := by
  rcases h with h | h
  · rw [h]
    exact hP
  · rw [h]
    simp [patternOf]

theorem side_eq_of_isSome (m P : Option AffixPatternMatcher)
    (h : m = P ∨ m = none) (hsome : m.isSome = true) : m = P := by
  rcases h with h | h
  · exact h
  · rw [h] at hsome
    cases hsome

theorem patternOf_isSome (a b : Option AffixPatternMatcher)
    (h : patternOf a = patternOf b) (ha : a.isSome = true) : b.isSome = true := by
  unfold patternOf at h
  cases a with
  | none => cases ha
  | some x =>
    cases b with
    | none => cases h
    | some y => rfl

/-- C16 (pairing mutual exclusion).  For every matcher set built by the
constructor, with the pattern texts synthesized for signum 0 equal to those
synthesized for signum +1, and for every accumulator state: when `postProcess`
of each matcher of the set is run in sequence on that accumulator, at most one
matcher finds both its prefix and its suffix matched and applies its flags. -/
theorem pairing_mutual_exclusion (utils : AffixUtils AffixPatternProvider)
    (info : AffixPatternProvider) (w : AffixTokenMatcherWarehouse) (ign : IgnorablesMatcher)
    (f : Nat)
    (hp : sideText utils info f true 0 = sideText utils info f true 1)
    (hs : sideText utils info f false 0 = sideText utils info f false 1)
    (result : ParsedNumber) :
    (postProcessAll (AffixMatcherWarehouse.construct utils info w ign f).fAffixMatchers
      result).1 ≤ 1 := by
  cases hI : AffixMatcherWarehouse.isInteresting utils info ign f with
  | false =>
    unfold AffixMatcherWarehouse.construct
    rw [if_pos hI]
    exact Nat.zero_le 1
  | true =>
    obtain ⟨P1, S1, Pn, Sn, h1p, h1s, hnp, hns, hset⟩ :=
      construct_matchers_signs utils info w ign f hI hp hs
    rw [hset]
    apply postProcessAll_le_one
    · intro m hm
      rw [List.mem_append] at hm
      rcases hm with hm | hm
      · have hsides := storedMatchers_sides _ _ _ _ _ _ m hm
        exact ⟨side_ne_some_nil _ _ (patternOf_ne_of_text _ _ h1p) hsides.1,
          side_ne_some_nil _ _ (patternOf_ne_of_text _ _ h1s) hsides.2⟩
      · have hsides := storedMatchers_sides _ _ _ _ _ _ m hm
        exact ⟨side_ne_some_nil _ _ (patternOf_ne_of_text _ _ hnp) hsides.1,
          side_ne_some_nil _ _ (patternOf_ne_of_text _ _ hns) hsides.2⟩
    · rw [List.pairwise_append]
      refine ⟨storedMatchers_pairwise _ _ _ _ _ _, storedMatchers_pairwise _ _ _ _ _ _, ?_⟩
      rintro a ha b hb ⟨hpe, hse, hap, has⟩
      have hsa := storedMatchers_sides _ _ _ _ _ _ a ha
      have hsb := storedMatchers_sides _ _ _ _ _ _ b hb
      have ha1 := side_eq_of_isSome _ _ hsa.1 hap
      have ha2 := side_eq_of_isSome _ _ hsa.2 has
      have hb1 := side_eq_of_isSome _ _ hsb.1 (patternOf_isSome _ _ hpe hap)
      have hb2 := side_eq_of_isSome _ _ hsb.2 (patternOf_isSome _ _ hse has)
      rw [ha1, hb1] at hpe
      rw [ha2, hb2] at hse
      rw [storedMatchers_skip f (-1) Pn Sn P1 S1
        ⟨by decide, (equals_iff _ _).mpr hpe.symm, (equals_iff _ _).mpr hse.symm⟩] at hb
      cases hb

/-- C16, at the affixes `("PRE", "A")` and `("PRE", "B")` with
`PARSE_FLAG_INCLUDE_UNPAIRED_AFFIXES`, on the accumulator that recorded the
prefix `"PRE"` and the suffix `"B"`. -/
theorem pairing_mutual_exclusion_witness :
    (sideText sampleUtils sharedPrefixProvider PARSE_FLAG_INCLUDE_UNPAIRED_AFFIXES true 0
        = sideText sampleUtils sharedPrefixProvider PARSE_FLAG_INCLUDE_UNPAIRED_AFFIXES true 1 ∧
      sideText sampleUtils sharedPrefixProvider PARSE_FLAG_INCLUDE_UNPAIRED_AFFIXES false 0
        = sideText sampleUtils sharedPrefixProvider PARSE_FLAG_INCLUDE_UNPAIRED_AFFIXES false 1) ∧
    (postProcessAll (AffixMatcherWarehouse.construct sampleUtils sharedPrefixProvider samplePool
        sampleIgnorables PARSE_FLAG_INCLUDE_UNPAIRED_AFFIXES).fAffixMatchers
      { seenNumber := true, resultPrefix := some [0x50, 0x52, 0x45],
        resultSuffix := some [0x42], flags := 0 }).1 ≤ 1 :=
  ⟨⟨by decide, by decide⟩,
    pairing_mutual_exclusion sampleUtils sharedPrefixProvider samplePool sampleIgnorables
      PARSE_FLAG_INCLUDE_UNPAIRED_AFFIXES (by decide) (by decide) _⟩

/-! ## The matcher pool -/

theorem getD_set_ne {α : Type} (l : List α) (i j : Nat) (a d : α) (h : i ≠ j) :
    (l.set i a).getD j d = l.getD j d := by
  rw [List.getD_eq_getElem?_getD, List.getD_eq_getElem?_getD, List.getElem?_set_ne h]

theorem getD_set_self {α : Type} (l : List α) (i : Nat) (a d : α) (h : i < l.length) :
    (l.set i a).getD i d = a := by
  rw [List.getD_eq_getElem?_getD, List.getElem?_set, if_pos rfl, if_pos h]
  rfl

theorem getD_append_left {α : Type} (l l2 : List α) (j : Nat) (d : α) (h : j < l.length) :
    (l ++ l2).getD j d = l.getD j d := by
  rw [List.getD_eq_getElem?_getD, List.getD_eq_getElem?_getD, List.getElem?_append_left h]

theorem getD_mem {α : Type} (l : List α) (j : Nat) (d : α) (h : j < l.length) :
    l.getD j d ∈ l := by
  rw [List.getD_eq_getElem l d h]
  exact List.getElem_mem h

theorem batch_index_full (nb bs j : Nat) (hbs : 0 < bs) (h1 : j ≤ nb * bs)
    (hfull : nb * bs ≤ j) : j / bs = nb := by
  have hj : j = nb * bs := Nat.le_antisymm h1 hfull
  rw [hj]
  exact Nat.mul_div_cancel nb hbs

theorem batch_index_room (nb bs j : Nat) (h2 : nb * bs < j + bs)
    (hroom : j < nb * bs) : j / bs + 1 = nb := by
  cases nb with
  | zero =>
    rw [Nat.zero_mul] at hroom
    exact absurd hroom (Nat.not_lt_zero j)
  | succ n =>
    have hmul : (n + 1) * bs = n * bs + bs := Nat.succ_mul n bs
    have hdiv : j / bs = n := by
      apply Nat.div_eq_of_lt_le
      · omega
      · omega
    rw [hdiv]

theorem offsets_differ (bs i j : Nat) (hij : i < j) (hdiv : i / bs = j / bs) :
    i % bs ≠ j % bs := by
  intro hmod
  have hi := Nat.div_add_mod i bs
  have hj := Nat.div_add_mod j bs
  rw [hdiv, hmod] at hi
  omega

theorem slotOf_injective (cap bs : Nat) : Function.Injective (slotOf cap bs) := by
  intro i j h
  unfold slotOf at h
  split_ifs at h with hi hj hj
  · exact CodePointSlot.inline.inj h
  · have h2 := CodePointSlot.overflow.inj h
    have hi2 := Nat.div_add_mod (i - cap) bs
    have hj2 := Nat.div_add_mod (j - cap) bs
    rw [h2.1, h2.2] at hi2
    omega

theorem addBatchIfFull_spec (cap bs k : Nat) (w : AffixTokenMatcherWarehouse)
    (hbs : 0 < bs) (hinv : poolInvariant cap bs k w) (hk : cap ≤ k) :
    w.addBatchIfFull.CODE_POINT_STACK_CAPACITY = cap ∧
    w.addBatchIfFull.CODE_POINT_BATCH_SIZE = bs ∧
    w.addBatchIfFull.codePoints = w.codePoints ∧
    w.addBatchIfFull.codePointsOverflow.length = (k - cap) / bs + 1 ∧
    (∀ b ∈ w.addBatchIfFull.codePointsOverflow, b.length = bs) ∧
    (∀ b, b < w.codePointsOverflow.length →
      w.addBatchIfFull.codePointsOverflow.getD b [] = w.codePointsOverflow.getD b []) := by
  obtain ⟨hc, hb, hcount, -, hbatches, h1, h2⟩ := hinv
  unfold AffixTokenMatcherWarehouse.addBatchIfFull AffixTokenMatcherWarehouse.codePointNumBatches
  rw [hc, hb, hcount]
  split_ifs with hfull
  · refine ⟨rfl, rfl, rfl, ?_, ?_, ?_⟩
    · show (w.codePointsOverflow ++ [List.replicate bs none]).length = (k - cap) / bs + 1
      rw [List.length_append, batch_index_full _ bs (k - cap) hbs h1 (by omega)]
      rfl
    · intro b hmem
      have hmem2 : b ∈ w.codePointsOverflow ++ [List.replicate bs none] := hmem
      rw [List.mem_append] at hmem2
      rcases hmem2 with h | h
      · exact hbatches b h
      · rw [List.mem_singleton] at h
        rw [h, List.length_replicate]
    · intro b hlt
      exact getD_append_left _ _ b [] hlt
  · refine ⟨by first | rfl | exact hc, by first | rfl | exact hb, rfl, ?_, hbatches,
      fun _ _ => rfl⟩
    exact (batch_index_room _ bs (k - cap) h2 (by omega)).symm

theorem nextCodePointMatcher_inline (cap bs k : Nat) (w : AffixTokenMatcherWarehouse)
    (cp : Int) (hinv : poolInvariant cap bs k w) (hk : k < cap) :
    (w.nextCodePointMatcher cp).1 = slotOf cap bs k ∧
    poolInvariant cap bs (k + 1) (w.nextCodePointMatcher cp).2 ∧
    (w.nextCodePointMatcher cp).2.read (slotOf cap bs k) = some cp ∧
    ∀ i, i < k → (w.nextCodePointMatcher cp).2.read (slotOf cap bs i)
      = w.read (slotOf cap bs i) := by
  obtain ⟨hc, hb, hcount, hlen, hbatches, h1, h2⟩ := hinv
  have hbranch : w.codePointCount < w.CODE_POINT_STACK_CAPACITY := by
    rw [hc, hcount]
    exact hk
  unfold AffixTokenMatcherWarehouse.nextCodePointMatcher
  rw [if_pos hbranch, hcount]
  refine ⟨?_, ?_, ?_, ?_⟩
  · unfold slotOf
    rw [if_pos hk]
  · refine ⟨hc, hb, rfl, ?_, hbatches, ?_, ?_⟩
    · show (w.codePoints.set k (some cp)).length = cap
      rw [List.length_set, hlen]
    · show k + 1 - cap ≤ w.codePointsOverflow.length * bs
      omega
    · show w.codePointsOverflow.length * bs < k + 1 - cap + bs
      omega
  · unfold slotOf
    rw [if_pos hk]
    show (w.codePoints.set k (some cp)).getD k none = some cp
    exact getD_set_self _ _ _ _ (by rw [hlen]; exact hk)
  · intro i hi
    unfold slotOf
    rw [if_pos (Nat.lt_trans hi hk)]
    show (w.codePoints.set k (some cp)).getD i none = w.codePoints.getD i none
    exact getD_set_ne _ _ _ _ _ (by omega)

theorem nextCodePointMatcher_overflow (cap bs k : Nat) (w : AffixTokenMatcherWarehouse)
    (cp : Int) (hbs : 0 < bs) (hinv : poolInvariant cap bs k w) (hk : cap ≤ k) :
    (w.nextCodePointMatcher cp).1 = slotOf cap bs k ∧
    poolInvariant cap bs (k + 1) (w.nextCodePointMatcher cp).2 ∧
    (w.nextCodePointMatcher cp).2.read (slotOf cap bs k) = some cp ∧
    ∀ i, i < k → (w.nextCodePointMatcher cp).2.read (slotOf cap bs i)
      = w.read (slotOf cap bs i) := by
  obtain ⟨a1, a2, a3, a4, a5, a6⟩ := addBatchIfFull_spec cap bs k w hbs hinv hk
  obtain ⟨hc, hb, hcount, hlen, hbatches, h1, h2⟩ := hinv
  have hbranch : ¬ w.codePointCount < w.CODE_POINT_STACK_CAPACITY := by
    rw [hc, hcount]
    omega
  have hslot : slotOf cap bs k =
      CodePointSlot.overflow ((k - cap) / bs) ((k - cap) % bs) := by
    unfold slotOf
    rw [if_neg (by omega)]
  have hmod : (k - cap) % bs < bs := Nat.mod_lt _ hbs
  unfold AffixTokenMatcherWarehouse.nextCodePointMatcher
  rw [if_neg hbranch, hcount, hc, hb]
  unfold AffixTokenMatcherWarehouse.codePointNumBatches
  rw [a4, Nat.add_sub_cancel]
  generalize w.addBatchIfFull = w1 at a1 a2 a3 a4 a5 a6 ⊢
  have hB : (k - cap) / bs < w1.codePointsOverflow.length := by
    rw [a4]
    exact Nat.lt_succ_self _
  have hcur : (w1.codePointsOverflow.getD ((k - cap) / bs) []).length = bs :=
    a5 _ (getD_mem _ _ _ hB)
  refine ⟨hslot.symm, ?_, ?_, ?_⟩
  · refine ⟨a1, a2, rfl, ?_, ?_, ?_, ?_⟩
    · show w1.codePoints.length = cap
      rw [a3, hlen]
    · intro b hmem
      rcases List.mem_or_eq_of_mem_set hmem with h | h
      · exact a5 b h
      · rw [h, List.length_set]
        exact hcur
    · show k + 1 - cap ≤ (w1.codePointsOverflow.set _ _).length * bs
      rw [List.length_set, a4]
      have := Nat.lt_div_mul_add (a := k - cap) hbs
      rw [Nat.succ_mul]
      omega
    · show (w1.codePointsOverflow.set _ _).length * bs < k + 1 - cap + bs
      rw [List.length_set, a4, Nat.succ_mul]
      have := Nat.div_mul_le_self (k - cap) bs
      omega
  · rw [hslot]
    show ((w1.codePointsOverflow.set _ _).getD ((k - cap) / bs) []).getD ((k - cap) % bs) none
      = some cp
    rw [getD_set_self _ _ _ _ hB]
    exact getD_set_self _ _ _ _ (by rw [hcur]; exact hmod)
  · intro i hi
    unfold slotOf
    split_ifs with hic
    · show w1.codePoints.getD i none = w.codePoints.getD i none
      rw [a3]
    · show ((w1.codePointsOverflow.set _ _).getD ((i - cap) / bs) []).getD ((i - cap) % bs) none
        = (w.codePointsOverflow.getD ((i - cap) / bs) []).getD ((i - cap) % bs) none
      have hilt : i - cap < k - cap := by omega
      have hold : (i - cap) / bs < w.codePointsOverflow.length := by
        apply Nat.div_lt_of_lt_mul
        rw [Nat.mul_comm]
        omega
      by_cases hsame : (k - cap) / bs = (i - cap) / bs
      · rw [← hsame, getD_set_self _ _ _ _ hB,
          getD_set_ne _ _ _ _ _ (offsets_differ bs _ _ hilt hsame.symm).symm,
          a6 _ (by rw [hsame]; exact hold)]
      · rw [getD_set_ne _ _ _ _ _ hsame, a6 _ hold]

theorem nextCodePointMatcher_spec (cap bs k : Nat) (w : AffixTokenMatcherWarehouse)
    (cp : Int) (hbs : 0 < bs) (hinv : poolInvariant cap bs k w) :
    (w.nextCodePointMatcher cp).1 = slotOf cap bs k ∧
    poolInvariant cap bs (k + 1) (w.nextCodePointMatcher cp).2 ∧
    (w.nextCodePointMatcher cp).2.read (slotOf cap bs k) = some cp ∧
    ∀ i, i < k → (w.nextCodePointMatcher cp).2.read (slotOf cap bs i)
      = w.read (slotOf cap bs i) := by
  by_cases hk : k < cap
  · exact nextCodePointMatcher_inline cap bs k w cp hinv hk
  · exact nextCodePointMatcher_overflow cap bs k w cp hbs hinv (by omega)

theorem issueAll_spec (cap bs : Nat) (hbs : 0 < bs) (cps : List Int) :
    ∀ (k : Nat) (w : AffixTokenMatcherWarehouse), poolInvariant cap bs k w →
      (w.issueAll cps).1 = (List.range' k cps.length).map (slotOf cap bs) ∧
      (∀ i, i < k → (w.issueAll cps).2.read (slotOf cap bs i) = w.read (slotOf cap bs i)) ∧
      (∀ i, i < cps.length → (w.issueAll cps).2.read (slotOf cap bs (k + i)) = cps[i]?) := by
  induction cps with
  | nil =>
    intro k w _
    refine ⟨rfl, fun _ _ => rfl, ?_⟩
    intro i hi
    exact absurd hi (Nat.not_lt_zero i)
  | cons cp rest ih =>
    intro k w hinv
    obtain ⟨s1, inv1, r1, p1⟩ := nextCodePointMatcher_spec cap bs k w cp hbs hinv
    obtain ⟨s2, p2, r2⟩ := ih (k + 1) (w.nextCodePointMatcher cp).2 inv1
    refine ⟨?_, ?_, ?_⟩
    · show (w.nextCodePointMatcher cp).1 :: ((w.nextCodePointMatcher cp).2.issueAll rest).1 = _
      rw [s1, s2]
      rfl
    · intro i hi
      show ((w.nextCodePointMatcher cp).2.issueAll rest).2.read (slotOf cap bs i) = _
      rw [p2 i (Nat.lt_succ_of_lt hi), p1 i hi]
    · intro i hi
      show ((w.nextCodePointMatcher cp).2.issueAll rest).2.read (slotOf cap bs (k + i)) = _
      cases i with
      | zero =>
        rw [Nat.add_zero, p2 k (Nat.lt_succ_self k), r1]
        simp
      | succ j =>
        have hj : j < rest.length := Nat.lt_of_succ_lt_succ hi
        have hidx : k + (j + 1) = k + 1 + j := by omega
        rw [hidx, r2 j hj]
        simp

theorem poolInvariant_fresh (cap bs : Nat) (hbs : 0 < bs) (ign : Option IgnorablesMatcher) :
    poolInvariant cap bs 0 (AffixTokenMatcherWarehouse.fresh cap bs ign) := by
  refine ⟨rfl, rfl, rfl, ?_, ?_, ?_, ?_⟩
  · show (List.replicate cap (none : Option Int)).length = cap
    exact List.length_replicate _ _
  · intro b hb
    cases hb
  · show 0 - cap ≤ ([] : List (List (Option Int))).length * bs
    simp
  · show ([] : List (List (Option Int))).length * bs < 0 - cap + bs
    simp
    exact hbs

/-- C19 (matcher-pool stability).  For every sequence of code points passed
to successive `nextCodePointMatcher` calls on a fresh pool, for any inline
capacity and any positive batch size: the calls return pairwise distinct
slots, the `i`-th being inline slot `i` below the inline capacity and
otherwise batch `(i - capacity) div batchSize` at offset `(i - capacity) mod
batchSize`; and after any number `m` of the calls the slot returned by the
`i`-th call (`i < m`) holds the `i`-th code point, so no call overwrites a
slot issued before it, before or after a batch is added. -/
theorem pool_stability (cap bs : Nat) (hbs : 0 < bs) (ign : Option IgnorablesMatcher)
    (cps : List Int) :
    ((AffixTokenMatcherWarehouse.fresh cap bs ign).issueAll cps).1
      = (List.range cps.length).map (slotOf cap bs) ∧
    ((AffixTokenMatcherWarehouse.fresh cap bs ign).issueAll cps).1.Nodup ∧
    ∀ m i, i < m → m ≤ cps.length →
      ((AffixTokenMatcherWarehouse.fresh cap bs ign).issueAll (cps.take m)).2.read
        (slotOf cap bs i) = cps[i]? := by
  have hslots := (issueAll_spec cap bs hbs cps 0 _ (poolInvariant_fresh cap bs hbs ign)).1
  rw [← List.range_eq_range'] at hslots
  refine ⟨hslots, ?_, ?_⟩
  · rw [hslots]
    exact (List.nodup_range _).map (slotOf_injective cap bs)
  · intro m i hi hm
    have hlen : (cps.take m).length = m := by
      rw [List.length_take]
      exact Nat.min_eq_left hm
    have hread := (issueAll_spec cap bs hbs (cps.take m) 0 _
      (poolInvariant_fresh cap bs hbs ign)).2.2 i (by rw [hlen]; exact hi)
    rw [Nat.zero_add, List.getElem?_take, if_pos hi] at hread
    exact hread

set_option maxRecDepth 100000 in
/-- C19, at an inline capacity of 2 and batches of 3, with nine code points:
the slots run through the inline array and three batches. -/
theorem pool_stability_witness :
    0 < 3 ∧
    ((AffixTokenMatcherWarehouse.fresh 2 3 none).issueAll
        [0x61, 0x62, 0x63, 0x64, 0x65, 0x66, 0x67, 0x68, 0x69]).1
      = [CodePointSlot.inline 0, CodePointSlot.inline 1, CodePointSlot.overflow 0 0,
         CodePointSlot.overflow 0 1, CodePointSlot.overflow 0 2, CodePointSlot.overflow 1 0,
         CodePointSlot.overflow 1 1, CodePointSlot.overflow 1 2, CodePointSlot.overflow 2 0] ∧
    ((AffixTokenMatcherWarehouse.fresh 2 3 none).issueAll
        [0x61, 0x62, 0x63, 0x64, 0x65, 0x66, 0x67, 0x68, 0x69]).2.read
      (CodePointSlot.overflow 0 0) = some 0x63 :=
  ⟨by decide,
    (pool_stability 2 3 (by decide) none
      [0x61, 0x62, 0x63, 0x64, 0x65, 0x66, 0x67, 0x68, 0x69]).1.trans (by decide),
    (pool_stability 2 3 (by decide) none
      [0x61, 0x62, 0x63, 0x64, 0x65, 0x66, 0x67, 0x68, 0x69]).2.2 9 2 (by decide) (by decide)⟩

/-! ## The default currency forms -/

/-- C20 (default currency info).  `CurrencyAffixInfo::set` called with a
success status and a `NULL` currency sets the symbol form to one U+00A4, the
ISO form to two U+00A4 and the long form to three U+00A4 for every plural
category, leaves the status as it was, and `isDefault()` returns true
afterwards; the same holds of the object the default constructor builds; and
`set` called with a failure status changes nothing, whatever the currency. -/
theorem set_default (self : CurrencyAffixInfo) (data : CurrencyData) (locale : List Nat)
    (currency : Option (List Nat)) (status : UErrorCode) :
    (U_FAILURE status = false →
      (self.set data locale none status).1.fSymbol = [0xA4] ∧
      (self.set data locale none status).1.fISO = [0xA4, 0xA4] ∧
      (∀ c, ((self.set data locale none status).1.fLong.getByCategory c).fAffix
        = [0xA4, 0xA4, 0xA4]) ∧
      (self.set data locale none status).1.isDefault = true ∧
      (self.set data locale none status).2 = status) ∧
    (U_FAILURE status = true → self.set data locale currency status = (self, status)) ∧
    (defaultCurrencyAffixInfo.fSymbol = [0xA4] ∧
      defaultCurrencyAffixInfo.fISO = [0xA4, 0xA4] ∧
      (∀ c, (defaultCurrencyAffixInfo.fLong.getByCategory c).fAffix = [0xA4, 0xA4, 0xA4]) ∧
      defaultCurrencyAffixInfo.isDefault = true) := by
  refine ⟨?_, ?_, ?_⟩
  · intro h
    unfold CurrencyAffixInfo.set
    rw [h]
    refine ⟨rfl, rfl, ?_, ?_, rfl⟩
    · intro c
      cases c <;> rfl
    · rfl
  · intro h
    unfold CurrencyAffixInfo.set
    rw [h]
    rfl
  · refine ⟨rfl, rfl, ?_, ?_⟩
    · intro c
      cases c <;> rfl
    · decide

/-! ## The matcher compiler -/

/-- C22 (`AffixPatternMatcher::fromAffixPattern`).  `*success` is false iff the
pattern is empty, and then the returned matcher is empty and the pool is as
it was; for every non-empty pattern `*success` is true and `getPattern()` of
the returned matcher is the pattern.  At the pattern of one space, which is
ignorable, the compiled matcher list has length 0 and the call still succeeds
with that pattern. -/
theorem fromAffixPattern_empty_iff (utils : AffixUtils AffixPatternProvider)
    (affixPattern : List Nat) (warehouse : AffixTokenMatcherWarehouse) (parseFlags : Nat) :
    ((AffixPatternMatcher.fromAffixPattern utils affixPattern warehouse parseFlags).2.1 = false ↔
      affixPattern = []) ∧
    (affixPattern = [] →
      (AffixPatternMatcher.fromAffixPattern utils affixPattern warehouse parseFlags).1
          = { fMatchers := [], fPattern := [] } ∧
      (AffixPatternMatcher.fromAffixPattern utils affixPattern warehouse parseFlags).2.2
          = warehouse) ∧
    (affixPattern ≠ [] →
      (AffixPatternMatcher.fromAffixPattern utils affixPattern warehouse parseFlags).2.1 = true ∧
      (AffixPatternMatcher.fromAffixPattern utils affixPattern warehouse parseFlags).1.getPattern
          = affixPattern) ∧
    ((AffixPatternMatcher.fromAffixPattern sampleUtils [0x20] samplePool 0).2.1 = true ∧
      (AffixPatternMatcher.fromAffixPattern sampleUtils [0x20] samplePool 0).1.fMatchers = [] ∧
      (AffixPatternMatcher.fromAffixPattern sampleUtils [0x20] samplePool 0).1.getPattern
          = [0x20]) := by
  refine ⟨?_, ?_, ?_, ?_⟩
  · rw [fromAffixPattern_success]
    cases affixPattern <;> simp
  · intro h
    subst h
    exact ⟨rfl, rfl⟩
  · intro h
    refine ⟨?_, fromAffixPattern_pattern utils affixPattern warehouse parseFlags⟩
    rw [fromAffixPattern_success]
    cases affixPattern with
    | nil => exact absurd rfl h
    | cons x xs => rfl
  · decide

/-- C24, as stated, fails at the pattern `ab` compiled with the ignorables
matcher of the pool: the two tokens are literal code points, neither
ignorable, and the matcher list is the code-point matcher of `a`, the
ignorables matcher, and the code-point matcher of `b`.  The guard of
`consumeToken` adds the ignorables matcher whenever the last token is not an
ignorable code point, also when it is a literal. -/
theorem ignorables_between_two_literals :
    sampleUtils.iterateWithConsumer [0x61, 0x62]
      = [(TYPE_CODEPOINT, 0x61), (TYPE_CODEPOINT, 0x62)] ∧
    sampleIgnorables.contains 0x61 = false ∧ sampleIgnorables.contains 0x62 = false ∧
    ((AffixPatternMatcherBuilder.initial [0x61, 0x62] samplePool (some sampleIgnorables)).consumeAll
        [(TYPE_CODEPOINT, 0x61), (TYPE_CODEPOINT, 0x62)]).fMatchers
      = [NumberParseMatcherRef.codePoint (CodePointSlot.inline 0),
         NumberParseMatcherRef.ignorables,
         NumberParseMatcherRef.codePoint (CodePointSlot.inline 1)] ∧
    (AffixPatternMatcher.fromAffixPattern sampleUtils [0x61, 0x62] samplePool 0).1.fMatchers
      = [NumberParseMatcherRef.codePoint (CodePointSlot.inline 0),
         NumberParseMatcherRef.ignorables,
         NumberParseMatcherRef.codePoint (CodePointSlot.inline 1)] := by
  decide

theorem addIgnorables_some (b : AffixPatternMatcherBuilder) (ign : IgnorablesMatcher)
    (hi : b.fIgnorables = some ign) :
    b.addIgnorables.fIgnorables = some ign ∧
    b.addIgnorables.fWarehouse = b.fWarehouse ∧
    b.addIgnorables.fMatchers = b.fMatchers ++
      (if 0 < b.fMatchers.length ∧ (b.fLastTypeOrCp < 0 ∨ ign.contains b.fLastTypeOrCp = false)
        then [NumberParseMatcherRef.ignorables] else []) := by
  unfold AffixPatternMatcherBuilder.addIgnorables
  rw [hi]
  simp only [gt_iff_lt]
  split_ifs with h
  · exact ⟨hi, rfl, rfl⟩
  · refine ⟨hi, rfl, ?_⟩
    rw [List.append_nil]

theorem addTokenMatcher_symbol (b : AffixPatternMatcherBuilder) (type cp : Int)
    (ht : type ≠ TYPE_CODEPOINT) (hv : isAffixPatternToken (type, cp) = true) :
    (b.addTokenMatcher type cp).fMatchers = b.fMatchers ++ [symbolMatcher type] ∧
    (b.addTokenMatcher type cp).fWarehouse = b.fWarehouse ∧
    (b.addTokenMatcher type cp).fIgnorables = b.fIgnorables := by
  have hrange : TYPE_CURRENCY_QUINT ≤ type ∧ type ≤ TYPE_MINUS_SIGN := by
    unfold isAffixPatternToken at hv
    simp only [Bool.or_eq_true, Bool.and_eq_true, decide_eq_true_eq] at hv
    rcases hv with h | h
    · exact absurd h.1 ht
    · exact h
  unfold AffixPatternMatcherBuilder.addTokenMatcher symbolMatcher
  rw [if_pos ht]
  unfold TYPE_CURRENCY_QUINT TYPE_MINUS_SIGN at hrange
  unfold TYPE_MINUS_SIGN TYPE_PLUS_SIGN TYPE_PERCENT TYPE_PERMILLE TYPE_CURRENCY_SINGLE
    TYPE_CURRENCY_DOUBLE TYPE_CURRENCY_TRIPLE TYPE_CURRENCY_QUAD TYPE_CURRENCY_QUINT
  split_ifs with h1 h2 h3 h4 h5
  · exact ⟨rfl, rfl, rfl⟩
  · exact ⟨rfl, rfl, rfl⟩
  · exact ⟨rfl, rfl, rfl⟩
  · exact ⟨rfl, rfl, rfl⟩
  · exact ⟨rfl, rfl, rfl⟩
  · exfalso
    omega

theorem symbolMatcher_ne_ignorables (type : Int) :
    symbolMatcher type ≠ NumberParseMatcherRef.ignorables ∧
      (symbolMatcher type).isCodePoint = false := by
  unfold symbolMatcher
  split_ifs <;> exact ⟨by simp, rfl⟩

theorem addTokenMatcher_ignorable (b : AffixPatternMatcherBuilder) (ign : IgnorablesMatcher)
    (cp : Int) (hi : b.fIgnorables = some ign) (hc : ign.contains cp = true) :
    b.addTokenMatcher TYPE_CODEPOINT cp = b := by
  unfold AffixPatternMatcherBuilder.addTokenMatcher
  rw [if_neg (by simp), hi]
  simp only [hc, if_true]

theorem addTokenMatcher_literal (b : AffixPatternMatcherBuilder) (cp : Int)
    (hi : ∀ ign, b.fIgnorables = some ign → ign.contains cp = false) :
    (b.addTokenMatcher TYPE_CODEPOINT cp).fMatchers = b.fMatchers ++
      [NumberParseMatcherRef.codePoint (b.fWarehouse.nextCodePointMatcher cp).1] ∧
    (b.addTokenMatcher TYPE_CODEPOINT cp).fWarehouse = (b.fWarehouse.nextCodePointMatcher cp).2 ∧
    (b.addTokenMatcher TYPE_CODEPOINT cp).fIgnorables = b.fIgnorables := by
  unfold AffixPatternMatcherBuilder.addTokenMatcher
  rw [if_neg (by simp)]
  cases hig : b.fIgnorables with
  | none => exact ⟨rfl, rfl, hig⟩
  | some ign =>
    simp only [hi ign hig, Bool.false_eq_true, if_false]
    simp [AffixPatternMatcherBuilder.addMatcher, hig]

theorem alternation_append (l : List NumberParseMatcherRef) (x : NumberParseMatcherRef)
    (hl : ∀ i m, l[i]? = some m → (m = NumberParseMatcherRef.ignorables ↔ i % 2 = 1))
    (hx : x = NumberParseMatcherRef.ignorables ↔ l.length % 2 = 1) :
    ∀ i m, (l ++ [x])[i]? = some m → (m = NumberParseMatcherRef.ignorables ↔ i % 2 = 1) := by
  intro i m h
  by_cases hi : i < l.length
  · rw [List.getElem?_append_left hi] at h
    exact hl i m h
  · rw [List.getElem?_append_right (by omega)] at h
    have hidx : i - l.length = 0 := by
      by_contra hne
      have : ([x] : List NumberParseMatcherRef)[i - l.length]? = none := by
        apply List.getElem?_eq_none
        simp
        omega
      rw [this] at h
      cases h
    rw [hidx] at h
    simp only [List.getElem?_cons_zero, Option.some.injEq] at h
    have hil : i = l.length := by omega
    rw [← h, hil]
    exact hx

theorem addIgnorables_alternation (ign : IgnorablesMatcher) (b : AffixPatternMatcherBuilder)
    (hinv : alternationInvariant ign b) :
    (∀ i m, b.addIgnorables.fMatchers[i]? = some m →
      (m = NumberParseMatcherRef.ignorables ↔ i % 2 = 1)) ∧
    b.addIgnorables.fMatchers.length % 2 = 0 := by
  obtain ⟨hi, halt, hodd, heven⟩ := hinv
  obtain ⟨-, -, hm⟩ := addIgnorables_some b ign hi
  rw [hm]
  by_cases hpar : b.fMatchers.length % 2 = 1
  · have hcond : 0 < b.fMatchers.length ∧
        (b.fLastTypeOrCp < 0 ∨ ign.contains b.fLastTypeOrCp = false) :=
      ⟨by omega, hodd hpar⟩
    rw [if_pos hcond]
    refine ⟨alternation_append _ _ halt (by simp [hpar]), ?_⟩
    rw [List.length_append, List.length_singleton]
    omega
  · have hcond : ¬ (0 < b.fMatchers.length ∧
        (b.fLastTypeOrCp < 0 ∨ ign.contains b.fLastTypeOrCp = false)) := by
      rintro ⟨hpos, hlast⟩
      have h := heven (by omega) hpos
      rcases hlast with hl | hl
      · omega
      · rw [h.2] at hl
        cases hl
    rw [if_neg hcond, List.append_nil]
    exact ⟨halt, by omega⟩

theorem consumeToken_alternation (ign : IgnorablesMatcher) (b : AffixPatternMatcherBuilder)
    (type cp : Int) (hv : isAffixPatternToken (type, cp) = true)
    (hinv : alternationInvariant ign b) :
    alternationInvariant ign (b.consumeToken type cp) := by
  obtain ⟨halt, hlen⟩ := addIgnorables_alternation ign b hinv
  obtain ⟨higb, -, -⟩ := addIgnorables_some b ign hinv.1
  unfold AffixPatternMatcherBuilder.consumeToken
  by_cases ht : type = TYPE_CODEPOINT
  · subst ht
    have hcp : 0 ≤ cp := by
      unfold isAffixPatternToken at hv
      simp only [Bool.or_eq_true, Bool.and_eq_true, decide_eq_true_eq] at hv
      rcases hv with h | h
      · exact h.2
      · exact absurd h.2 (by decide)
    cases hc : ign.contains cp with
    | true =>
      rw [addTokenMatcher_ignorable _ ign cp higb hc]
      refine ⟨higb, halt, ?_, ?_⟩
      · intro h
        exact absurd h (by show ¬ b.addIgnorables.fMatchers.length % 2 = 1; omega)
      · intro _ _
        exact ⟨by simpa using hcp, by simpa using hc⟩
    | false =>
      obtain ⟨hm, -, hig⟩ := addTokenMatcher_literal b.addIgnorables cp (by
        intro ign2 h2
        rw [higb] at h2
        injection h2 with h2
        rw [← h2]
        exact hc)
      refine ⟨by rw [← higb, ← hig], ?_, ?_, ?_⟩
      · show ∀ i m, (b.addIgnorables.addTokenMatcher TYPE_CODEPOINT cp).fMatchers[i]? = some m → _
        rw [hm]
        exact alternation_append _ _ halt (by simp; omega)
      · intro _
        right
        simpa using hc
      · intro h
        exfalso
        have : (b.addIgnorables.addTokenMatcher TYPE_CODEPOINT cp).fMatchers.length % 2 = 0 := h
        rw [hm, List.length_append, List.length_singleton] at this
        omega
  · obtain ⟨hm, -, hig⟩ := addTokenMatcher_symbol b.addIgnorables type cp ht hv
    have hneg : type < 0 := by
      unfold isAffixPatternToken at hv
      simp only [Bool.or_eq_true, Bool.and_eq_true, decide_eq_true_eq] at hv
      rcases hv with h | h
      · exact absurd h.1 ht
      · have := h.2
        unfold TYPE_MINUS_SIGN at this
        omega
    refine ⟨by rw [← higb, ← hig], ?_, ?_, ?_⟩
    · show ∀ i m, (b.addIgnorables.addTokenMatcher type cp).fMatchers[i]? = some m → _
      rw [hm]
      exact alternation_append _ _ halt
        (by simp [(symbolMatcher_ne_ignorables type).1]; omega)
    · intro _
      left
      simpa [ht] using hneg
    · intro h
      exfalso
      have : (b.addIgnorables.addTokenMatcher type cp).fMatchers.length % 2 = 0 := h
      rw [hm, List.length_append, List.length_singleton] at this
      omega

theorem consumeAll_alternation (ign : IgnorablesMatcher) (toks : List (Int × Int))
    (hv : ∀ tok ∈ toks, isAffixPatternToken tok = true) :
    ∀ b : AffixPatternMatcherBuilder, alternationInvariant ign b →
      alternationInvariant ign (b.consumeAll toks) := by
  induction toks with
  | nil =>
    intro b hb
    exact hb
  | cons tok rest ih =>
    intro b hb
    show alternationInvariant ign ((b.consumeToken tok.1 tok.2).consumeAll rest)
    exact ih (fun t ht => hv t (List.mem_cons_of_mem _ ht)) _
      (consumeToken_alternation ign b tok.1 tok.2 (hv tok (List.mem_cons_self _ _)) hb)

theorem chain_of_alternation (l : List NumberParseMatcherRef) :
    ∀ k : Nat, (∀ i m, l[i]? = some m →
        (m = NumberParseMatcherRef.ignorables ↔ (i + k) % 2 = 1)) →
      List.Chain' (fun a b => (a = NumberParseMatcherRef.ignorables ↔
        ¬ b = NumberParseMatcherRef.ignorables)) l := by
  induction l with
  | nil =>
    intro _ _
    exact List.chain'_nil
  | cons a rest ih =>
    intro k h
    cases rest with
    | nil => exact List.chain'_singleton a
    | cons b rest2 =>
      rw [List.chain'_cons]
      constructor
      · have ha := h 0 a (by simp)
        have hb := h 1 b (by simp)
        rw [ha, hb]
        omega
      · apply ih (k + 1)
        intro i m hm
        have := h (i + 1) m (by simpa using hm)
        rw [this]
        omega

theorem consumeToken_codePoints (ign : IgnorablesMatcher) (b : AffixPatternMatcherBuilder)
    (type cp : Int) (hv : isAffixPatternToken (type, cp) = true)
    (hi : b.fIgnorables = some ign) :
    ((b.consumeToken type cp).fMatchers.filter NumberParseMatcherRef.isCodePoint).length =
      (b.fMatchers.filter NumberParseMatcherRef.isCodePoint).length +
        (if type = TYPE_CODEPOINT ∧ ign.contains cp = false then 1 else 0) ∧
    (b.consumeToken type cp).fIgnorables = some ign := by
  obtain ⟨higb, -, hpre⟩ := addIgnorables_some b ign hi
  have hfil : (b.addIgnorables.fMatchers.filter NumberParseMatcherRef.isCodePoint)
      = b.fMatchers.filter NumberParseMatcherRef.isCodePoint := by
    rw [hpre, List.filter_append]
    split_ifs
    · simp [NumberParseMatcherRef.isCodePoint]
    · simp
  unfold AffixPatternMatcherBuilder.consumeToken
  by_cases ht : type = TYPE_CODEPOINT
  · subst ht
    cases hc : ign.contains cp with
    | true =>
      rw [addTokenMatcher_ignorable _ ign cp higb hc]
      refine ⟨?_, higb⟩
      show (b.addIgnorables.fMatchers.filter NumberParseMatcherRef.isCodePoint).length = _
      rw [hfil]
      simp
    | false =>
      obtain ⟨hm, -, hig⟩ := addTokenMatcher_literal b.addIgnorables cp (by
        intro ign2 h2
        rw [higb] at h2
        injection h2 with h2
        rw [← h2]
        exact hc)
      refine ⟨?_, by rw [← higb, ← hig]⟩
      show ((b.addIgnorables.addTokenMatcher TYPE_CODEPOINT cp).fMatchers.filter
        NumberParseMatcherRef.isCodePoint).length = _
      rw [hm, List.filter_append, hfil]
      simp [NumberParseMatcherRef.isCodePoint]
  · obtain ⟨hm, -, hig⟩ := addTokenMatcher_symbol b.addIgnorables type cp ht hv
    refine ⟨?_, by rw [← higb, ← hig]⟩
    show ((b.addIgnorables.addTokenMatcher type cp).fMatchers.filter
      NumberParseMatcherRef.isCodePoint).length = _
    rw [hm, List.filter_append, hfil]
    simp [(symbolMatcher_ne_ignorables type).2, ht]

theorem consumeAll_codePoints (ign : IgnorablesMatcher) (toks : List (Int × Int))
    (hv : ∀ tok ∈ toks, isAffixPatternToken tok = true) :
    ∀ b : AffixPatternMatcherBuilder, b.fIgnorables = some ign →
      ((b.consumeAll toks).fMatchers.filter NumberParseMatcherRef.isCodePoint).length =
        (b.fMatchers.filter NumberParseMatcherRef.isCodePoint).length +
          (toks.filter (fun tok =>
            decide (tok.1 = TYPE_CODEPOINT) && !ign.contains tok.2)).length := by
  induction toks with
  | nil =>
    intro b _
    rfl
  | cons tok rest ih =>
    intro b hb
    obtain ⟨h1, h2⟩ := consumeToken_codePoints ign b tok.1 tok.2
      (hv tok (List.mem_cons_self _ _)) hb
    show (((b.consumeToken tok.1 tok.2).consumeAll rest).fMatchers.filter
      NumberParseMatcherRef.isCodePoint).length = _
    rw [ih (fun t ht => hv t (List.mem_cons_of_mem _ ht)) _ h2, h1, List.filter_cons]
    by_cases hc : tok.1 = TYPE_CODEPOINT ∧ ign.contains tok.2 = false
    · simp [hc.1, hc.2]
      omega
    · rw [if_neg hc]
      have : (decide (tok.1 = TYPE_CODEPOINT) && !ign.contains tok.2) = false := by
        by_cases h1 : tok.1 = TYPE_CODEPOINT
        · have : ign.contains tok.2 = true := by
            cases h : ign.contains tok.2
            · exact absurd ⟨h1, h⟩ hc
            · rfl
          simp [this]
        · simp [h1]
      simp [this]

/-- C23 (ignorable insertion).  For every stream of tokens fed to
`consumeToken` on a fresh builder with a non-null ignorables matcher, the
matcher list has the ignorables matcher exactly at its odd places: it never
starts with the ignorables matcher, no two ignorables matchers are adjacent,
and no two other matchers are adjacent, so consecutive symbol or code-point
matchers are separated by exactly one ignorables matcher.  The code-point
matchers are as many as the literal tokens that are not ignorable: an
ignorable literal adds no code-point matcher. -/
theorem ignorables_inserted (ign : IgnorablesMatcher) (pattern : List Nat)
    (warehouse : AffixTokenMatcherWarehouse) (toks : List (Int × Int))
    (hv : ∀ tok ∈ toks, isAffixPatternToken tok = true) :
    (∀ i m,
      ((AffixPatternMatcherBuilder.initial pattern warehouse (some ign)).consumeAll
        toks).fMatchers[i]? = some m →
      (m = NumberParseMatcherRef.ignorables ↔ i % 2 = 1)) ∧
    ((AffixPatternMatcherBuilder.initial pattern warehouse (some ign)).consumeAll
      toks).fMatchers.head? ≠ some NumberParseMatcherRef.ignorables ∧
    List.Chain' (fun a b => ¬ (a = NumberParseMatcherRef.ignorables ∧
        b = NumberParseMatcherRef.ignorables))
      ((AffixPatternMatcherBuilder.initial pattern warehouse (some ign)).consumeAll
        toks).fMatchers ∧
    List.Chain' (fun a b => ¬ (a ≠ NumberParseMatcherRef.ignorables ∧
        b ≠ NumberParseMatcherRef.ignorables))
      ((AffixPatternMatcherBuilder.initial pattern warehouse (some ign)).consumeAll
        toks).fMatchers ∧
    (((AffixPatternMatcherBuilder.initial pattern warehouse (some ign)).consumeAll
        toks).fMatchers.filter NumberParseMatcherRef.isCodePoint).length =
      (toks.filter (fun tok => decide (tok.1 = TYPE_CODEPOINT) && !ign.contains tok.2)).length := by
  have hinit : alternationInvariant ign
      (AffixPatternMatcherBuilder.initial pattern warehouse (some ign)) := by
    refine ⟨rfl, ?_, ?_, ?_⟩
    · intro i m h
      simp [AffixPatternMatcherBuilder.initial] at h
    · intro h
      simp [AffixPatternMatcherBuilder.initial] at h
    · intro _ h
      simp [AffixPatternMatcherBuilder.initial] at h
  have hinv := consumeAll_alternation ign toks hv _ hinit
  have hchain := chain_of_alternation _ 0 (by simpa using hinv.2.1)
  refine ⟨hinv.2.1, ?_, ?_, ?_, ?_⟩
  · intro hhead
    have h0 : ((AffixPatternMatcherBuilder.initial pattern warehouse (some ign)).consumeAll
        toks).fMatchers[0]? = some NumberParseMatcherRef.ignorables := by
      rw [← hhead]
      cases ((AffixPatternMatcherBuilder.initial pattern warehouse (some ign)).consumeAll
        toks).fMatchers <;> simp
    have := (hinv.2.1 0 _ h0).mp rfl
    omega
  · refine List.Chain'.imp ?_ hchain
    intro a b hab h
    exact (hab.mp h.1) h.2
  · refine List.Chain'.imp ?_ hchain
    intro a b hab h
    exact h.1 (hab.mpr h.2)
  · have := consumeAll_codePoints ign toks hv _ (rfl :
      (AffixPatternMatcherBuilder.initial pattern warehouse (some ign)).fIgnorables = some ign)
    rw [this]
    simp [AffixPatternMatcherBuilder.initial]

/-- C23, at the tokens of `a`, a space, `b`, a minus sign and a space: the
list is the matcher of `a`, ignorables, the matcher of `b`, ignorables, the
minus-sign matcher, ignorables. -/
theorem ignorables_inserted_witness :
    (∀ tok ∈ [(TYPE_CODEPOINT, (0x61 : Int)), (TYPE_CODEPOINT, 0x20), (TYPE_CODEPOINT, 0x62),
        (TYPE_MINUS_SIGN, 0), (TYPE_CODEPOINT, 0x20)], isAffixPatternToken tok = true) ∧
    ((AffixPatternMatcherBuilder.initial [] samplePool (some sampleIgnorables)).consumeAll
        [(TYPE_CODEPOINT, 0x61), (TYPE_CODEPOINT, 0x20), (TYPE_CODEPOINT, 0x62),
          (TYPE_MINUS_SIGN, 0), (TYPE_CODEPOINT, 0x20)]).fMatchers
      = [NumberParseMatcherRef.codePoint (CodePointSlot.inline 0),
         NumberParseMatcherRef.ignorables,
         NumberParseMatcherRef.codePoint (CodePointSlot.inline 1),
         NumberParseMatcherRef.ignorables,
         NumberParseMatcherRef.minusSign,
         NumberParseMatcherRef.ignorables] ∧
    ((AffixPatternMatcherBuilder.initial [] samplePool (some sampleIgnorables)).consumeAll
        [(TYPE_CODEPOINT, 0x61), (TYPE_CODEPOINT, 0x20), (TYPE_CODEPOINT, 0x62),
          (TYPE_MINUS_SIGN, 0), (TYPE_CODEPOINT, 0x20)]).fMatchers.head?
      ≠ some NumberParseMatcherRef.ignorables :=
  ⟨by decide, by decide,
    (ignorables_inserted sampleIgnorables [] samplePool
      [(TYPE_CODEPOINT, 0x61), (TYPE_CODEPOINT, 0x20), (TYPE_CODEPOINT, 0x62),
        (TYPE_MINUS_SIGN, 0), (TYPE_CODEPOINT, 0x20)] (by decide)).2.1⟩

theorem addIgnorables_none (b : AffixPatternMatcherBuilder) (hi : b.fIgnorables = none) :
    b.addIgnorables = b := by
  unfold AffixPatternMatcherBuilder.addIgnorables
  rw [hi]

theorem consumeAll_append (l1 l2 : List (Int × Int)) (b : AffixPatternMatcherBuilder) :
    b.consumeAll (l1 ++ l2) = (b.consumeAll l1).consumeAll l2 := by
  induction l1 generalizing b with
  | nil => rfl
  | cons tok rest ih => exact ih (b.consumeToken tok.1 tok.2)

theorem addIgnorables_extends (b : AffixPatternMatcherBuilder) :
    b.addIgnorables.fIgnorables = b.fIgnorables ∧
      b.fMatchers <+: b.addIgnorables.fMatchers := by
  unfold AffixPatternMatcherBuilder.addIgnorables
  cases hi : b.fIgnorables with
  | none => exact ⟨hi, List.prefix_refl _⟩
  | some ign =>
    simp only
    split_ifs
    · exact ⟨hi, List.prefix_append _ _⟩
    · exact ⟨hi, List.prefix_refl _⟩

theorem addTokenMatcher_extends (b : AffixPatternMatcherBuilder) (type cp : Int) :
    (b.addTokenMatcher type cp).fIgnorables = b.fIgnorables ∧
      b.fMatchers <+: (b.addTokenMatcher type cp).fMatchers := by
  unfold AffixPatternMatcherBuilder.addTokenMatcher
  split_ifs
  · exact ⟨rfl, List.prefix_append _ _⟩
  · exact ⟨rfl, List.prefix_append _ _⟩
  · exact ⟨rfl, List.prefix_append _ _⟩
  · exact ⟨rfl, List.prefix_append _ _⟩
  · exact ⟨rfl, List.prefix_append _ _⟩
  · exact ⟨rfl, List.prefix_refl _⟩
  · cases hi : b.fIgnorables with
    | none => exact ⟨hi, List.prefix_append _ _⟩
    | some ign =>
      simp only
      split_ifs
      · exact ⟨hi, List.prefix_refl _⟩
      · exact ⟨hi, List.prefix_append _ _⟩

theorem consumeToken_extends (b : AffixPatternMatcherBuilder) (type cp : Int) :
    (b.consumeToken type cp).fIgnorables = b.fIgnorables ∧
      b.fMatchers <+: (b.consumeToken type cp).fMatchers := by
  obtain ⟨h1, h2⟩ := addIgnorables_extends b
  obtain ⟨h3, h4⟩ := addTokenMatcher_extends b.addIgnorables type cp
  exact ⟨h3.trans h1, h2.trans h4⟩

theorem consumeAll_extends (toks : List (Int × Int)) (b : AffixPatternMatcherBuilder) :
    (b.consumeAll toks).fIgnorables = b.fIgnorables ∧
      b.fMatchers <+: (b.consumeAll toks).fMatchers := by
  induction toks generalizing b with
  | nil => exact ⟨rfl, List.prefix_refl _⟩
  | cons tok rest ih =>
    obtain ⟨h1, h2⟩ := consumeToken_extends b tok.1 tok.2
    obtain ⟨h3, h4⟩ := ih (b.consumeToken tok.1 tok.2)
    exact ⟨h3.trans h1, h2.trans h4⟩

/-- One call of `consumeToken` for a literal code point on a builder with a
non-null ignorables matcher: the matcher of the guard, then the code-point
matcher when the code point is not ignorable; the literal is remembered in
`fLastTypeOrCp`. -/
theorem consumeToken_literal_some (b : AffixPatternMatcherBuilder) (ign : IgnorablesMatcher)
    (cp : Int) (hi : b.fIgnorables = some ign) :
    (b.consumeToken TYPE_CODEPOINT cp).fMatchers = b.fMatchers ++
      (if 0 < b.fMatchers.length ∧ (b.fLastTypeOrCp < 0 ∨ ign.contains b.fLastTypeOrCp = false)
        then [NumberParseMatcherRef.ignorables] else []) ++
      (if ign.contains cp then []
        else [NumberParseMatcherRef.codePoint (b.fWarehouse.nextCodePointMatcher cp).1]) ∧
    (b.consumeToken TYPE_CODEPOINT cp).fLastTypeOrCp = cp := by
  obtain ⟨h1, h2, h3⟩ := addIgnorables_some b ign hi
  refine ⟨?_, ?_⟩
  · show (b.addIgnorables.addTokenMatcher TYPE_CODEPOINT cp).fMatchers = _
    cases hc : ign.contains cp with
    | true =>
      rw [addTokenMatcher_ignorable b.addIgnorables ign cp h1 hc, h3]
      simp
    | false =>
      have hlit := (addTokenMatcher_literal b.addIgnorables cp (by
        intro ign2 hi2
        rw [h1] at hi2
        cases hi2
        exact hc)).1
      rw [hlit, h3, h2]
      simp
  · show (if TYPE_CODEPOINT ≠ TYPE_CODEPOINT then TYPE_CODEPOINT else cp) = cp
    rw [if_neg (by simp)]

/-- C24, amended.  For every builder state reached on a token stream, when
the next two tokens are literal code points `a` and `c` (`a` not negative):
with a non-null ignorables matcher, the call for `c` places the ignorables
matcher after the code-point matcher of `a` when `a` is not ignorable, and
places no ignorables matcher when `a` is ignorable (the call for `a` added no
code-point matcher); with a null ignorables matcher the call for `c` adds the
code-point matcher of `c` only.  In each case the matcher of `c` follows when
`c` is not ignorable, and the later tokens only append to the list. -/
theorem ignorables_after_literal (b0 : AffixPatternMatcherBuilder)
    (pre post : List (Int × Int)) (a c : Int) (ha : 0 ≤ a) :
    (∀ ign, b0.fIgnorables = some ign → ign.contains a = false →
      (b0.consumeAll (pre ++ [(TYPE_CODEPOINT, a)])).fMatchers.getLast? =
        some (NumberParseMatcherRef.codePoint
          ((b0.consumeAll pre).fWarehouse.nextCodePointMatcher a).1) ∧
      (b0.consumeAll (pre ++ [(TYPE_CODEPOINT, a), (TYPE_CODEPOINT, c)])).fMatchers =
        (b0.consumeAll (pre ++ [(TYPE_CODEPOINT, a)])).fMatchers ++
          NumberParseMatcherRef.ignorables ::
            (if ign.contains c then []
              else [NumberParseMatcherRef.codePoint
                ((b0.consumeAll (pre ++ [(TYPE_CODEPOINT, a)])).fWarehouse.nextCodePointMatcher
                  c).1])) ∧
    (∀ ign, b0.fIgnorables = some ign → ign.contains a = true →
      (b0.consumeAll (pre ++ [(TYPE_CODEPOINT, a)])).fMatchers =
        (b0.consumeAll pre).addIgnorables.fMatchers ∧
      (b0.consumeAll (pre ++ [(TYPE_CODEPOINT, a), (TYPE_CODEPOINT, c)])).fMatchers =
        (b0.consumeAll (pre ++ [(TYPE_CODEPOINT, a)])).fMatchers ++
          (if ign.contains c then []
            else [NumberParseMatcherRef.codePoint
              ((b0.consumeAll (pre ++ [(TYPE_CODEPOINT, a)])).fWarehouse.nextCodePointMatcher
                c).1])) ∧
    (b0.fIgnorables = none →
      (b0.consumeAll (pre ++ [(TYPE_CODEPOINT, a), (TYPE_CODEPOINT, c)])).fMatchers =
        (b0.consumeAll pre).fMatchers ++
          [NumberParseMatcherRef.codePoint
            ((b0.consumeAll pre).fWarehouse.nextCodePointMatcher a).1,
           NumberParseMatcherRef.codePoint
            ((b0.consumeAll (pre ++ [(TYPE_CODEPOINT, a)])).fWarehouse.nextCodePointMatcher
              c).1]) ∧
    (b0.consumeAll (pre ++ [(TYPE_CODEPOINT, a), (TYPE_CODEPOINT, c)])).fMatchers <+:
      (b0.consumeAll (pre ++ [(TYPE_CODEPOINT, a), (TYPE_CODEPOINT, c)] ++ post)).fMatchers := by
  have hfirst : b0.consumeAll (pre ++ [(TYPE_CODEPOINT, a)]) =
      (b0.consumeAll pre).consumeToken TYPE_CODEPOINT a := by
    rw [consumeAll_append]
    rfl
  have hsecond : b0.consumeAll (pre ++ [(TYPE_CODEPOINT, a), (TYPE_CODEPOINT, c)]) =
      ((b0.consumeAll pre).consumeToken TYPE_CODEPOINT a).consumeToken TYPE_CODEPOINT c := by
    rw [consumeAll_append]
    rfl
  have hpre := (consumeAll_extends pre b0).1
  refine ⟨?_, ?_, ?_, ?_⟩
  · intro ign hi hca
    rw [hsecond, hfirst]
    generalize b0.consumeAll pre = b at hpre ⊢
    have hb : b.fIgnorables = some ign := hpre.trans hi
    obtain ⟨h1, h2⟩ := consumeToken_literal_some b ign a hb
    have hb1 : (b.consumeToken TYPE_CODEPOINT a).fIgnorables = some ign :=
      (consumeToken_extends b TYPE_CODEPOINT a).1.trans hb
    obtain ⟨h3, -⟩ := consumeToken_literal_some (b.consumeToken TYPE_CODEPOINT a) ign c hb1
    rw [hca] at h1
    simp only [Bool.false_eq_true, if_false] at h1
    refine ⟨?_, ?_⟩
    · rw [h1, List.getLast?_append]
      rfl
    · rw [h3, h2, if_pos ⟨by rw [h1]; simp, Or.inr hca⟩, List.append_assoc]
      rfl
  · intro ign hi hca
    rw [hsecond, hfirst]
    generalize b0.consumeAll pre = b at hpre ⊢
    have hb : b.fIgnorables = some ign := hpre.trans hi
    obtain ⟨h1, h2⟩ := consumeToken_literal_some b ign a hb
    have hb1 : (b.consumeToken TYPE_CODEPOINT a).fIgnorables = some ign :=
      (consumeToken_extends b TYPE_CODEPOINT a).1.trans hb
    obtain ⟨h3, -⟩ := consumeToken_literal_some (b.consumeToken TYPE_CODEPOINT a) ign c hb1
    rw [hca] at h1
    simp only [if_true, List.append_nil] at h1
    refine ⟨?_, ?_⟩
    · rw [h1, (addIgnorables_some b ign hb).2.2]
    · rw [h3, h2, if_neg, List.append_nil]
      intro h
      rcases h.2 with h4 | h4
      · exact absurd ha (not_le.mpr h4)
      · rw [hca] at h4
        exact absurd h4 (by simp)
  · intro hi
    rw [hsecond, hfirst]
    generalize b0.consumeAll pre = b at hpre ⊢
    have hb : b.fIgnorables = none := hpre.trans hi
    have hb1 : (b.consumeToken TYPE_CODEPOINT a).fIgnorables = none :=
      (consumeToken_extends b TYPE_CODEPOINT a).1.trans hb
    have e1 : (b.consumeToken TYPE_CODEPOINT a).fMatchers = b.fMatchers ++
        [NumberParseMatcherRef.codePoint (b.fWarehouse.nextCodePointMatcher a).1] := by
      show (b.addIgnorables.addTokenMatcher TYPE_CODEPOINT a).fMatchers = _
      rw [addIgnorables_none b hb]
      exact (addTokenMatcher_literal b a (by
        intro ign2 hi2
        rw [hb] at hi2
        cases hi2)).1
    have e2 : ((b.consumeToken TYPE_CODEPOINT a).consumeToken TYPE_CODEPOINT c).fMatchers =
        (b.consumeToken TYPE_CODEPOINT a).fMatchers ++
        [NumberParseMatcherRef.codePoint
          ((b.consumeToken TYPE_CODEPOINT a).fWarehouse.nextCodePointMatcher c).1] := by
      show ((b.consumeToken TYPE_CODEPOINT a).addIgnorables.addTokenMatcher
        TYPE_CODEPOINT c).fMatchers = _
      rw [addIgnorables_none _ hb1]
      exact (addTokenMatcher_literal _ c (by
        intro ign2 hi2
        rw [hb1] at hi2
        cases hi2)).1
    rw [e2, e1, List.append_assoc]
    rfl
  · rw [consumeAll_append _ post]
    exact (consumeAll_extends post _).2

/-- C24, amended, after a minus sign and before a percent sign with the
sample ignorables matcher: the literals `a` and `b` are not ignorable and the
call for `b` places the ignorables matcher after the code-point matcher of
`a`. -/
theorem ignorables_after_literal_witness :
    (0 : Int) ≤ 0x61 ∧
    ((AffixPatternMatcherBuilder.initial [] samplePool (some sampleIgnorables)).consumeAll
        ([(TYPE_MINUS_SIGN, 0)] ++ [(TYPE_CODEPOINT, 0x61)])).fMatchers.getLast? =
      some (NumberParseMatcherRef.codePoint
        (((AffixPatternMatcherBuilder.initial [] samplePool (some sampleIgnorables)).consumeAll
          [(TYPE_MINUS_SIGN, 0)]).fWarehouse.nextCodePointMatcher 0x61).1) ∧
    ((AffixPatternMatcherBuilder.initial [] samplePool (some sampleIgnorables)).consumeAll
        ([(TYPE_MINUS_SIGN, 0)] ++ [(TYPE_CODEPOINT, 0x61), (TYPE_CODEPOINT, 0x62)])).fMatchers =
      ((AffixPatternMatcherBuilder.initial [] samplePool (some sampleIgnorables)).consumeAll
        ([(TYPE_MINUS_SIGN, 0)] ++ [(TYPE_CODEPOINT, 0x61)])).fMatchers ++
        NumberParseMatcherRef.ignorables ::
          (if sampleIgnorables.contains 0x62 then []
            else [NumberParseMatcherRef.codePoint
              (((AffixPatternMatcherBuilder.initial [] samplePool
                (some sampleIgnorables)).consumeAll
                  ([(TYPE_MINUS_SIGN, 0)] ++ [(TYPE_CODEPOINT, 0x61)])).fWarehouse.nextCodePointMatcher
                    0x62).1]) :=
  ⟨by decide,
    (ignorables_after_literal
      (AffixPatternMatcherBuilder.initial [] samplePool (some sampleIgnorables))
      [(TYPE_MINUS_SIGN, 0)] [(TYPE_PERCENT, 0)] 0x61 0x62 (by decide)).1
      sampleIgnorables rfl (by decide)⟩

theorem exactMatchers_length (cap bs : Nat) (toks : List (Int × Int)) :
    ∀ k, (exactMatchers cap bs k toks).length = toks.length := by
  induction toks with
  | nil =>
    intro _
    rfl
  | cons tok rest ih =>
    intro k
    unfold exactMatchers
    split_ifs
    · rw [List.length_cons, ih, List.length_cons]
    · rw [List.length_cons, ih, List.length_cons]

theorem consumeAll_exact (cap bs : Nat) (hbs : 0 < bs) (toks : List (Int × Int))
    (hv : ∀ tok ∈ toks, isAffixPatternToken tok = true) :
    ∀ (k : Nat) (b : AffixPatternMatcherBuilder), b.fIgnorables = none →
      poolInvariant cap bs k b.fWarehouse →
      (b.consumeAll toks).fMatchers = b.fMatchers ++ exactMatchers cap bs k toks ∧
      (∀ i, i < k → (b.consumeAll toks).fWarehouse.read (slotOf cap bs i)
        = b.fWarehouse.read (slotOf cap bs i)) ∧
      (∀ j, j < (literalCodePoints toks).length →
        (b.consumeAll toks).fWarehouse.read (slotOf cap bs (k + j))
          = (literalCodePoints toks)[j]?) := by
  induction toks with
  | nil =>
    intro k b _ _
    refine ⟨by simp [AffixPatternMatcherBuilder.consumeAll, exactMatchers], fun _ _ => rfl, ?_⟩
    intro j hj
    simp [literalCodePoints] at hj
  | cons tok rest ih =>
    intro k b hi hinv
    have hvr : ∀ t ∈ rest, isAffixPatternToken t = true :=
      fun t ht => hv t (List.mem_cons_of_mem _ ht)
    have hvt := hv tok (List.mem_cons_self _ _)
    by_cases ht : tok.1 = TYPE_CODEPOINT
    · obtain ⟨hm, hw, hig⟩ := addTokenMatcher_literal b tok.2 (by
        intro ign h
        rw [hi] at h
        cases h)
      obtain ⟨s1, inv1, r1, p1⟩ := nextCodePointMatcher_spec cap bs k b.fWarehouse tok.2 hbs hinv
      have hstep : (b.consumeToken tok.1 tok.2).fMatchers
            = b.fMatchers ++ [NumberParseMatcherRef.codePoint (slotOf cap bs k)] ∧
          (b.consumeToken tok.1 tok.2).fWarehouse = (b.fWarehouse.nextCodePointMatcher tok.2).2 ∧
          (b.consumeToken tok.1 tok.2).fIgnorables = none := by
        unfold AffixPatternMatcherBuilder.consumeToken
        rw [addIgnorables_none b hi, ht]
        refine ⟨?_, hw, ?_⟩
        · show (b.addTokenMatcher TYPE_CODEPOINT tok.2).fMatchers = _
          rw [hm, s1]
        · show (b.addTokenMatcher TYPE_CODEPOINT tok.2).fIgnorables = none
          rw [hig, hi]
      obtain ⟨e1, e2, e3⟩ := ih hvr (k + 1) (b.consumeToken tok.1 tok.2) hstep.2.2
        (by rw [hstep.2.1]; exact inv1)
      have hlits : literalCodePoints (tok :: rest) = tok.2 :: literalCodePoints rest := by
        simp [literalCodePoints, List.filter_cons, ht]
      refine ⟨?_, ?_, ?_⟩
      · show ((b.consumeToken tok.1 tok.2).consumeAll rest).fMatchers = _
        have hx : exactMatchers cap bs k (tok :: rest) =
            NumberParseMatcherRef.codePoint (slotOf cap bs k)
              :: exactMatchers cap bs (k + 1) rest := by
          rw [exactMatchers, if_pos ht]
        rw [e1, hstep.1, hx, List.append_assoc]
        rfl
      · intro i hi2
        show ((b.consumeToken tok.1 tok.2).consumeAll rest).fWarehouse.read _ = _
        rw [e2 i (Nat.lt_succ_of_lt hi2), hstep.2.1, p1 i hi2]
      · intro j hj
        show ((b.consumeToken tok.1 tok.2).consumeAll rest).fWarehouse.read _ = _
        rw [hlits] at hj ⊢
        cases j with
        | zero =>
          rw [Nat.add_zero, e2 k (Nat.lt_succ_self k), hstep.2.1, r1]
          simp
        | succ j2 =>
          have hidx : k + (j2 + 1) = k + 1 + j2 := by omega
          rw [hidx, e3 j2 (by simpa using hj)]
          simp
    · obtain ⟨hm, hw, hig⟩ := addTokenMatcher_symbol b tok.1 tok.2 ht hvt
      have hstep : (b.consumeToken tok.1 tok.2).fMatchers
            = b.fMatchers ++ [symbolMatcher tok.1] ∧
          (b.consumeToken tok.1 tok.2).fWarehouse = b.fWarehouse ∧
          (b.consumeToken tok.1 tok.2).fIgnorables = none := by
        unfold AffixPatternMatcherBuilder.consumeToken
        rw [addIgnorables_none b hi]
        exact ⟨hm, hw, by show (b.addTokenMatcher tok.1 tok.2).fIgnorables = none; rw [hig, hi]⟩
      obtain ⟨e1, e2, e3⟩ := ih hvr k (b.consumeToken tok.1 tok.2) hstep.2.2
        (by rw [hstep.2.1]; exact hinv)
      have hlits : literalCodePoints (tok :: rest) = literalCodePoints rest := by
        simp [literalCodePoints, List.filter_cons, ht]
      refine ⟨?_, ?_, ?_⟩
      · show ((b.consumeToken tok.1 tok.2).consumeAll rest).fMatchers = _
        have hx : exactMatchers cap bs k (tok :: rest) =
            symbolMatcher tok.1 :: exactMatchers cap bs k rest := by
          rw [exactMatchers, if_neg ht]
        rw [e1, hstep.1, hx, List.append_assoc]
        rfl
      · intro i hi2
        show ((b.consumeToken tok.1 tok.2).consumeAll rest).fWarehouse.read _ = _
        rw [e2 i hi2, hstep.2.1]
      · intro j hj
        show ((b.consumeToken tok.1 tok.2).consumeAll rest).fWarehouse.read _ = _
        rw [hlits] at hj ⊢
        exact e3 j hj

/-- C25 (token-to-matcher mapping without ignorables).  Under
`PARSE_FLAG_EXACT_AFFIX` the ignorables matcher of the builder is null, and
for every non-empty pattern the matcher list of `fromAffixPattern` has exactly
one matcher per token, in token order: a minus, plus, percent or permille
token gives the matcher of that name, each of the five currency kinds the one
currency matcher, and the `j`-th literal token the code-point matcher in the
next free slot of the pool, which holds its code point after the call; slots
of different literal tokens are different. -/
theorem exact_affix_matchers (utils : AffixUtils AffixPatternProvider) (cap bs k : Nat)
    (warehouse : AffixTokenMatcherWarehouse) (affixPattern : List Nat) (parseFlags : Nat)
    (hbs : 0 < bs) (hpool : poolInvariant cap bs k warehouse)
    (hne : affixPattern ≠ [])
    (hflag : parseFlags &&& PARSE_FLAG_EXACT_AFFIX ≠ 0)
    (hv : ∀ tok ∈ utils.iterateWithConsumer affixPattern, isAffixPatternToken tok = true) :
    (AffixPatternMatcher.fromAffixPattern utils affixPattern warehouse parseFlags).1.fMatchers
      = exactMatchers cap bs k (utils.iterateWithConsumer affixPattern) ∧
    (AffixPatternMatcher.fromAffixPattern utils affixPattern warehouse
        parseFlags).1.fMatchers.length
      = (utils.iterateWithConsumer affixPattern).length ∧
    (∀ j, j < (literalCodePoints (utils.iterateWithConsumer affixPattern)).length →
      (AffixPatternMatcher.fromAffixPattern utils affixPattern warehouse parseFlags).2.2.read
          (slotOf cap bs (k + j))
        = (literalCodePoints (utils.iterateWithConsumer affixPattern))[j]?) ∧
    (∀ i j, slotOf cap bs (k + i) = slotOf cap bs (k + j) → i = j) := by
  have hempty : affixPattern.isEmpty = false := by
    cases affixPattern with
    | nil => exact absurd rfl hne
    | cons x xs => rfl
  have hfrom : AffixPatternMatcher.fromAffixPattern utils affixPattern warehouse parseFlags =
      (((AffixPatternMatcherBuilder.initial affixPattern warehouse none).consumeAll
          (utils.iterateWithConsumer affixPattern)).build, true,
        ((AffixPatternMatcherBuilder.initial affixPattern warehouse none).consumeAll
          (utils.iterateWithConsumer affixPattern)).fWarehouse) := by
    unfold AffixPatternMatcher.fromAffixPattern AffixPatternMatcher.compiled
      AffixPatternMatcherBuilder.initial
    rw [hempty, if_pos hflag]
    rfl
  obtain ⟨e1, -, e3⟩ := consumeAll_exact cap bs hbs (utils.iterateWithConsumer affixPattern) hv k
    (AffixPatternMatcherBuilder.initial affixPattern warehouse none) rfl hpool
  have hm : (AffixPatternMatcher.fromAffixPattern utils affixPattern warehouse
      parseFlags).1.fMatchers
      = exactMatchers cap bs k (utils.iterateWithConsumer affixPattern) := by
    rw [hfrom]
    show ((AffixPatternMatcherBuilder.initial affixPattern warehouse none).consumeAll
      (utils.iterateWithConsumer affixPattern)).fMatchers = _
    rw [e1]
    rfl
  refine ⟨hm, ?_, ?_, ?_⟩
  · rw [hm, exactMatchers_length]
  · intro j hj
    rw [hfrom]
    exact e3 j hj
  · intro i j h
    have := slotOf_injective cap bs h
    omega

/-- C25, at the pattern `a-b` followed by U+00A4, compiled on the sample pool
under `PARSE_FLAG_EXACT_AFFIX`. -/
theorem exact_affix_matchers_witness :
    (0 < 3 ∧ ([0x61, 0x2D, 0x62, 0xA4] : List Nat) ≠ [] ∧
      PARSE_FLAG_EXACT_AFFIX &&& PARSE_FLAG_EXACT_AFFIX ≠ 0 ∧
      ∀ tok ∈ sampleUtils.iterateWithConsumer [0x61, 0x2D, 0x62, 0xA4],
        isAffixPatternToken tok = true) ∧
    (AffixPatternMatcher.fromAffixPattern sampleUtils [0x61, 0x2D, 0x62, 0xA4] samplePool
        PARSE_FLAG_EXACT_AFFIX).1.fMatchers
      = [NumberParseMatcherRef.codePoint (CodePointSlot.inline 0),
         NumberParseMatcherRef.minusSign,
         NumberParseMatcherRef.codePoint (CodePointSlot.inline 1),
         NumberParseMatcherRef.currency] ∧
    (AffixPatternMatcher.fromAffixPattern sampleUtils [0x61, 0x2D, 0x62, 0xA4] samplePool
        PARSE_FLAG_EXACT_AFFIX).2.2.read (CodePointSlot.inline 1) = some 0x62 :=
  ⟨⟨by decide, by decide, by decide, by decide⟩,
    (exact_affix_matchers sampleUtils 2 3 0 samplePool [0x61, 0x2D, 0x62, 0xA4]
      PARSE_FLAG_EXACT_AFFIX (by decide) (poolInvariant_fresh 2 3 (by decide) _) (by decide)
      (by decide) (by decide)).1.trans (by decide),
    (exact_affix_matchers sampleUtils 2 3 0 samplePool [0x61, 0x2D, 0x62, 0xA4]
      PARSE_FLAG_EXACT_AFFIX (by decide) (poolInvariant_fresh 2 3 (by decide) _) (by decide)
      (by decide) (by decide)).2.2.1 1 (by decide)⟩

/-! ## Unterminated quotes in the user-facing syntax -/

theorem parseUserLoop_at_end (buffer : List Nat) (len fuel i state : Nat)
    (a : AffixPatternAppender) (h : len ≤ i) :
    parseUserAffixStringLoop buffer len fuel i state a = a := by
  cases fuel with
  | zero => rfl
  | succ f =>
    unfold parseUserAffixStringLoop
    rw [if_neg (by omega)]

theorem parseUserLoop_quoted_step (buffer : List Nat) (len fuel i : Nat)
    (a : AffixPatternAppender) (hi : i < len) (hc : buffer.getD i 0 ≠ 0x27) :
    parseUserAffixStringLoop buffer len (fuel + 1) i 1 a =
      parseUserAffixStringLoop buffer len fuel (i + (nextUserToken buffer i len).1) 1
        (if buffer.getD i 0 = 0xA4 then a.appendN 0xA4 (nextUserToken buffer i len).1
          else a.append (buffer.getD i 0)) := by
  have htok : (nextUserToken buffer i len).2 = buffer.getD i 0 := rfl
  rw [parseUserAffixStringLoop]
  simp only [if_pos hi, htok, hc, false_and, if_false, show ¬ ((1 : Nat) = 0) by decide]
  split_ifs <;> rfl

theorem parseUserLoop_toggle (buffer : List Nat) (len fuel i state : Nat)
    (a : AffixPatternAppender) (hi : i < len) (ht : nextUserToken buffer i len = (1, 0x27)) :
    parseUserAffixStringLoop buffer len (fuel + 1) i state a =
      parseUserAffixStringLoop buffer len fuel (i + 1) (1 - state) a := by
  rw [parseUserAffixStringLoop]
  simp only [if_pos hi, ht, and_self, if_true]

theorem unterminated_getD (s : List Nat) (j : Nat) (hj : j ≤ s.length) :
    (0x27 :: (s ++ [0x27])).getD j 0 = (0x27 :: s).getD j 0 := by
  cases j with
  | zero => rfl
  | succ m =>
    show (s ++ [0x27]).getD m 0 = s.getD m 0
    rw [List.getD_eq_getElem?_getD, List.getD_eq_getElem?_getD,
      List.getElem?_append_left (by omega)]

theorem unterminated_run (s : List Nat) (idx max : Nat) (hidx : idx ≤ s.length)
    (hc : (0x27 :: s).getD idx 0 ≠ 0x27) :
    ∀ fuel i, nextUserTokenRun (0x27 :: s) idx (s.length + 1) max fuel i =
      nextUserTokenRun (0x27 :: (s ++ [0x27])) idx (s.length + 2) max fuel i := by
  intro fuel
  induction fuel with
  | zero =>
    intro i
    rfl
  | succ f ih =>
    intro i
    rw [nextUserTokenRun, nextUserTokenRun, ih (i + 1)]
    by_cases hlt : idx + i < s.length + 1
    · rw [unterminated_getD s (idx + i) (by omega), unterminated_getD s idx hidx]
      have h2 : idx + i < s.length + 2 := by omega
      simp only [hlt, h2, true_and]
    · have hcond1 : ¬ (idx + i < s.length + 1 ∧ i < max ∧
          (0x27 :: s).getD (idx + i) 0 = (0x27 :: s).getD idx 0) := fun h => hlt h.1
      have hcond2 : ¬ (idx + i < s.length + 2 ∧ i < max ∧
          (0x27 :: (s ++ [0x27])).getD (idx + i) 0 = (0x27 :: (s ++ [0x27])).getD idx 0) := by
        rintro ⟨h1, -, h3⟩
        have hi : idx + i = s.length + 1 := by omega
        rw [hi, quoted_getD_close, unterminated_getD s idx hidx] at h3
        exact hc h3.symm
      rw [if_neg hcond1, if_neg hcond2]

theorem unterminated_nextUserToken (s : List Nat) (idx : Nat) (hidx : idx ≤ s.length)
    (hc : (0x27 :: s).getD idx 0 ≠ 0x27) :
    nextUserToken (0x27 :: s) idx (s.length + 1) =
      nextUserToken (0x27 :: (s ++ [0x27])) idx (s.length + 2) := by
  unfold nextUserToken
  simp only [unterminated_getD s idx hidx]
  rw [unterminated_run s idx _ hidx hc]

theorem unterminated_loop (s : List Nat) (hq : ∀ c ∈ s, c ≠ 0x27) :
    ∀ (fuel1 fuel2 i : Nat) (a : AffixPatternAppender), 1 ≤ i → i ≤ s.length + 1 →
      s.length + 1 - i ≤ fuel1 → s.length + 2 - i ≤ fuel2 →
      parseUserAffixStringLoop (0x27 :: s) (s.length + 1) fuel1 i 1 a =
        parseUserAffixStringLoop (0x27 :: (s ++ [0x27])) (s.length + 2) fuel2 i 1 a := by
  intro fuel1
  induction fuel1 with
  | zero =>
    intro fuel2 i a h1 h2 hf1 hf2
    have hi : i = s.length + 1 := by omega
    subst hi
    rw [parseUserLoop_at_end _ _ _ _ _ _ (Nat.le_refl _)]
    cases fuel2 with
    | zero => omega
    | succ f2 =>
      have hlen : (0x27 :: (s ++ [0x27])).length = s.length + 2 := by simp
      have hnt := nextUserToken_quote (0x27 :: (s ++ [0x27])) (s.length + 1)
        (quoted_getD_close s) (Or.inl (by rw [hlen]))
      rw [hlen] at hnt
      rw [parseUserLoop_toggle _ _ _ _ _ _ (by omega) hnt,
        parseUserLoop_at_end _ _ _ _ _ _ (by omega)]
  | succ f1 ih =>
    intro fuel2 i a h1 h2 hf1 hf2
    by_cases hi : i = s.length + 1
    · subst hi
      rw [parseUserLoop_at_end _ _ _ _ _ _ (Nat.le_refl _)]
      cases fuel2 with
      | zero => omega
      | succ f2 =>
        have hlen : (0x27 :: (s ++ [0x27])).length = s.length + 2 := by simp
        have hnt := nextUserToken_quote (0x27 :: (s ++ [0x27])) (s.length + 1)
          (quoted_getD_close s) (Or.inl (by rw [hlen]))
        rw [hlen] at hnt
        rw [parseUserLoop_toggle _ _ _ _ _ _ (by omega) hnt,
          parseUserLoop_at_end _ _ _ _ _ _ (by omega)]
    · have hlt : i < s.length + 1 := by omega
      cases fuel2 with
      | zero => omega
      | succ f2 =>
        obtain ⟨m, rfl⟩ : ∃ m, i = m + 1 := ⟨i - 1, by omega⟩
        have hc1 : (0x27 :: s).getD (m + 1) 0 ≠ 0x27 := by
          show s.getD m 0 ≠ 0x27
          exact hq _ (getD_mem_of_lt s m (by omega))
        have hc2 : (0x27 :: (s ++ [0x27])).getD (m + 1) 0 ≠ 0x27 := by
          rw [unterminated_getD s (m + 1) (by omega)]
          exact hc1
        have hlen1 : (0x27 :: s).length = s.length + 1 := by simp
        obtain ⟨-, hsz1, -, hsz2, -⟩ := nextUserToken_plain (0x27 :: s) (m + 1)
          (by rw [hlen1]; omega) hc1
        rw [hlen1] at hsz1 hsz2
        rw [parseUserLoop_quoted_step _ _ _ _ _ hlt hc1,
          parseUserLoop_quoted_step _ _ _ _ _ (by omega) hc2,
          ← unterminated_nextUserToken s (m + 1) (by omega) hc1,
          unterminated_getD s (m + 1) (by omega)]
        exact ih f2 _ _ (by omega) hsz2 (by omega) (by omega)

theorem parseUserAffixString_status (affixStr : List Nat) (appendTo : AffixPattern)
    (status : UErrorCode) :
    (AffixPattern.parseUserAffixString affixStr appendTo status).2 = status := by
  unfold AffixPattern.parseUserAffixString
  split <;> rfl

/-- C21, as stated, fails at the empty string `s`: the lone apostrophe parses
to the empty pattern, and the two apostrophes of `apostrophe + s + apostrophe`
are the escape of one literal apostrophe. -/
theorem unterminated_quote_counterexample :
    (∀ c ∈ ([] : List Nat), c ≠ 0x27) ∧
    (AffixPattern.parseUserAffixString (0x27 :: []) AffixPattern.empty
        UErrorCode.U_ZERO_ERROR).1 = AffixPattern.empty ∧
    (AffixPattern.parseUserAffixString (0x27 :: ([] ++ [0x27])) AffixPattern.empty
        UErrorCode.U_ZERO_ERROR).1 =
      { tokens := [PACK_TOKEN_AND_LENGTH kLiteral 1], literals := [0x27],
        hasCurrencyToken := false, hasPercentToken := false, hasPermillToken := false,
        char32Count := 1 } ∧
    (AffixPattern.parseUserAffixString (0x27 :: []) AffixPattern.empty
        UErrorCode.U_ZERO_ERROR).1 ≠
      (AffixPattern.parseUserAffixString (0x27 :: ([] ++ [0x27])) AffixPattern.empty
        UErrorCode.U_ZERO_ERROR).1 := by
  decide

/-- C21, amended.  `parseUserAffixString` never sets an error status, for any
input string; and for every non-empty string `s` that contains no apostrophe,
parsing `apostrophe + s` (the quote is never closed) gives the same pattern
(tokens, literal text, flags and character count) and status as parsing
`apostrophe + s + apostrophe`, on every pattern appended to. -/
theorem unterminated_quote (s : List Nat) (hne : s ≠ []) (hq : ∀ c ∈ s, c ≠ 0x27)
    (appendTo : AffixPattern) (status : UErrorCode) :
    AffixPattern.parseUserAffixString (0x27 :: s) appendTo status =
      AffixPattern.parseUserAffixString (0x27 :: (s ++ [0x27])) appendTo status ∧
    ∀ (affixStr : List Nat) (p : AffixPattern) (st : UErrorCode),
      (AffixPattern.parseUserAffixString affixStr p st).2 = st := by
  refine ⟨?_, parseUserAffixString_status⟩
  unfold AffixPattern.parseUserAffixString
  split
  · rfl
  · have hlen1 : (0x27 :: s).length = s.length + 1 := by simp
    have hlen2 : (0x27 :: (s ++ [0x27])).length = s.length + 2 := by simp
    have hs0 : s.getD 0 0 ≠ 0x27 := by
      cases s with
      | nil => exact absurd rfl hne
      | cons x xs => exact hq x (List.mem_cons_self _ _)
    have hn1 := nextUserToken_quote (0x27 :: s) 0 rfl (Or.inr hs0)
    have hn2 := nextUserToken_quote (0x27 :: (s ++ [0x27])) 0 rfl (Or.inr (by
      rw [unterminated_getD s 1 (by
        cases s with
        | nil => exact absurd rfl hne
        | cons x xs => simp)]
      exact hs0))
    rw [hlen1] at hn1
    rw [hlen2] at hn2
    rw [hlen1, hlen2, parseUserLoop_toggle _ _ s.length _ _ _ (by omega) hn1,
      parseUserLoop_toggle _ _ (s.length + 1) _ _ _ (by omega) hn2,
      unterminated_loop s hq s.length (s.length + 1) (0 + 1) _ (by omega) (by omega)
        (by omega) (by omega)]

/-- C21, amended, at the string `a` followed by two U+00A4. -/
theorem unterminated_quote_witness :
    (([0x61, 0xA4, 0xA4] : List Nat) ≠ [] ∧ ∀ c ∈ ([0x61, 0xA4, 0xA4] : List Nat), c ≠ 0x27) ∧
    AffixPattern.parseUserAffixString (0x27 :: [0x61, 0xA4, 0xA4]) AffixPattern.empty
        UErrorCode.U_ZERO_ERROR =
      AffixPattern.parseUserAffixString (0x27 :: ([0x61, 0xA4, 0xA4] ++ [0x27]))
        AffixPattern.empty UErrorCode.U_ZERO_ERROR ∧
    (AffixPattern.parseUserAffixString (0x27 :: [0x61, 0xA4, 0xA4]) AffixPattern.empty
        UErrorCode.U_ZERO_ERROR).1.literals = [0x61, 0xA4, 0xA4] :=
  ⟨⟨by decide, by decide⟩,
    (unterminated_quote [0x61, 0xA4, 0xA4] (by decide) (by decide) AffixPattern.empty
      UErrorCode.U_ZERO_ERROR).1, by decide⟩

/-! ## Only known tokens reach the renderer -/

theorem streamOf_add (p : AffixPattern) (toks : List LogicalToken) (t count : Nat)
    (ht0 : 0 < t) (ht : t < 128) (hc : count < 256) (hp : StreamOf p toks) :
    StreamOf (p.add t count) (toks ++ [LogicalToken.symbol t count]) := by
  obtain ⟨hf, hadj, htok, hlit⟩ := hp
  refine ⟨?_, ?_, ?_, ?_⟩
  · intro tok htk
    rcases List.mem_append.mp htk with h | h
    · exact hf tok h
    · simp only [List.mem_singleton] at h
      subst h
      exact ⟨ht0, ht, hc⟩
  · rw [List.chain'_append]
    refine ⟨hadj, List.chain'_singleton _, ?_⟩
    intro x _ y hy
    simp only [List.head?_cons, Option.mem_def, Option.some.injEq] at hy
    subst hy
    simp [LogicalToken.isLiteral]
  · simp [AffixPattern.add, htok, List.flatMap_append, LogicalToken.cells]
  · simp [AffixPattern.add, hlit, List.flatMap_append, LogicalToken.text]

theorem streamOf_addLiteral (p : AffixPattern) (toks : List LogicalToken) (s : List Nat)
    (hp : StreamOf p toks) :
    ∃ toks2, StreamOf (p.addLiteral s 0 s.length) toks2 ∧
      ∀ tok ∈ toks2, tok ∈ toks ∨ tok.isLiteral = true := by
  obtain ⟨hf, hadj, htok, hlit⟩ := hp
  rcases List.eq_nil_or_concat toks with hts | ⟨ts, last, hts⟩
  · subst hts
    refine ⟨[LogicalToken.literal s],
      ⟨by simp [LogicalToken.fits], List.chain'_singleton _, ?_, ?_⟩, ?_⟩
    · rw [addLiteral_after_symbol p s (Or.inl (by rw [htok]; rfl)), htok]
      simp [LogicalToken.cells]
    · rw [addLiteral_literals, hlit]
      simp [LogicalToken.text]
    · intro tok htk
      simp only [List.mem_singleton] at htk
      subst htk
      exact Or.inr rfl
  · rw [List.concat_eq_append] at hts
    subst hts
    cases last with
    | symbol t count =>
      have hft := hf (LogicalToken.symbol t count) (by simp)
      refine ⟨ts ++ [LogicalToken.symbol t count] ++ [LogicalToken.literal s],
        ⟨?_, ?_, ?_, ?_⟩, ?_⟩
      · intro tok htk
        rcases List.mem_append.mp htk with h | h
        · exact hf tok h
        · simp only [List.mem_singleton] at h
          subst h
          trivial
      · rw [List.chain'_append]
        refine ⟨hadj, List.chain'_singleton _, ?_⟩
        intro x hx y _
        have hl : (ts ++ [LogicalToken.symbol t count]).getLast?
            = some (LogicalToken.symbol t count) := by simp
        rw [Option.mem_def, hl] at hx
        injection hx with hx
        subst hx
        simp [LogicalToken.isLiteral]
      · rw [addLiteral_after_symbol p s (Or.inr ⟨ts.flatMap LogicalToken.cells,
          PACK_TOKEN_AND_LENGTH t count, by rw [htok]; simp [List.flatMap_append, LogicalToken.cells],
          by rw [UNPACK_TOKEN_PACK _ _ hft.2.1]; unfold kLiteral; exact Nat.ne_of_gt hft.1⟩), htok]
        simp [List.flatMap_append, LogicalToken.cells]
      · rw [addLiteral_literals, hlit]
        simp [List.flatMap_append, LogicalToken.text]
      · intro tok htk
        rcases List.mem_append.mp htk with h | h
        · exact Or.inl h
        · simp only [List.mem_singleton] at h
          subst h
          exact Or.inr rfl
    | literal s0 =>
      have hend := cells_end_not_literal ts (LogicalToken.literal s0) rfl
        (fun tok h => hf tok (by simp [h])) hadj
      have htok2 : p.tokens = ts.flatMap LogicalToken.cells ++ lengthChain s0.length := by
        rw [htok]; simp [List.flatMap_append, LogicalToken.cells]
      have hfind : AffixPattern.findLiteralStart p.tokens p.tokens.length 0 =
          ((ts.flatMap LogicalToken.cells).length, s0.length) := by
        rw [htok2, List.length_append, findLiteralStart_chain _ _ _ (lengthChain_literal _),
          chainValue_lengthChain, Nat.zero_mul, Nat.zero_add]
        apply findLiteralStart_fixed
        rcases hend with h | ⟨pre, c, h, hc⟩
        · left; rw [h]; rfl
        · right
          rw [h, List.length_append, List.length_singleton, Nat.add_sub_cancel,
            getD_append_length]
          exact hc
      refine ⟨ts ++ [LogicalToken.literal (s0 ++ s)], ⟨?_, ?_, ?_, ?_⟩, ?_⟩
      · intro tok htk
        rcases List.mem_append.mp htk with h | h
        · exact hf tok (by simp [h])
        · simp only [List.mem_singleton] at h
          subst h
          trivial
      · rw [List.chain'_append] at hadj ⊢
        refine ⟨hadj.1, List.chain'_singleton _, ?_⟩
        intro x hx y hy
        have := hadj.2.2 x hx (LogicalToken.literal s0) (by simp)
        simp only [List.head?_cons, Option.mem_def, Option.some.injEq] at hy
        subst hy
        simpa [LogicalToken.isLiteral] using this
      · rw [addLiteral_tokens, hfind, htok2]
        simp [List.flatMap_append, LogicalToken.cells]
      · rw [addLiteral_literals, hlit]
        simp [List.flatMap_append, LogicalToken.text]
      · intro tok htk
        rcases List.mem_append.mp htk with h | h
        · exact Or.inl (by simp [h])
        · simp only [List.mem_singleton] at h
          subst h
          exact Or.inr rfl

theorem known_fits (tok : LogicalToken) (h : tok.known = true) : tok.fits := by
  cases tok with
  | literal s => trivial
  | symbol t count =>
    simp only [LogicalToken.known, kPercent, kPerMill, kNegative, kCurrency, Bool.or_eq_true,
      Bool.and_eq_true, beq_iff_eq, decide_eq_true_eq] at h
    unfold LogicalToken.fits
    omega

theorem known_empty : KnownStream AffixPattern.empty :=
  ⟨[], ⟨by simp, List.chain'_nil, rfl, rfl⟩, by simp⟩

theorem known_add (p : AffixPattern) (t count : Nat)
    (hk : (LogicalToken.symbol t count).known = true) (hp : KnownStream p) :
    KnownStream (p.add t count) := by
  obtain ⟨toks, hs, hall⟩ := hp
  have hf := known_fits _ hk
  refine ⟨toks ++ [LogicalToken.symbol t count], streamOf_add p toks t count hf.1 hf.2.1 hf.2.2 hs,
    ?_⟩
  intro tok htk
  rcases List.mem_append.mp htk with h | h
  · exact hall tok h
  · simp only [List.mem_singleton] at h
    subst h
    exact hk

theorem known_addLiteral (p : AffixPattern) (s : List Nat) (hp : KnownStream p) :
    KnownStream (p.addLiteral s 0 s.length) := by
  obtain ⟨toks, hs, hall⟩ := hp
  obtain ⟨toks2, hs2, hsub⟩ := streamOf_addLiteral p toks s hs
  refine ⟨toks2, hs2, ?_⟩
  intro tok htk
  rcases hsub tok htk with h | h
  · exact hall tok h
  · cases tok with
    | literal s2 => rfl
    | symbol t count => cases h

theorem known_addLiteral_slice (p : AffixPattern) (literal : List Nat) (start len : Nat)
    (h : start + len ≤ literal.length) (hp : KnownStream p) :
    KnownStream (p.addLiteral literal start len) := by
  rw [addLiteral_slice p literal start len h]
  exact known_addLiteral p _ hp

theorem nextTokenRun_ge (buffer : List Nat) (idx len fuel i : Nat) :
    i ≤ nextTokenRun buffer idx len fuel i := by
  induction fuel generalizing i with
  | zero => exact Nat.le_refl i
  | succ f ih =>
    unfold nextTokenRun
    split
    · exact Nat.le_trans (Nat.le_succ i) (ih (i + 1))
    · exact Nat.le_refl i

theorem nextToken_size_ge (buffer : List Nat) (idx len : Nat) :
    1 ≤ (nextToken buffer idx len).1 := by
  unfold nextToken
  split_ifs
  · exact Nat.le_refl 1
  · exact Nat.le_trans (by decide) (nextTokenRun_ge buffer idx len 4 2)
  · exact Nat.le_succ 1

theorem literalRun_size_ge (buffer : List Nat) (len : Nat) :
    ∀ (fuel i tokenSize token : Nat), i ≤ len → len - i ≤ fuel →
      (literalRun buffer len fuel i tokenSize token).1 = len ∨
        2 ≤ (literalRun buffer len fuel i tokenSize token).2.1 := by
  intro fuel
  induction fuel with
  | zero =>
    intro i tokenSize token hi hf
    left
    show i = len
    omega
  | succ f ih =>
    intro i tokenSize token hi hf
    unfold literalRun
    split
    · split
      · exact ih _ _ _ (by omega) (by omega)
      · right
        have := nextToken_size_ge buffer i len
        show 2 ≤ (nextToken buffer i len).1
        omega
    · left
      show i = len
      omega

theorem known_parseAffixStringLoop (buffer : List Nat) (fuel i : Nat)
    (appendTo : AffixPattern) (status : UErrorCode) (hp : KnownStream appendTo) :
    KnownStream (parseAffixStringLoop buffer buffer.length fuel i appendTo status).1 := by
  induction fuel generalizing i appendTo with
  | zero => exact hp
  | succ f ih =>
    unfold parseAffixStringLoop
    by_cases hi : i < buffer.length
    · have hrun := literalRun_le buffer buffer.length (buffer.length - (i + 1)) (i + 1)
        (nextToken buffer i buffer.length).1 (nextToken buffer i buffer.length).2 (by omega)
      have hsize : (if (nextToken buffer i buffer.length).1 = 1 then
            literalRun buffer buffer.length (buffer.length - (i + 1)) (i + 1)
              (nextToken buffer i buffer.length).1 (nextToken buffer i buffer.length).2
          else (i, (nextToken buffer i buffer.length).1,
            (nextToken buffer i buffer.length).2)).2.1 ≤ 4 := by
        split
        · exact literalRun_size_le _ _ _ _ _ _ (nextToken_size_le buffer i buffer.length)
        · exact nextToken_size_le buffer i buffer.length
      have hsize2 : (if (nextToken buffer i buffer.length).1 = 1 then
            literalRun buffer buffer.length (buffer.length - (i + 1)) (i + 1)
              (nextToken buffer i buffer.length).1 (nextToken buffer i buffer.length).2
          else (i, (nextToken buffer i buffer.length).1,
            (nextToken buffer i buffer.length).2)).1 = buffer.length ∧
            (nextToken buffer i buffer.length).1 = 1 ∨
          2 ≤ (if (nextToken buffer i buffer.length).1 = 1 then
            literalRun buffer buffer.length (buffer.length - (i + 1)) (i + 1)
              (nextToken buffer i buffer.length).1 (nextToken buffer i buffer.length).2
          else (i, (nextToken buffer i buffer.length).1,
            (nextToken buffer i buffer.length).2)).2.1 := by
        split
        · rename_i h1
          rcases literalRun_size_ge buffer buffer.length (buffer.length - (i + 1)) (i + 1)
            (nextToken buffer i buffer.length).1 (nextToken buffer i buffer.length).2
            (by omega) (by omega) with h | h
          · exact Or.inl ⟨h, h1⟩
          · exact Or.inr h
        · rename_i h1
          right
          have := nextToken_size_ge buffer i buffer.length
          show 2 ≤ (nextToken buffer i buffer.length).1
          omega
      have hp1 : KnownStream (if (nextToken buffer i buffer.length).1 = 1 then
          appendTo.addLiteral buffer i
            ((if (nextToken buffer i buffer.length).1 = 1 then
              literalRun buffer buffer.length (buffer.length - (i + 1)) (i + 1)
                (nextToken buffer i buffer.length).1 (nextToken buffer i buffer.length).2
            else (i, (nextToken buffer i buffer.length).1,
              (nextToken buffer i buffer.length).2)).1 - i)
          else appendTo) := by
        split
        · exact known_addLiteral_slice _ _ _ _ (by omega) hp
        · exact hp
      simp only [if_pos hi]
      generalize (if (nextToken buffer i buffer.length).1 = 1 then
          appendTo.addLiteral buffer i
            ((if (nextToken buffer i buffer.length).1 = 1 then
              literalRun buffer buffer.length (buffer.length - (i + 1)) (i + 1)
                (nextToken buffer i buffer.length).1 (nextToken buffer i buffer.length).2
            else (i, (nextToken buffer i buffer.length).1,
              (nextToken buffer i buffer.length).2)).1 - i)
          else appendTo) = p1 at hp1 ⊢
      generalize (if (nextToken buffer i buffer.length).1 = 1 then
            literalRun buffer buffer.length (buffer.length - (i + 1)) (i + 1)
              (nextToken buffer i buffer.length).1 (nextToken buffer i buffer.length).2
          else (i, (nextToken buffer i buffer.length).1,
            (nextToken buffer i buffer.length).2)) = run at hsize hsize2 ⊢
      split_ifs with h1 h2 h3 h4 h5 h6
      · exact hp1
      · exact ih _ _ (known_add _ _ _ (by decide) hp1)
      · exact ih _ _ (known_add _ _ _ (by decide) hp1)
      · exact ih _ _ (known_add _ _ _ (by decide) hp1)
      · exact hp1
      · refine ih _ _ (known_add _ _ _ ?_ hp1)
        have hge : 2 ≤ run.2.1 := by
          rcases hsize2 with h | h
          · exact absurd ⟨h.2, h.1⟩ h1
          · exact h
        simp only [LogicalToken.known, kPercent, kPerMill, kNegative, kCurrency,
          Bool.or_eq_true, Bool.and_eq_true, beq_iff_eq, decide_eq_true_eq]
        right
        exact ⟨⟨trivial, by omega⟩, by omega⟩
      · exact ih _ _ (known_addLiteral_slice _ _ _ _ (by simp) hp1)
    · simp only [if_neg hi]
      exact hp

theorem known_parseAffixString (affixStr : List Nat) (status : UErrorCode) :
    KnownStream (AffixPattern.parseAffixString affixStr AffixPattern.empty status).1 := by
  unfold AffixPattern.parseAffixString
  split
  · exact known_empty
  · exact known_parseAffixStringLoop _ _ _ _ _ known_empty

theorem known_append (a : AffixPatternAppender) (x : Nat) (h : KnownStream a.fDest) :
    KnownStream (a.append x).fDest := by
  unfold AffixPatternAppender.append
  split
  · exact known_addLiteral _ _ h
  · exact h

theorem known_appendN (a : AffixPatternAppender) (x n : Nat) (h : KnownStream a.fDest) :
    KnownStream (a.appendN x n).fDest := by
  induction n generalizing a with
  | zero => exact h
  | succ m ih => exact ih _ (known_append a x h)

theorem known_flush (a : AffixPatternAppender) (h : KnownStream a.fDest) :
    KnownStream a.flush.fDest := by
  unfold AffixPatternAppender.flush
  split
  · exact known_addLiteral _ _ h
  · exact h

theorem known_flushAdd (a : AffixPatternAppender) (t count : Nat)
    (hk : (LogicalToken.symbol t count).known = true) (h : KnownStream a.fDest) :
    KnownStream (a.flushAdd t count).fDest :=
  known_add _ _ _ hk (known_flush a h)

theorem nextUserToken_size_ge (buffer : List Nat) (idx len : Nat) :
    1 ≤ (nextUserToken buffer idx len).1 :=
  (nextUserTokenRun_spec buffer idx len _ _ 1).1

theorem known_parseUserAffixStringLoop (buffer : List Nat) (len fuel i state : Nat)
    (a : AffixPatternAppender) (h : KnownStream a.fDest) :
    KnownStream (parseUserAffixStringLoop buffer len fuel i state a).fDest := by
  induction fuel generalizing i state a with
  | zero => exact h
  | succ f ih =>
    unfold parseUserAffixStringLoop
    have hsz := nextUserToken_size_le buffer i len
    have hsz1 := nextUserToken_size_ge buffer i len
    simp only
    split_ifs
    · exact ih _ _ _ h
    · exact ih _ _ _ (known_flushAdd _ _ _ (by decide) h)
    · exact ih _ _ _ (known_append _ _ h)
    · exact ih _ _ _ (known_flushAdd _ _ _ (by decide) h)
    · exact ih _ _ _ (known_flushAdd _ _ _ (by decide) h)
    · refine ih _ _ _ (known_flushAdd _ _ _ ?_ h)
      simp only [LogicalToken.known, kPercent, kPerMill, kNegative, kCurrency,
        Bool.or_eq_true, Bool.and_eq_true, beq_iff_eq, decide_eq_true_eq]
      right
      exact ⟨⟨trivial, by omega⟩, by omega⟩
    · exact ih _ _ _ (known_append _ _ h)
    · exact ih _ _ _ (known_append _ _ h)
    · exact ih _ _ _ (known_appendN _ _ _ h)
    · exact ih _ _ _ (known_append _ _ h)
    · exact h

theorem known_parseUserAffixString (affixStr : List Nat) (status : UErrorCode) :
    KnownStream (AffixPattern.parseUserAffixString affixStr AffixPattern.empty status).1 := by
  unfold AffixPattern.parseUserAffixString
  split
  · exact known_empty
  · exact known_flush _ (known_parseUserAffixStringLoop _ _ _ _ _ _ known_empty)

theorem forall₂_mem_right {α β : Type} (R : α → β → Prop) (l1 : List α) (l2 : List β)
    (h : List.Forall₂ R l1 l2) (x : β) (hx : x ∈ l2) : ∃ a ∈ l1, R a x := by
  induction h with
  | nil => cases hx
  | @cons a b l1 l2 hab _ ih =>
    rcases List.mem_cons.mp hx with h | h
    · subst h
      exact ⟨a, List.mem_cons_self _ _, hab⟩
    · obtain ⟨a2, ha2, hr⟩ := ih h
      exact ⟨a2, List.mem_cons_of_mem _ ha2, hr⟩

theorem knownToken_of_agrees (tok : LogicalToken) (x : AffixPatternIterator)
    (hk : tok.known = true) (ha : tok.agrees x) : knownToken x = true := by
  cases tok with
  | literal s =>
    obtain ⟨h1, -, -⟩ := ha
    simp [knownToken, h1]
  | symbol t count =>
    obtain ⟨h1, h2⟩ := ha
    simp only [LogicalToken.known, Bool.or_eq_true, Bool.and_eq_true, beq_iff_eq,
      decide_eq_true_eq] at hk
    simp only [knownToken, h1, h2, Bool.or_eq_true, Bool.and_eq_true, beq_iff_eq]
    rcases hk with ⟨(h | h) | h, -⟩ | ⟨⟨h, hlo⟩, hhi⟩
    · exact Or.inl (Or.inl (Or.inl (Or.inl h)))
    · exact Or.inl (Or.inl (Or.inl (Or.inr h)))
    · exact Or.inl (Or.inl (Or.inr h))
    · right
      refine ⟨h, ?_⟩
      have : count = 1 ∨ count = 2 ∨ count = 3 := by omega
      rcases this with h1 | h1 | h1
      · exact Or.inl (Or.inl h1)
      · exact Or.inl (Or.inr h1)
      · exact Or.inr h1

theorem known_replayAll (p : AffixPattern) (h : KnownStream p) :
    ∀ x ∈ p.replayAll.1, knownToken x = true := by
  obtain ⟨toks, ⟨-, -, htok, hlit⟩, hall⟩ := h
  have hrep := (replayAll_of_stream p toks (fun tok ht => known_fits tok (hall tok ht))
    htok hlit).1
  intro x hx
  obtain ⟨tok, htk, hag⟩ := forall₂_mem_right _ _ _ hrep x hx
  exact knownToken_of_agrees tok x (hall tok htk) hag

theorem toUserStringLoop_some (fuel : Nat) (it : AffixPatternIterator) (appender : List Nat)
    (hk : ∀ x ∈ (AffixPatternIterator.replay fuel it).1, knownToken x = true) :
    ∃ r, toUserStringLoop fuel it appender = some r := by
  induction fuel generalizing it appender with
  | zero => exact ⟨appender, rfl⟩
  | succ f ih =>
    unfold toUserStringLoop
    by_cases hnt : it.nextToken.1 = true
    · have hrep := replay_succ_true f it it.nextToken.2 (by rw [← hnt])
      rw [hrep] at hk
      have hknown := hk it.nextToken.2 (by simp)
      have hrest : ∀ x ∈ (AffixPatternIterator.replay f it.nextToken.2).1, knownToken x = true :=
        fun x hx => hk x (by simp [hx])
      simp only [if_pos hnt]
      simp only [knownToken, Bool.or_eq_true, Bool.and_eq_true, beq_iff_eq] at hknown
      split_ifs with h1 h2 h3 h4 h5
      · exact ih _ _ hrest
      · exact ih _ _ hrest
      · exact ih _ _ hrest
      · exact ih _ _ hrest
      · exact ih _ _ hrest
      · exfalso
        rcases hknown with (((h | h) | h) | h) | h
        · exact h2 h
        · exact h3 h
        · exact h5 h
        · exact h1 h
        · exact h4 h.1
    · have hf : it.nextToken.1 = false := by simpa using hnt
      simp only [hf, Bool.false_eq_true, if_false]
      exact ⟨appender, rfl⟩

/-- C26 (impossible currency lengths never reach the renderer).  For every
input string and status on entry, every decoded token of the pattern that
`parseAffixString` or `parseUserAffixString` builds on an empty pattern has
one of the five known kinds, a currency token with length 1, 2 or 3; hence
`AffixPatternParser::parse` and `AffixPattern::toUserString` return on such a
pattern without reaching their `U_ASSERT(FALSE)` branch. -/
theorem known_tokens_only (affixStr : List Nat) (status : UErrorCode) :
    (∀ x ∈ (AffixPattern.parseAffixString affixStr AffixPattern.empty status).1.replayAll.1,
      knownToken x = true) ∧
    (∀ x ∈ (AffixPattern.parseUserAffixString affixStr AffixPattern.empty status).1.replayAll.1,
      knownToken x = true) ∧
    (∀ (self : AffixPatternParser) (info : CurrencyAffixInfo) (appendTo : PluralAffix)
        (st : UErrorCode),
      (∃ r, self.parse (AffixPattern.parseAffixString affixStr AffixPattern.empty status).1
        info appendTo st = some r) ∧
      (∃ r, self.parse (AffixPattern.parseUserAffixString affixStr AffixPattern.empty status).1
        info appendTo st = some r)) ∧
    (∀ appendTo : List Nat,
      (∃ r, (AffixPattern.parseAffixString affixStr AffixPattern.empty status).1.toUserString
        appendTo = some r) ∧
      (∃ r, (AffixPattern.parseUserAffixString affixStr AffixPattern.empty status).1.toUserString
        appendTo = some r)) := by
  have h1 := known_replayAll _ (known_parseAffixString affixStr status)
  have h2 := known_replayAll _ (known_parseUserAffixString affixStr status)
  refine ⟨h1, h2, ?_, ?_⟩
  · intro self info appendTo st
    unfold AffixPatternParser.parse
    constructor
    · split
      · exact ⟨appendTo, rfl⟩
      · obtain ⟨r, hr, -⟩ := parseLoop_spans self info _ _ appendTo h1
        exact ⟨r, hr⟩
    · split
      · exact ⟨appendTo, rfl⟩
      · obtain ⟨r, hr, -⟩ := parseLoop_spans self info _ _ appendTo h2
        exact ⟨r, hr⟩
  · intro appendTo
    exact ⟨toUserStringLoop_some _ _ appendTo h1, toUserStringLoop_some _ _ appendTo h2⟩

/-! ## Well-formed streams and in-bounds decoding -/

theorem chainsSeparated_longs (longs rest : List Nat)
    (hl : ∀ c ∈ longs, UNPACK_LONG c ≠ 0 ∧ UNPACK_TOKEN c = kLiteral) :
    chainsSeparated true (longs ++ rest) = chainsSeparated true rest := by
  induction longs with
  | nil => rfl
  | cons c cs ih =>
    have hc := hl c (List.mem_cons_self _ _)
    show chainsSeparated true (c :: (cs ++ rest)) = _
    rw [chainsSeparated, if_pos hc.1, hc.2]
    simp only [Bool.true_and, decide_True]
    exact ih (fun x hx => hl x (List.mem_cons_of_mem _ hx))

theorem chainsSeparated_stream (toks : List LogicalToken) :
    ∀ prev : Bool, (∀ tok ∈ toks, tok.fits) →
      List.Chain' (fun a b => ¬ (a.isLiteral = true ∧ b.isLiteral = true)) toks →
      (prev = true → ∀ tok, toks.head? = some tok → tok.isLiteral = false) →
      chainsSeparated prev (toks.flatMap LogicalToken.cells) = true := by
  induction toks with
  | nil =>
    intro _ _ _ _
    rfl
  | cons tok rest ih =>
    intro prev hf hadj hprev
    have hfr : ∀ t ∈ rest, t.fits := fun t ht => hf t (List.mem_cons_of_mem _ ht)
    have hadjr := List.Chain'.tail hadj
    rw [List.flatMap_cons]
    cases tok with
    | symbol t count =>
      have hft := hf (LogicalToken.symbol t count) (List.mem_cons_self _ _)
      have hne : UNPACK_TOKEN (PACK_TOKEN_AND_LENGTH t count) ≠ kLiteral := by
        rw [UNPACK_TOKEN_PACK _ _ hft.2.1]
        unfold kLiteral
        exact Nat.ne_of_gt hft.1
      show chainsSeparated prev (PACK_TOKEN_AND_LENGTH t count
        :: rest.flatMap LogicalToken.cells) = true
      rw [chainsSeparated, if_neg (by rw [UNPACK_LONG_PACK _ _ hft.2.1]; simp), if_neg hne]
      simp only [Bool.true_and, hne, decide_False]
      exact ih false hfr hadjr (fun h => by cases h)
    | literal s =>
      have hpf : prev = false := by
        cases prev with
        | false => rfl
        | true => exact absurd (hprev rfl _ rfl) (by simp [LogicalToken.isLiteral])
      subst hpf
      show chainsSeparated false ((PACK_TOKEN_AND_LENGTH kLiteral (s.length &&& 0xFF)
        :: AffixPattern.encodeLongCells s.length (s.length >>> 8))
          ++ rest.flatMap LogicalToken.cells) = true
      have hty : UNPACK_TOKEN (PACK_TOKEN_AND_LENGTH kLiteral (s.length &&& 0xFF)) = kLiteral :=
        UNPACK_TOKEN_PACK _ _ (by decide)
      rw [List.cons_append, chainsSeparated,
        if_neg (by rw [lengthChain_head_not_long]; simp), if_pos hty, hty]
      simp only [Bool.not_false, Bool.true_and, decide_True]
      rw [chainsSeparated_longs _ _ (encodeLongCells_long _ _)]
      apply ih true hfr hadjr
      intro _ tok2 htok2
      cases rest with
      | nil => cases htok2
      | cons b rest2 =>
        simp only [List.head?_cons, Option.some.injEq] at htok2
        subst htok2
        have := List.Chain'.rel_head hadj
        cases hb : b.isLiteral with
        | false => rfl
        | true => exact absurd ⟨rfl, hb⟩ this

theorem chainsSeparated_index (l : List Nat) :
    ∀ prev : Bool, chainsSeparated prev l = true → ∀ i c, l[i]? = some c →
      (UNPACK_LONG c = 0 ∧ UNPACK_TOKEN c = kLiteral →
        (i = 0 ∧ prev = false) ∨
          (1 ≤ i ∧ ∃ d, l[i - 1]? = some d ∧ UNPACK_TOKEN d ≠ kLiteral)) ∧
      (UNPACK_LONG c ≠ 0 →
        (i = 0 ∧ prev = true) ∨
          (1 ≤ i ∧ ∃ d, l[i - 1]? = some d ∧ UNPACK_TOKEN d = kLiteral)) := by
  induction l with
  | nil =>
    intro _ _ i c h
    simp at h
  | cons c0 cs ih =>
    intro prev h i c hc
    rw [chainsSeparated, Bool.and_eq_true] at h
    obtain ⟨hhead, htail⟩ := h
    cases i with
    | zero =>
      simp only [List.getElem?_cons_zero, Option.some.injEq] at hc
      subst hc
      constructor
      · rintro ⟨h1, h2⟩
        left
        rw [if_neg (by rw [h1]; simp), if_pos h2] at hhead
        exact ⟨rfl, by simpa using hhead⟩
      · intro h1
        left
        rw [if_pos h1] at hhead
        exact ⟨rfl, hhead⟩
    | succ j =>
      have hc2 : cs[j]? = some c := by simpa using hc
      obtain ⟨ia, ib⟩ := ih _ htail j c hc2
      constructor
      · intro h1
        right
        refine ⟨by omega, ?_⟩
        rcases ia h1 with ⟨hj, hp⟩ | ⟨hj, d, hd, hdt⟩
        · subst hj
          exact ⟨c0, by simp, by simpa using hp⟩
        · refine ⟨d, ?_, hdt⟩
          obtain ⟨m, rfl⟩ : ∃ m, j = m + 1 := ⟨j - 1, by omega⟩
          simpa using hd
      · intro h1
        right
        refine ⟨by omega, ?_⟩
        rcases ib h1 with ⟨hj, hp⟩ | ⟨hj, d, hd, hdt⟩
        · subst hj
          exact ⟨c0, by simp, by simpa using hp⟩
        · refine ⟨d, ?_, hdt⟩
          obtain ⟨m, rfl⟩ : ∃ m, j = m + 1 := ⟨j - 1, by omega⟩
          simpa using hd

theorem replay_bounds (toks : List LogicalToken) (hf : ∀ tok ∈ toks, tok.fits)
    (pre lpre : List Nat) (ll fuel : Nat) (hfuel : toks.length < fuel)
    (hll : ll ≤ lpre.length) :
    (∀ x ∈ (AffixPatternIterator.replay fuel
        { nextLiteralIndex := lpre.length, lastLiteralLength := ll, nextTokenIndex := pre.length,
          tokens := pre ++ toks.flatMap LogicalToken.cells,
          literals := lpre ++ toks.flatMap LogicalToken.text }).1, x.inBounds = true) ∧
    (AffixPatternIterator.replay fuel
        { nextLiteralIndex := lpre.length, lastLiteralLength := ll, nextTokenIndex := pre.length,
          tokens := pre ++ toks.flatMap LogicalToken.cells,
          literals := lpre ++ toks.flatMap LogicalToken.text }).2.inBounds = true := by
  induction toks generalizing pre lpre ll fuel with
  | nil =>
    obtain ⟨f, rfl⟩ : ∃ f, fuel = f + 1 := ⟨fuel - 1, by simp at hfuel; omega⟩
    rw [replay_succ_false f _ _ (nextToken_end _ (by simp))]
    refine ⟨fun x hx => absurd hx (List.not_mem_nil x), ?_⟩
    simp [AffixPatternIterator.inBounds, hll]
  | cons tok rest ih =>
    obtain ⟨f, rfl⟩ : ∃ f, fuel = f + 1 := ⟨fuel - 1, by simp at hfuel; omega⟩
    have hfr : ∀ t ∈ rest, t.fits := fun t ht => hf t (by simp [ht])
    have hlt : rest.length < f := by simpa using hfuel
    have hhead := flatMap_cells_head_not_long rest hfr
    cases tok with
    | literal s =>
      have hnt := nextToken_chain pre (rest.flatMap LogicalToken.cells) s.length lpre.length ll
        (lpre ++ (LogicalToken.literal s :: rest).flatMap LogicalToken.text) hhead
      have htoks : pre ++ (LogicalToken.literal s :: rest).flatMap LogicalToken.cells =
          pre ++ lengthChain s.length ++ rest.flatMap LogicalToken.cells := by
        simp [LogicalToken.cells]
      rw [htoks, replay_succ_true f _ _ hnt]
      have hih := ih hfr (pre ++ lengthChain s.length) (lpre ++ s) s.length f hlt
        (by rw [List.length_append]; omega)
      have hlits : lpre ++ (LogicalToken.literal s :: rest).flatMap LogicalToken.text =
          lpre ++ s ++ rest.flatMap LogicalToken.text := by
        simp [LogicalToken.text]
      rw [hlits]
      rw [List.length_append pre, List.length_append lpre] at hih
      refine ⟨?_, hih.2⟩
      intro x hx
      rcases List.mem_cons.mp hx with h | h
      · subst h
        simp only [AffixPatternIterator.inBounds, List.length_append, Bool.and_eq_true,
          decide_eq_true_eq]
        omega
      · exact hih.1 x h
    | symbol t count =>
      have hft := hf (LogicalToken.symbol t count) (by simp)
      have hne : UNPACK_TOKEN (PACK_TOKEN_AND_LENGTH t count) ≠ kLiteral := by
        rw [UNPACK_TOKEN_PACK _ _ hft.2.1]
        unfold kLiteral
        exact Nat.ne_of_gt hft.1
      have hnt := nextToken_symbol pre (rest.flatMap LogicalToken.cells)
        (PACK_TOKEN_AND_LENGTH t count) lpre.length ll
        (lpre ++ (LogicalToken.symbol t count :: rest).flatMap LogicalToken.text) hne
      have htoks : pre ++ (LogicalToken.symbol t count :: rest).flatMap LogicalToken.cells =
          pre ++ PACK_TOKEN_AND_LENGTH t count :: rest.flatMap LogicalToken.cells := by
        simp [LogicalToken.cells]
      rw [htoks, replay_succ_true f _ _ hnt]
      have hih := ih hfr (pre ++ [PACK_TOKEN_AND_LENGTH t count]) lpre ll f hlt hll
      have hlits : lpre ++ (LogicalToken.symbol t count :: rest).flatMap LogicalToken.text =
          lpre ++ rest.flatMap LogicalToken.text := by
        simp [LogicalToken.text]
      have hre : pre ++ [PACK_TOKEN_AND_LENGTH t count] ++ rest.flatMap LogicalToken.cells =
          pre ++ PACK_TOKEN_AND_LENGTH t count :: rest.flatMap LogicalToken.cells := by simp
      rw [hlits]
      rw [List.length_append pre, List.length_singleton, hre] at hih
      refine ⟨?_, hih.2⟩
      intro x hx
      rcases List.mem_cons.mp hx with h | h
      · subst h
        simp only [AffixPatternIterator.inBounds, List.length_append, List.length_cons,
          Bool.and_eq_true, decide_eq_true_eq]
        omega
      · exact hih.1 x h

theorem replayAll_bounds (p : AffixPattern) (hp : Good p) :
    (∀ x ∈ p.replayAll.1, x.inBounds = true) ∧ p.replayAll.2.inBounds = true := by
  obtain ⟨toks, ⟨hf, -, htok, hlit⟩, -⟩ := hp
  have h := replay_bounds toks hf [] [] 0 (p.tokens.length + 1)
    (by rw [htok]; exact Nat.lt_succ_of_le (flatMap_cells_length toks)) (Nat.le_refl _)
  simp only [List.nil_append, List.length_nil] at h
  unfold AffixPattern.replayAll AffixPattern.iterator
  rw [htok, hlit]
  rw [htok] at h
  exact h

theorem literalLength_sum (toks : List LogicalToken) (states : List AffixPatternIterator)
    (hf : ∀ tok ∈ toks, tok.fits)
    (h : List.Forall₂ LogicalToken.agrees toks states) :
    (states.map (fun it =>
      if it.getTokenType = kLiteral then it.getTokenLength else 0)).sum
      = (toks.flatMap LogicalToken.text).length := by
  induction h with
  | nil => rfl
  | @cons tok it toks2 states2 hhead _ ih =>
    have hrest := ih (fun t ht => hf t (List.mem_cons_of_mem _ ht))
    rw [List.map_cons, List.sum_cons, hrest, List.flatMap_cons, List.length_append]
    congr 1
    cases tok with
    | literal s =>
      obtain ⟨h1, h2, -⟩ := hhead
      rw [if_pos h1, h2]
      rfl
    | symbol t count =>
      obtain ⟨h1, -⟩ := hhead
      have hft := hf (LogicalToken.symbol t count) (List.mem_cons_self _ _)
      have hne : it.getTokenType ≠ kLiteral := by
        rw [h1]
        unfold kLiteral
        exact Nat.ne_of_gt hft.1
      rw [if_neg hne]
      rfl

/-- C27 (stream well-formedness and in-bounds decoding).  After any sequence
of admissible `add` / `addCurrency` / `addLiteral` / `remove` calls on an
empty pattern: every cell of literal kind without the long bit is at index 0
or preceded by a cell of another kind, and every long cell is preceded by a
cell of literal kind, so no two length chains are adjacent; the decoded
literal lengths sum to `literals.length()`; and at every step of the
iterator (at the start, after every call of `nextToken` that returned true,
and after the one that returned false) `lastLiteralLength <= nextLiteralIndex
<= literals.length()` and `nextTokenIndex <= tokens.length()`. -/
theorem stream_wellFormed (ops : List Op) (hv : ∀ op ∈ ops, op.valid = true) :
    chainsSeparated false (runOps ops).tokens = true ∧
    (∀ i c, (runOps ops).tokens[i]? = some c →
      (UNPACK_LONG c = 0 ∧ UNPACK_TOKEN c = kLiteral →
        i = 0 ∨ ∃ d, (runOps ops).tokens[i - 1]? = some d ∧ UNPACK_TOKEN d ≠ kLiteral) ∧
      (UNPACK_LONG c ≠ 0 →
        1 ≤ i ∧ ∃ d, (runOps ops).tokens[i - 1]? = some d ∧ UNPACK_TOKEN d = kLiteral)) ∧
    decodedLiteralLength (runOps ops) = (runOps ops).literals.length ∧
    (runOps ops).iterator.inBounds = true ∧
    (∀ x ∈ (runOps ops).replayAll.1, x.inBounds = true) ∧
    (runOps ops).replayAll.2.inBounds = true := by
  have hgood := good_runOps ops hv
  have hb := replayAll_bounds _ hgood
  obtain ⟨toks, ⟨hf, hadj, htok, hlit⟩, -⟩ := hgood
  have hsep : chainsSeparated false (runOps ops).tokens = true := by
    rw [htok]
    exact chainsSeparated_stream toks false hf hadj (fun h => by cases h)
  refine ⟨hsep, ?_, ?_, ?_, hb.1, hb.2⟩
  · intro i c hc
    obtain ⟨ia, ib⟩ := chainsSeparated_index _ false hsep i c hc
    constructor
    · intro h
      rcases ia h with ⟨h0, -⟩ | ⟨-, hd⟩
      · exact Or.inl h0
      · exact Or.inr hd
    · intro h
      rcases ib h with ⟨-, hp⟩ | hd
      · cases hp
      · exact hd
  · unfold decodedLiteralLength
    rw [literalLength_sum toks _ hf (replayAll_of_stream _ toks hf htok hlit).1, hlit]
  · simp [AffixPatternIterator.inBounds, AffixPattern.iterator]

set_option maxRecDepth 100000 in
/-- C27, at the sample call sequence followed by two literals that merge into
a chain of two cells (300 code units) and a currency token. -/
theorem stream_wellFormed_witness :
    (∀ op ∈ sampleOps ++ [Op.addLiteral (List.replicate 200 0x61),
        Op.addLiteral (List.replicate 100 0x62), Op.addCurrency 2], op.valid = true) ∧
    (runOps (sampleOps ++ [Op.addLiteral (List.replicate 200 0x61),
        Op.addLiteral (List.replicate 100 0x62), Op.addCurrency 2])).tokens
      = [PACK_TOKEN_AND_LENGTH kPercent 1, 0x002D, 0x8001, PACK_TOKEN_AND_LENGTH kCurrency 2] ∧
    chainsSeparated false (runOps (sampleOps ++ [Op.addLiteral (List.replicate 200 0x61),
        Op.addLiteral (List.replicate 100 0x62), Op.addCurrency 2])).tokens = true ∧
    decodedLiteralLength (runOps (sampleOps ++ [Op.addLiteral (List.replicate 200 0x61),
        Op.addLiteral (List.replicate 100 0x62), Op.addCurrency 2])) = 301 :=
  ⟨by decide, by decide,
    (stream_wellFormed (sampleOps ++ [Op.addLiteral (List.replicate 200 0x61),
      Op.addLiteral (List.replicate 100 0x62), Op.addCurrency 2]) (by decide)).1,
    (stream_wellFormed (sampleOps ++ [Op.addLiteral (List.replicate 200 0x61),
      Op.addLiteral (List.replicate 100 0x62), Op.addCurrency 2])
        (by decide)).2.2.1.trans (by decide)⟩

/-! ## The user string of a pattern -/

/-- C28 (user-string round trip), at the string of two apostrophes: its
pattern `p` is the one-character literal apostrophe, `p.toUserString()` is
four apostrophes, and `parseUserAffixString` reads these as two escaped
apostrophes, a literal of two characters, so the round trip changes both the
token stream and the literal text.  A literal that begins or ends with an
apostrophe and has another character (`'a` from three apostrophes and `a`
followed by an apostrophe, `a'` likewise) does come back unchanged. -/
theorem userString_roundTrip_apostrophe :
    (AffixPattern.parseUserAffixString [0x27, 0x27] AffixPattern.empty
        UErrorCode.U_ZERO_ERROR).1 =
      { tokens := [PACK_TOKEN_AND_LENGTH kLiteral 1], literals := [0x27],
        hasCurrencyToken := false, hasPercentToken := false, hasPermillToken := false,
        char32Count := 1 } ∧
    (AffixPattern.parseUserAffixString [0x27, 0x27] AffixPattern.empty
        UErrorCode.U_ZERO_ERROR).1.toUserString [] = some [0x27, 0x27, 0x27, 0x27] ∧
    (AffixPattern.parseUserAffixString [0x27, 0x27, 0x27, 0x27] AffixPattern.empty
        UErrorCode.U_ZERO_ERROR).1 =
      { tokens := [PACK_TOKEN_AND_LENGTH kLiteral 2], literals := [0x27, 0x27],
        hasCurrencyToken := false, hasPercentToken := false, hasPermillToken := false,
        char32Count := 2 } ∧
    ((AffixPattern.parseUserAffixString [0x27, 0x27, 0x61] AffixPattern.empty
        UErrorCode.U_ZERO_ERROR).1.literals = [0x27, 0x61] ∧
      (AffixPattern.parseUserAffixString [0x27, 0x27, 0x61] AffixPattern.empty
        UErrorCode.U_ZERO_ERROR).1.toUserString [] = some [0x27, 0x27, 0x27, 0x61, 0x27] ∧
      (AffixPattern.parseUserAffixString [0x27, 0x27, 0x27, 0x61, 0x27] AffixPattern.empty
          UErrorCode.U_ZERO_ERROR).1 =
        (AffixPattern.parseUserAffixString [0x27, 0x27, 0x61] AffixPattern.empty
          UErrorCode.U_ZERO_ERROR).1) ∧
    ((AffixPattern.parseUserAffixString [0x61, 0x27, 0x27] AffixPattern.empty
        UErrorCode.U_ZERO_ERROR).1.literals = [0x61, 0x27] ∧
      (AffixPattern.parseUserAffixString [0x61, 0x27, 0x27] AffixPattern.empty
        UErrorCode.U_ZERO_ERROR).1.toUserString [] = some [0x27, 0x61, 0x27, 0x27, 0x27] ∧
      (AffixPattern.parseUserAffixString [0x27, 0x61, 0x27, 0x27, 0x27] AffixPattern.empty
          UErrorCode.U_ZERO_ERROR).1 =
        (AffixPattern.parseUserAffixString [0x61, 0x27, 0x27] AffixPattern.empty
          UErrorCode.U_ZERO_ERROR).1) := by
  decide

end Icu
